import Mathlib

/-! # Si4703 FM tuner driver (`Libraries/RaspberryPi/src/SparkFunSi4703.cpp`)

A shallow embedding of the Raspberry Pi driver class `Si4703_Breakout` and
theorems about its register transactions, channel/frequency mapping, volume,
RDS decoding and seeking.

Conventions of the embedding

* `uint16_t` values are natural numbers; every place where C++ narrows a wider
  `int` back to 16 bits carries an explicit `% 65536`.
* `float` values are rational numbers.  The functions `channelSpacing`,
  `minFrequency`, `channelToFrequency`, `frequencyToChannel`, `FloatsEqual` and
  `setFrequency` compute with them exactly; this is the reading of the
  statements that are made over exact arithmetic.  The functions of the same
  names in `Binary32` round the result of every operation to single
  precision, as the compiled code does.
* The two-wire bus, the millisecond clock and `delay` are external.  They are
  represented by a `Chip`, an oracle that answers the n-th `read(2)`, the n-th
  `write(2)` and the n-th `millis()` call.  The driver object carries counters
  that say how many calls were made and a log of the bus transactions.
* The host is little-endian (Raspberry Pi): the 16-bit word at index `i` of a
  byte buffer is `byte[2i] + 256 * byte[2i+1]`.
* The clock is the monotonic millisecond clock of the specification: a
  reading is the previous reading plus a non-negative amount chosen by the
  oracle, so it never runs backwards; it does not wrap around during a call,
  and `long` arithmetic on clock readings is exact integer arithmetic.
* The polling loops of the driver have no bound in the source.  Their
  embedding takes a `fuel` argument, and the result `none` means that the loop
  was still running when the fuel was used up.  The result `none` also stands
  for a call whose C++ behaviour is undefined because `minFrequency` has no
  `case` for the band of the object.  The functions in `Watch` embed the same
  loops and also give the driver object reached when the fuel is used up.
-/

namespace Si4703

/-! ## Constants of the header `SparkFunSi4703.h` -/

/-- Modelled from the spec: return code `FAIL` of `SparkFunSi4703.h` (the
header is not part of the sources; `seek` "returns zero if failed"). -/
def FAIL : Nat := 0

/-- Modelled from the spec: return code `SUCCESS` of `SparkFunSi4703.h`. -/
def SUCCESS : Nat := 1

/-- Modelled from the spec: register index of POWERCFG in `SparkFunSi4703.h`
(the header is not part of the sources; Si4703 register map). -/
def POWERCFG : Fin 16 := 0x02

/-- Modelled from the spec: register index of CHANNEL in `SparkFunSi4703.h`. -/
def CHANNEL : Fin 16 := 0x03

/-- Modelled from the spec: register index of SYSCONFIG1 in `SparkFunSi4703.h`. -/
def SYSCONFIG1 : Fin 16 := 0x04

/-- Modelled from the spec: register index of SYSCONFIG2 in `SparkFunSi4703.h`. -/
def SYSCONFIG2 : Fin 16 := 0x05

/-- Modelled from the spec: register index of STATUSRSSI in `SparkFunSi4703.h`. -/
def STATUSRSSI : Fin 16 := 0x0A

/-- Modelled from the spec: register index of READCHAN in `SparkFunSi4703.h`. -/
def READCHAN : Fin 16 := 0x0B

/-- Modelled from the spec: register index of RDSB in `SparkFunSi4703.h`. -/
def RDSB : Fin 16 := 0x0D

/-- Modelled from the spec: register index of RDSD in `SparkFunSi4703.h`. -/
def RDSD : Fin 16 := 0x0F

/-- Modelled from the spec: POWERCFG seek-mode (wrap) mask, bit 10. -/
def SKMODE : Nat := 0x0400

/-- Modelled from the spec: POWERCFG seek-up mask, bit 9. -/
def SEEKUP : Nat := 0x0200

/-- Modelled from the spec: POWERCFG seek-start mask, bit 8. -/
def SEEK : Nat := 0x0100

/-- Modelled from the spec: CHANNEL tune-start mask, bit 15. -/
def TUNE : Nat := 0x8000

/-- Modelled from the spec: SYSCONFIG1 RDS-enable mask, bit 12. -/
def RDS : Nat := 0x1000

/-- Modelled from the spec: SYSCONFIG1 de-emphasis mask, bit 11. -/
def DE : Nat := 0x0800

/-- Modelled from the spec: STATUSRSSI RDS-ready mask, bit 15. -/
def RDSR : Nat := 0x8000

/-- Modelled from the spec: STATUSRSSI seek/tune-complete mask, bit 14. -/
def STC : Nat := 0x4000

/-- Modelled from the spec: STATUSRSSI seek-failed/band-limit mask, bit 13. -/
def SFBL : Nat := 0x2000

/-- Modelled from the spec: the `Region` selector of `SparkFunSi4703.h`. -/
inductive Region where
  | US
  | Europe
  | Japan
  deriving DecidableEq

/-- Modelled from the spec: the `Band` codes of `SparkFunSi4703.h`
(SYSCONFIG2 bits 7:6 of the Si4703 register map). -/
inductive Band where
  | Band_US_Europe
  | Band_Japan_Wide
  | Band_Japan
  deriving DecidableEq

/-- Modelled from the spec: the `ChannelSpacing` codes of `SparkFunSi4703.h`
(SYSCONFIG2 bits 5:4 of the Si4703 register map). -/
inductive ChannelSpacing where
  | Spacing_200kHz
  | Spacing_100kHz
  | Spacing_50kHz
  deriving DecidableEq

/-- Modelled from the spec: the `SeekDirection` selector of `SparkFunSi4703.h`. -/
inductive SeekDirection where
  | Up
  | Down
  deriving DecidableEq

/-! ## The bus, the clock and the driver object -/

/-- The register image `uint16_t registers_[16]`. -/
abbrev Registers := Fin 16 → Nat

/-- What one `read(si4703_fd_, buffer, 32)` call delivers: its return value and
the bytes it stored in the buffer. -/
structure ReadReply where
  count : Int
  data : Fin 32 → Fin 256

/-- One bus transaction, as logged by the driver object. -/
inductive BusEvent where
  | busRead (count : Int)
  | busWrite (payload : List Nat) (accepted : Int)
  deriving DecidableEq

/-- Modelled from the spec: the external collaborators (bus transport and the
monotonic clock).  `busRead n` answers the n-th `read(2)` call, `busWrite n`
is the return value of the n-th `write(2)` call, and `elapsed k d` is the time
in milliseconds that has passed between the previous reading of the clock and
its k-th reading when `d` milliseconds of `delay` were requested in between. -/
structure Chip where
  busRead : Nat → ReadReply
  busWrite : Nat → Int
  elapsed : Nat → Nat → Nat

/-- The driver object.  `region_`, `band_`, `channel_spacing_` and `registers_`
are the members of the C++ class; the remaining fields are the state of the
outside world as seen by the object: how many bus reads, bus writes and clock
readings it has made, the last clock reading, the delay requested since then,
and the log of bus transactions (oldest first). -/
structure Si4703_Breakout where
  region_ : Region
  band_ : Band
  channel_spacing_ : ChannelSpacing
  registers_ : Registers
  reads : Nat
  writes : Nat
  clockReads : Nat
  clock : Nat
  pending : Nat
  trace : List BusEvent

/-- The call `millis()`: the clock moves on by what the oracle says has
elapsed, and the new value is returned. -/
def millis (chip : Chip) (s : Si4703_Breakout) : Nat × Si4703_Breakout :=
  let now := s.clock + chip.elapsed s.clockReads s.pending
  (now, { s with clock := now, clockReads := s.clockReads + 1, pending := 0 })

/-- The call `delay(ms)`. -/
def delay (ms : Nat) (s : Si4703_Breakout) : Si4703_Breakout :=
  { s with pending := s.pending + ms }

/-! ## Byte order -/

/-- `SwapEndian`: `(val >> 8) | (val << 8)`, narrowed to 16 bits on return. -/
def SwapEndian (val : Nat) : Nat :=
  ((val >>> 8) ||| (val <<< 8)) % 65536

/-- `ToLittleEndian`. -/
def ToLittleEndian (val : Nat) : Nat := SwapEndian val

/-- `ToBigEndian`. -/
def ToBigEndian (val : Nat) : Nat := SwapEndian val

/-- Byte `k` of a read buffer (0 beyond the 32 bytes). -/
def byteAt (data : Fin 32 → Fin 256) (k : Nat) : Nat :=
  if h : k < 32 then (data ⟨k, h⟩).val else 0

/-- The `uint16_t buffer[16]` overlaid on the 32 bytes of a read, on a
little-endian host. -/
def wordAt (data : Fin 32 → Fin 256) (i : Nat) : Nat :=
  byteAt data (2 * i) + 256 * byteAt data (2 * i + 1)

/-- The assignment `registers_[x] = v` for an `int` index. -/
def setReg (regs : Registers) (x : Nat) (v : Nat) : Registers :=
  fun j => if j.val = x then v else regs j

/-! ## `readRegisters` -/

/-- The shuffle loop of `readRegisters`:
`for (int x = 0x0A;; x++) { if (x == 0x10) x = 0; registers_[x] =
ToLittleEndian(buffer[i++]); if (x == 0x09) break; }`. -/
def shuffleLoop (buffer : Nat → Nat) : Nat → Nat → Nat → Registers → Option Registers
  | 0, _, _, _ => none
  | fuel + 1, x, i, regs =>
    let x := if x = 0x10 then 0 else x
    let regs := setReg regs x (ToLittleEndian (buffer i))
    if x = 0x09 then some regs else shuffleLoop buffer fuel (x + 1) (i + 1) regs

/-- `Si4703_Breakout::readRegisters`: one bus read of 32 bytes; on a short read
the image is left alone and `FAIL` is returned. -/
def readRegisters (chip : Chip) (s : Si4703_Breakout) : Option (Nat × Si4703_Breakout) :=
  let reply := chip.busRead s.reads
  let s := { s with reads := s.reads + 1, trace := s.trace ++ [BusEvent.busRead reply.count] }
  if reply.count ≠ 32 then
    some (FAIL, s)
  else
    match shuffleLoop (wordAt reply.data) 16 0x0A 0 s.registers_ with
    | none => none
    | some regs => some (SUCCESS, { s with registers_ := regs })

/-- The logical register `x` as carried by the 32 bytes of a read: the chip
starts at register 0x0A, so register `x` is wire word `(x + 6) mod 16`, high
byte first. -/
def regOfWire (data : Fin 32 → Fin 256) (x : Fin 16) : Nat :=
  byteAt data (2 * ((x.val + 6) % 16)) * 256 + byteAt data (2 * ((x.val + 6) % 16) + 1)

/-! ## `updateRegisters` -/

/-- The read `registers_[x]` for an `int` index. -/
def getReg (regs : Registers) (x : Nat) : Nat :=
  if h : x < 16 then regs ⟨x, h⟩ else 0

/-- The fill loop of `updateRegisters`:
`for (int regSpot = 0x02; regSpot < 0x08; regSpot++)
buffer[i++] = ToBigEndian(registers_[regSpot]);`. -/
def fillLoop (regs : Registers) : Nat → Nat → Nat → (Nat → Nat) → Option (Nat → Nat)
  | 0, _, _, _ => none
  | fuel + 1, regSpot, i, buffer =>
    if regSpot < 0x08 then
      fillLoop regs fuel (regSpot + 1) (i + 1)
        (Function.update buffer i (ToBigEndian (getReg regs regSpot)))
    else some buffer

/-- The bytes of a list of 16-bit words as they lie in memory on a
little-endian host. -/
def wordsToBytes : List Nat → List Nat
  | [] => []
  | w :: ws => (w % 256) :: (w / 256 % 256) :: wordsToBytes ws

/-- `Si4703_Breakout::updateRegisters`: one bus write of 12 bytes taken from the
six-word `buffer`; `FAIL` when fewer than 12 bytes are accepted. -/
def updateRegisters (chip : Chip) (s : Si4703_Breakout) : Option (Nat × Si4703_Breakout) :=
  match fillLoop s.registers_ 7 0x02 0 (fun _ => 0) with
  | none => none
  | some buffer =>
    let payload := wordsToBytes ((List.range 6).map buffer)
    let accepted := chip.busWrite s.writes
    let s := { s with writes := s.writes + 1,
                      trace := s.trace ++ [BusEvent.busWrite payload accepted] }
    if accepted < 12 then some (FAIL, s) else some (SUCCESS, s)

/-! ## Channel and frequency -/

/-- `Si4703_Breakout::channelSpacing` (MHz). -/
def channelSpacing (s : Si4703_Breakout) : ℚ :=
  match s.channel_spacing_ with
  | ChannelSpacing.Spacing_200kHz => 0.2
  | ChannelSpacing.Spacing_100kHz => 0.1
  | ChannelSpacing.Spacing_50kHz => 0.05

/-- `Si4703_Breakout::minFrequency` (MHz).  The `switch` has the cases
`Band_US_Europe` and `Band_Japan` only; for any other band the function runs
off its end without a `return`, which is `none` here. -/
def minFrequency (s : Si4703_Breakout) : Option ℚ :=
  match s.band_ with
  | Band.Band_US_Europe => some 87.5
  | Band.Band_Japan => some 76.0
  | Band.Band_Japan_Wide => none

/-- The conversion `static_cast<uint16_t>(float)`: the fraction is discarded
(rounding toward zero).  For a value outside 0..65535 the C++ result is not
defined; here the integer is then taken modulo 2^16. -/
def toUint16 (q : ℚ) : Nat :=
  Int.toNat ((if 0 ≤ q then ⌊q⌋ else ⌈q⌉) % 65536)

/-- `Si4703_Breakout::channelToFrequency`. -/
def channelToFrequency (s : Si4703_Breakout) (channel : Nat) : Option ℚ :=
  match minFrequency s with
  | none => none
  | some m => some (channelSpacing s * (channel : ℚ) + m)

/-- `Si4703_Breakout::frequencyToChannel`. -/
def frequencyToChannel (s : Si4703_Breakout) (frequency : ℚ) : Option Nat :=
  match minFrequency s with
  | none => none
  | some m => some (toUint16 (0.001 + (frequency - m) / channelSpacing s))

/-- `FloatsEqual`: equal to within 0.02. -/
def FloatsEqual (a b : ℚ) : Bool :=
  decide (|a - b| < 0.02)

/-! ## Register updates and polling -/

/-- The assignment `registers_[r] = v` for a named register. -/
def setRegister (s : Si4703_Breakout) (r : Fin 16) (v : Nat) : Si4703_Breakout :=
  { s with registers_ := Function.update s.registers_ r v }

/-- The value `v & ~mask` of a 16-bit register. -/
def clearBits (v mask : Nat) : Nat :=
  v &&& (0xFFFF ^^^ mask)

/-- The loop `while (true) { readRegisters(); if ((registers_[STATUSRSSI] & STC)
!= 0) break; }`. -/
def waitSTCSet (chip : Chip) : Nat → Si4703_Breakout → Option Si4703_Breakout
  | 0, _ => none
  | fuel + 1, s =>
    match readRegisters chip s with
    | none => none
    | some (_, s) =>
      if s.registers_ STATUSRSSI &&& STC ≠ 0 then some s else waitSTCSet chip fuel s

/-- The loop `while (true) { readRegisters(); if ((registers_[STATUSRSSI] & STC)
== 0) break; }`. -/
def waitSTCClear (chip : Chip) : Nat → Si4703_Breakout → Option Si4703_Breakout
  | 0, _ => none
  | fuel + 1, s =>
    match readRegisters chip s with
    | none => none
    | some (_, s) =>
      if s.registers_ STATUSRSSI &&& STC = 0 then some s else waitSTCClear chip fuel s

/-! ## `setFrequency` -/

/-- The part of `setFrequency` after the grid check: the tune handshake. -/
def tuneHandshake (chip : Chip) (fuel : Nat) (channel : Nat) (s : Si4703_Breakout) :
    Option Si4703_Breakout := do
  let (_, s) ← readRegisters chip s
  let s := setRegister s CHANNEL (s.registers_ CHANNEL &&& 0xFE00)
  let s := setRegister s CHANNEL (s.registers_ CHANNEL ||| channel)
  let s := setRegister s CHANNEL (s.registers_ CHANNEL ||| TUNE)
  let (_, s) ← updateRegisters chip s
  let s := delay 60 s
  let s ← waitSTCSet chip fuel s
  let (_, s) ← readRegisters chip s
  let s := setRegister s CHANNEL (clearBits (s.registers_ CHANNEL) TUNE)
  let (_, s) ← updateRegisters chip s
  waitSTCClear chip fuel s

/-- `Si4703_Breakout::setFrequency`. -/
def setFrequency (chip : Chip) (fuel : Nat) (frequency : ℚ) (s : Si4703_Breakout) :
    Option Si4703_Breakout :=
  match minFrequency s, frequencyToChannel s frequency with
  | some m, some channel =>
    let fchannel := (frequency - m) / channelSpacing s
    if !FloatsEqual fchannel (channel : ℚ) then
      some s
    else
      tuneHandshake chip fuel channel s
  | _, _ => none

/-! ## `setFrequency` in single precision

The grid check of `setFrequency` is computed in `float`.  The definitions of
this section round every operation to the nearest single-precision number, as
the compiled code does (IEEE 754 binary32, `FLT_EVAL_METHOD` 0). -/

/-- Rounding of a rational to the nearest integer, a tie going to the even
neighbour. -/
def roundHalfEven (x : ℚ) : ℤ :=
  if x - ⌊x⌋ < 1 / 2 then ⌊x⌋
  else if 1 / 2 < x - ⌊x⌋ then ⌊x⌋ + 1
  else if ⌊x⌋ % 2 = 0 then ⌊x⌋
  else ⌊x⌋ + 1

/-- Rounding to the nearest number of a binary floating-point format with
`precision` significant bits and least normal exponent `emin` (IEEE 754 round
to nearest, ties to even): a number with 2^e <= |x| < 2^(e+1) is rounded to a
multiple of 2^(e - precision + 1), and below 2^emin to a multiple of
2^(emin - precision + 1) (the subnormal range).  The largest number of the
format is not represented: a result that is an infinity in C++ stays finite
here. -/
def roundBinary (precision : Nat) (emin : Int) (x : ℚ) : ℚ :=
  if x = 0 then 0
  else
    (roundHalfEven (x / (2 : ℚ) ^ (max (Int.log 2 |x|) emin - ((precision : Int) - 1))) : ℚ)
      * (2 : ℚ) ^ (max (Int.log 2 |x|) emin - ((precision : Int) - 1))

/-- The `float` nearest to a real number: the result of a `float` operation
whose exact result is `x`, and the value of a literal such as `0.001f`. -/
def Binary32.nearest (x : ℚ) : ℚ :=
  roundBinary 24 (-126) x

/-- The `float` that a `double` literal such as `0.2` is converted to: the
literal is first rounded to `double` (binary64), then to `float`. -/
def Binary32.ofDouble (x : ℚ) : ℚ :=
  Binary32.nearest (roundBinary 53 (-1022) x)

/-- The conversion of a `uint16_t` to `float`. -/
def Binary32.ofUInt16 (n : Nat) : ℚ :=
  Binary32.nearest (n : ℚ)

/-- `Si4703_Breakout::channelSpacing` in single precision: the `double`
literals `0.2`, `0.1` and `0.05` are returned as `float`. -/
def Binary32.channelSpacing (s : Si4703_Breakout) : ℚ :=
  match s.channel_spacing_ with
  | ChannelSpacing.Spacing_200kHz => Binary32.ofDouble 0.2
  | ChannelSpacing.Spacing_100kHz => Binary32.ofDouble 0.1
  | ChannelSpacing.Spacing_50kHz => Binary32.ofDouble 0.05

/-- `Si4703_Breakout::minFrequency` in single precision; `none` for a band
without a `case`, as in `minFrequency` above. -/
def Binary32.minFrequency (s : Si4703_Breakout) : Option ℚ :=
  match s.band_ with
  | Band.Band_US_Europe => some (Binary32.ofDouble 87.5)
  | Band.Band_Japan => some (Binary32.ofDouble 76.0)
  | Band.Band_Japan_Wide => none

/-- `Si4703_Breakout::frequencyToChannel` in single precision:
`static_cast<uint16_t>(epsilon + (frequency - minFrequency()) / channelSpacing())`
with `epsilon = 0.001f`. -/
def Binary32.frequencyToChannel (s : Si4703_Breakout) (frequency : ℚ) : Option Nat :=
  match Binary32.minFrequency s with
  | none => none
  | some m =>
    some (toUint16
      (Binary32.nearest
        (Binary32.nearest 0.001
          + Binary32.nearest (Binary32.nearest (frequency - m) / Binary32.channelSpacing s))))

/-- `FloatsEqual` in single precision: `std::abs(a - b) < epsilon` with
`const float epsilon = 0.02;`. -/
def Binary32.FloatsEqual (a b : ℚ) : Bool :=
  decide (|Binary32.nearest (a - b)| < Binary32.ofDouble 0.02)

/-- `Si4703_Breakout::setFrequency` with its grid check in single precision.
The argument `frequency` is the `float` that the caller passes. -/
def Binary32.setFrequency (chip : Chip) (fuel : Nat) (frequency : ℚ) (s : Si4703_Breakout) :
    Option Si4703_Breakout :=
  match Binary32.minFrequency s, Binary32.frequencyToChannel s frequency with
  | some m, some channel =>
    let fchannel := Binary32.nearest (Binary32.nearest (frequency - m) / Binary32.channelSpacing s)
    if !Binary32.FloatsEqual fchannel (Binary32.ofUInt16 channel) then
      some s
    else
      tuneHandshake chip fuel channel s
  | _, _ => none

/-! ## `setVolume` -/

/-- `Si4703_Breakout::setVolume`. -/
def setVolume (chip : Chip) (volume : Int) (s : Si4703_Breakout) :
    Option Si4703_Breakout := do
  let (_, s) ← readRegisters chip s
  let volume := if volume < 0 then 0 else volume
  let volume := if volume > 15 then 15 else volume
  let s := setRegister s SYSCONFIG2 (s.registers_ SYSCONFIG2 &&& 0xFFF0)
  let s := setRegister s SYSCONFIG2 ((s.registers_ SYSCONFIG2 ||| volume.toNat) % 65536)
  let (_, s) ← updateRegisters chip s
  some s

/-! ## `readRDS` -/

/-- The body of the polling loop of `readRDS` (one poll): read the registers
and, when the RDS-ready bit is set, store the character pair of RDSD in the
slot named by the two low bits of RDSB if that slot is still empty and RDSB is
below 500; then `delay(40)`, or `delay(30)` when RDS-ready was clear.  The
arguments and the result are the local variables `completed`,
`completedCount`, the `buffer` of the caller, and the object. -/
def readRDSBody (chip : Chip) (completed : Nat → Bool) (completedCount : Nat)
    (buffer : Nat → Nat) (s : Si4703_Breakout) :
    Option ((Nat → Bool) × Nat × (Nat → Nat) × Si4703_Breakout) :=
  match readRegisters chip s with
  | none => none
  | some (_, s) =>
    if s.registers_ STATUSRSSI &&& RDSR ≠ 0 then
      let b := s.registers_ RDSB
      let index := b &&& 0x03
      if !completed index && decide (b < 500) then
        let completed := Function.update completed index true
        let completedCount := completedCount + 1
        let Dh := (s.registers_ RDSD &&& 0xFF00) >>> 8
        let Dl := s.registers_ RDSD &&& 0x00FF
        let buffer := Function.update buffer (index * 2) Dh
        let buffer := Function.update buffer (index * 2 + 1) Dl
        some (completed, completedCount, buffer, delay 40 s)
      else
        some (completed, completedCount, buffer, delay 40 s)
    else
      some (completed, completedCount, buffer, delay 30 s)

/-- The polling loop of `readRDS`:
`while (completedCount < 4 && millis() < endTime) { ... }`.  The clock is read
only when `completedCount < 4` holds.  The result is the state of the local
variables and of the object when the loop is left. -/
def readRDSLoop (chip : Chip) (endTime : Int) :
    Nat → (Nat → Bool) → Nat → (Nat → Nat) → Si4703_Breakout →
      Option ((Nat → Bool) × Nat × (Nat → Nat) × Si4703_Breakout)
  | 0, _, _, _, _ => none
  | fuel + 1, completed, completedCount, buffer, s =>
    if completedCount < 4 then
      if ((millis chip s).1 : Int) < endTime then
        match readRDSBody chip completed completedCount buffer (millis chip s).2 with
        | none => none
        | some (completed, completedCount, buffer, s) =>
          readRDSLoop chip endTime fuel completed completedCount buffer s
      else some (completed, completedCount, buffer, (millis chip s).2)
    else some (completed, completedCount, buffer, s)

/-- `Si4703_Breakout::readRDS`.  The `char* buffer` of the caller goes in and comes
back; characters are the numbers 0..255 and the terminator is 0. -/
def readRDS (chip : Chip) (fuel : Nat) (buffer : Nat → Nat) (timeout : Int)
    (s : Si4703_Breakout) : Option ((Nat → Nat) × Si4703_Breakout) :=
  let endTime : Int := ((millis chip s).1 : Int) + timeout
  match readRDSLoop chip endTime fuel (fun _ => false) 0 buffer (millis chip s).2 with
  | none => none
  | some (_, _, buffer, s) =>
    if ((millis chip s).1 : Int) ≥ endTime then
      some (Function.update buffer 0 0, (millis chip s).2)
    else
      some (Function.update buffer 8 0, (millis chip s).2)

/-! ## `seek` and `getFrequency` -/

/-- `Si4703_Breakout::getFrequency`. -/
def getFrequency (chip : Chip) (s : Si4703_Breakout) : Option (ℚ × Si4703_Breakout) := do
  let (_, s) ← readRegisters chip s
  let channel := s.registers_ READCHAN &&& 0x03FF
  let f ← channelToFrequency s channel
  some (f, s)

/-- The assignments of `seek` between its first `readRegisters` and its first
`updateRegisters`: `registers_[POWERCFG] |= SKMODE;`, then
`registers_[POWERCFG] &= ~SEEKUP;` for `Down` or `registers_[POWERCFG] |= SEEKUP;`
otherwise, then `registers_[POWERCFG] |= SEEK;`. -/
def seekStart (direction : SeekDirection) (s : Si4703_Breakout) : Si4703_Breakout :=
  let s := setRegister s POWERCFG (s.registers_ POWERCFG ||| SKMODE)
  let s :=
    if direction = SeekDirection.Down then
      setRegister s POWERCFG (clearBits (s.registers_ POWERCFG) SEEKUP)
    else
      setRegister s POWERCFG (s.registers_ POWERCFG ||| SEEKUP)
  setRegister s POWERCFG (s.registers_ POWERCFG ||| SEEK)

/-- `Si4703_Breakout::seek`.  The `float` result is `FAIL` (zero) or the
frequency read back. -/
def seek (chip : Chip) (fuel : Nat) (direction : SeekDirection) (s : Si4703_Breakout) :
    Option (ℚ × Si4703_Breakout) := do
  let (_, s) ← readRegisters chip s
  let s := seekStart direction s
  let (_, s) ← updateRegisters chip s
  let s ← waitSTCSet chip fuel s
  let (_, s) ← readRegisters chip s
  let valueSFBL := s.registers_ STATUSRSSI &&& SFBL
  let s := setRegister s POWERCFG (clearBits (s.registers_ POWERCFG) SEEK)
  let (_, s) ← updateRegisters chip s
  let s ← waitSTCClear chip fuel s
  if valueSFBL ≠ 0 then
    some ((FAIL : ℚ), s)
  else
    getFrequency chip s

/-- `Si4703_Breakout::seekUp`. -/
def seekUp (chip : Chip) (fuel : Nat) (s : Si4703_Breakout) : Option (ℚ × Si4703_Breakout) :=
  seek chip fuel SeekDirection.Up s

/-- `Si4703_Breakout::seekDown`. -/
def seekDown (chip : Chip) (fuel : Nat) (s : Si4703_Breakout) : Option (ℚ × Si4703_Breakout) :=
  seek chip fuel SeekDirection.Down s

/-! ## Calls watched for a bounded number of polls

The functions above say nothing about a call whose polling loop is still
running when the fuel is used up.  The functions of this section embed the
same source functions and also give the driver object that such a call has
reached, so that the bus transactions it has issued so far can be read off. -/

/-- What is seen of a call that is watched while each of its polling loops
makes at most a given number of polls: the driver object reached when the
call returned or the watch ended, and the value returned if the call has
returned by then (`none` when it has not, or when the C++ value is not
defined). -/
structure Watched (α : Type) where
  object : Si4703_Breakout
  result : Option α

/-- A watched call that has returned, as value and object. -/
def Watched.returned {α : Type} (w : Watched α) : Option (α × Si4703_Breakout) :=
  match w.result with
  | none => none
  | some a => some (a, w.object)

/-- The loop `while (true) { readRegisters(); if ((registers_[STATUSRSSI] & STC)
!= 0) break; }`, watched for at most `fuel` polls. -/
def Watch.waitSTCSet (chip : Chip) : Nat → Si4703_Breakout → Watched Unit
  | 0, s => ⟨s, none⟩
  | fuel + 1, s =>
    match readRegisters chip s with
    | none => ⟨s, none⟩
    | some (_, s) =>
      if s.registers_ STATUSRSSI &&& STC ≠ 0 then ⟨s, some ()⟩
      else Watch.waitSTCSet chip fuel s

/-- The loop `while (true) { readRegisters(); if ((registers_[STATUSRSSI] & STC)
== 0) break; }`, watched for at most `fuel` polls. -/
def Watch.waitSTCClear (chip : Chip) : Nat → Si4703_Breakout → Watched Unit
  | 0, s => ⟨s, none⟩
  | fuel + 1, s =>
    match readRegisters chip s with
    | none => ⟨s, none⟩
    | some (_, s) =>
      if s.registers_ STATUSRSSI &&& STC = 0 then ⟨s, some ()⟩
      else Watch.waitSTCClear chip fuel s

/-- The part of `setFrequency` after the grid check, watched for at most
`fuel` polls of each loop. -/
def Watch.tuneHandshake (chip : Chip) (fuel : Nat) (channel : Nat) (s : Si4703_Breakout) :
    Watched Unit :=
  match readRegisters chip s with
  | none => ⟨s, none⟩
  | some (_, s) =>
    let s := setRegister s CHANNEL (s.registers_ CHANNEL &&& 0xFE00)
    let s := setRegister s CHANNEL (s.registers_ CHANNEL ||| channel)
    let s := setRegister s CHANNEL (s.registers_ CHANNEL ||| TUNE)
    match updateRegisters chip s with
    | none => ⟨s, none⟩
    | some (_, s) =>
      let s := delay 60 s
      match Watch.waitSTCSet chip fuel s with
      | ⟨s, none⟩ => ⟨s, none⟩
      | ⟨s, some _⟩ =>
        match readRegisters chip s with
        | none => ⟨s, none⟩
        | some (_, s) =>
          let s := setRegister s CHANNEL (clearBits (s.registers_ CHANNEL) TUNE)
          match updateRegisters chip s with
          | none => ⟨s, none⟩
          | some (_, s) => Watch.waitSTCClear chip fuel s

/-- `Si4703_Breakout::setFrequency`, watched for at most `fuel` polls of each
loop (grid check in exact arithmetic, as in `setFrequency` above). -/
def Watch.setFrequency (chip : Chip) (fuel : Nat) (frequency : ℚ) (s : Si4703_Breakout) :
    Watched Unit :=
  match minFrequency s, frequencyToChannel s frequency with
  | some m, some channel =>
    let fchannel := (frequency - m) / channelSpacing s
    if !FloatsEqual fchannel (channel : ℚ) then
      ⟨s, some ()⟩
    else
      Watch.tuneHandshake chip fuel channel s
  | _, _ => ⟨s, none⟩

/-- `Si4703_Breakout::seek`, watched for at most `fuel` polls of each loop. -/
def Watch.seek (chip : Chip) (fuel : Nat) (direction : SeekDirection) (s : Si4703_Breakout) :
    Watched ℚ :=
  match readRegisters chip s with
  | none => ⟨s, none⟩
  | some (_, s) =>
    let s := seekStart direction s
    match updateRegisters chip s with
    | none => ⟨s, none⟩
    | some (_, s) =>
      match Watch.waitSTCSet chip fuel s with
      | ⟨s, none⟩ => ⟨s, none⟩
      | ⟨s, some _⟩ =>
        match readRegisters chip s with
        | none => ⟨s, none⟩
        | some (_, s) =>
          let valueSFBL := s.registers_ STATUSRSSI &&& SFBL
          let s := setRegister s POWERCFG (clearBits (s.registers_ POWERCFG) SEEK)
          match updateRegisters chip s with
          | none => ⟨s, none⟩
          | some (_, s) =>
            match Watch.waitSTCClear chip fuel s with
            | ⟨s, none⟩ => ⟨s, none⟩
            | ⟨s, some _⟩ =>
              if valueSFBL ≠ 0 then
                ⟨s, some (FAIL : ℚ)⟩
              else
                match getFrequency chip s with
                | none => ⟨s, none⟩
                | some (f, s) => ⟨s, some f⟩

/-- `Si4703_Breakout::seekUp`, watched. -/
def Watch.seekUp (chip : Chip) (fuel : Nat) (s : Si4703_Breakout) : Watched ℚ :=
  Watch.seek chip fuel SeekDirection.Up s

/-- `Si4703_Breakout::seekDown`, watched. -/
def Watch.seekDown (chip : Chip) (fuel : Nat) (s : Si4703_Breakout) : Watched ℚ :=
  Watch.seek chip fuel SeekDirection.Down s

/-! ## Example devices -/

/-- A device configured for the US region, with an empty history. -/
def usDevice : Si4703_Breakout :=
  { region_ := Region.US
    band_ := Band.Band_US_Europe
    channel_spacing_ := ChannelSpacing.Spacing_200kHz
    registers_ := fun r => 0x1200 + r.val
    reads := 0
    writes := 0
    clockReads := 0
    clock := 0
    pending := 0
    trace := [] }

/-- A device configured for the Europe region (US/Europe band, 100 kHz
spacing), with an empty history. -/
def europeDevice : Si4703_Breakout :=
  { region_ := Region.Europe
    band_ := Band.Band_US_Europe
    channel_spacing_ := ChannelSpacing.Spacing_100kHz
    registers_ := fun r => 0x1200 + r.val
    reads := 0
    writes := 0
    clockReads := 0
    clock := 0
    pending := 0
    trace := [] }

/-- A device set to the Japan band (76 MHz) with 50 kHz spacing, with an empty
history. -/
def japan50Device : Si4703_Breakout :=
  { region_ := Region.Japan
    band_ := Band.Band_Japan
    channel_spacing_ := ChannelSpacing.Spacing_50kHz
    registers_ := fun r => 0x1200 + r.val
    reads := 0
    writes := 0
    clockReads := 0
    clock := 0
    pending := 0
    trace := [] }

/-- A chip whose reads deliver the bytes 0, 1, ..., 31, whose writes accept
all 12 bytes, and whose clock advances exactly by the requested delays. -/
def countingChip : Chip :=
  { busRead := fun _ => { count := 32, data := fun k => Fin.ofNat k.val }
    busWrite := fun _ => 12
    elapsed := fun _ d => d }

/-- The 12 bytes that `updateRegisters` sends for a register image: registers
0x02 to 0x07 in ascending order, each as the in-memory bytes of its
`ToBigEndian` word. -/
def controlPayload (regs : Registers) : List Nat :=
  wordsToBytes [ToBigEndian (regs 0x02), ToBigEndian (regs 0x03), ToBigEndian (regs 0x04),
    ToBigEndian (regs 0x05), ToBigEndian (regs 0x06), ToBigEndian (regs 0x07)]

/-- The driver object after one `readRegisters` call: the read is counted and
logged, and the image is replaced when all 32 bytes arrived. -/
def afterRead (chip : Chip) (s : Si4703_Breakout) : Si4703_Breakout :=
  { s with reads := s.reads + 1,
           trace := s.trace ++ [BusEvent.busRead (chip.busRead s.reads).count],
           registers_ := if (chip.busRead s.reads).count = 32
                         then regOfWire (chip.busRead s.reads).data
                         else s.registers_ }

/-- The driver object after one `updateRegisters` call: the write is counted
and logged with its payload. -/
def afterWrite (chip : Chip) (s : Si4703_Breakout) : Si4703_Breakout :=
  { s with writes := s.writes + 1,
           trace := s.trace ++
             [BusEvent.busWrite (controlPayload s.registers_) (chip.busWrite s.writes)] }

/-! ## Vocabulary of the RDS theorems -/

/-- A register image offers a character pair for slot `i`: the RDS-ready bit
is set, the two low bits of RDSB are `i`, and RDSB is below 500. -/
def offersSlot (regs : Registers) (i : Nat) : Prop :=
  regs STATUSRSSI &&& RDSR ≠ 0 ∧ regs RDSB &&& 0x03 = i ∧ regs RDSB < 500

instance (regs : Registers) (i : Nat) : Decidable (offersSlot regs i) := by
  unfold offersSlot
  infer_instance

/-- The number of the four slots marked in `completed`. -/
def slotsFilled (completed : Nat → Bool) : Nat :=
  (if completed 0 then 1 else 0) + (if completed 1 then 1 else 0)
    + (if completed 2 then 1 else 0) + (if completed 3 then 1 else 0)

/-- The 32 bytes of a read in which STATUSRSSI, READCHAN, RDSB and RDSD have
the given 16-bit values and all other registers are zero. -/
def wireBytes (statusrssi readchan rdsb rdsd : Nat) : Fin 32 → Fin 256 := fun k =>
  if k.val = 0 then Fin.ofNat (statusrssi / 256)
  else if k.val = 1 then Fin.ofNat (statusrssi % 256)
  else if k.val = 2 then Fin.ofNat (readchan / 256)
  else if k.val = 3 then Fin.ofNat (readchan % 256)
  else if k.val = 6 then Fin.ofNat (rdsb / 256)
  else if k.val = 7 then Fin.ofNat (rdsb % 256)
  else if k.val = 10 then Fin.ofNat (rdsd / 256)
  else if k.val = 11 then Fin.ofNat (rdsd % 256)
  else 0

/-- A chip with RDS-ready set in every read that delivers the pairs "AB",
"CD", "EF", "GH" for the slots 0, 1, 2, 3 in the reads 0, 1, 2, 3 (and slot 0
again afterwards); its clock advances exactly by the requested delays. -/
def fourPairChip : Chip :=
  { busRead := fun n =>
      { count := 32,
        data := wireBytes 0x8000 0 (n % 4) (0x4142 + 0x0202 * (n % 4)) }
    busWrite := fun _ => 12
    elapsed := fun _ d => d }

/-- A chip that delivers, in this order: a pair for slot 2, a read without
RDS-ready, a pair for slot 0, a second pair for slot 2 (a duplicate with other
characters), a group with RDSB = 501, then pairs for slots 3 and 1. -/
def shuffledChip : Chip :=
  { busRead := fun n =>
      { count := 32,
        data :=
          if n = 0 then wireBytes 0x8000 0 2 0x4546
          else if n = 1 then wireBytes 0x0000 0 1 0x5858
          else if n = 2 then wireBytes 0x8000 0 0 0x4142
          else if n = 3 then wireBytes 0x8000 0 2 0x7A7A
          else if n = 4 then wireBytes 0x8000 0 501 0x7979
          else if n = 5 then wireBytes 0x8000 0 3 0x4748
          else wireBytes 0x8000 0 1 0x4344 }
    busWrite := fun _ => 12
    elapsed := fun _ d => d }

/-- The loop invariant of `readRDS` for the reads `n0`, ..., `nr - 1`: every
slot marked in `completed` holds, in the buffer, the high and the low byte of
RDSD of the first read that offered the slot, and no read has yet offered a
slot that is not marked. -/
def FirstArrival (chip : Chip) (n0 nr : Nat) (completed : Nat → Bool) (buffer : Nat → Nat) :
    Prop :=
  ∀ i, i < 4 →
    (completed i = true →
      ∃ k, n0 ≤ k ∧ k < nr ∧ offersSlot (regOfWire (chip.busRead k).data) i ∧
        (∀ j, n0 ≤ j → j < k → ¬ offersSlot (regOfWire (chip.busRead j).data) i) ∧
        buffer (2 * i) = regOfWire (chip.busRead k).data RDSD / 256 ∧
        buffer (2 * i + 1) = regOfWire (chip.busRead k).data RDSD % 256) ∧
    (completed i = false →
      ∀ j, n0 ≤ j → j < nr → ¬ offersSlot (regOfWire (chip.busRead j).data) i)

/-- A chip for seeking: STC is clear in the reads 0 and 1, set in the reads 2,
3 and 4 and clear again from read 5 on; the value `sfbl` (0 or the SFBL mask)
is added to STATUSRSSI in the reads 2 to 5; READCHAN is 68 in every read. -/
def seekChip (sfbl : Nat) : Chip :=
  { busRead := fun n =>
      { count := 32,
        data := wireBytes ((if 2 ≤ n ∧ n ≤ 4 then 0x4000 else 0)
                  + (if 2 ≤ n ∧ n ≤ 5 then sfbl else 0)) 68 0 0 }
    busWrite := fun _ => 12
    elapsed := fun _ d => d }

/-! ## Construction, power-on and power-off -/

/-- Modelled from the spec: the value of a `Band` enumerator of
`SparkFunSi4703.h`, which `powerOn` ORs into SYSCONFIG2 (bits 7:6 of the
Si4703 register map: 00 US/Europe, 01 Japan wide, 10 Japan). -/
def Band.code : Band → Nat
  | Band.Band_US_Europe => 0x0000
  | Band.Band_Japan_Wide => 0x0040
  | Band.Band_Japan => 0x0080

/-- Modelled from the spec: the value of a `ChannelSpacing` enumerator of
`SparkFunSi4703.h`, which `powerOn` ORs into SYSCONFIG2 (bits 5:4 of the
Si4703 register map: 00 for 200 kHz, 01 for 100 kHz, 10 for 50 kHz). -/
def ChannelSpacing.code : ChannelSpacing → Nat
  | ChannelSpacing.Spacing_200kHz => 0x0000
  | ChannelSpacing.Spacing_100kHz => 0x0010
  | ChannelSpacing.Spacing_50kHz => 0x0020

/-- The constant `MAX_POWERUP_TIME` of the source. -/
def MAX_POWERUP_TIME : Nat := 110

/-- The constant `CLOCK_SETTLE_DELAY` of the source. -/
def CLOCK_SETTLE_DELAY : Nat := 500

/-- The constructor `Si4703_Breakout::Si4703_Breakout(resetPin, sdioPin,
region)`.  The pins belong to the GPIO side and are left out; the constructor
does not initialise `registers_`, so the image it starts with is an argument;
the history of the new object is empty. -/
def Si4703_Breakout.Si4703_Breakout (region : Region) (registers0 : Registers) :
    Si4703_Breakout :=
  { region_ := region
    band_ :=
      match region with
      | Region.US => Band.Band_US_Europe
      | Region.Europe => Band.Band_US_Europe
      | Region.Japan => Band.Band_Japan_Wide
    channel_spacing_ :=
      match region with
      | Region.US => ChannelSpacing.Spacing_200kHz
      | Region.Europe => ChannelSpacing.Spacing_100kHz
      | Region.Japan => ChannelSpacing.Spacing_100kHz
    registers_ := registers0
    reads := 0
    writes := 0
    clockReads := 0
    clock := 0
    pending := 0
    trace := [] }

/-- `Si4703_Breakout::powerOn`.  The GPIO calls are left out (their two
`delay(1)` calls are kept); `openResult`, `ioctlSlave` and `ioctlPec` are the
return values of `open` and of the two `ioctl` calls. -/
def powerOn (chip : Chip) (openResult ioctlSlave ioctlPec : Int) (s : Si4703_Breakout) :
    Option (Nat × Si4703_Breakout) :=
  let s := delay 1 s
  let s := delay 1 s
  if openResult < 0 then some (FAIL, s)
  else if ioctlSlave < 0 then some (FAIL, s)
  else if ioctlPec < 0 then some (FAIL, s)
  else do
    let (_, s) ← readRegisters chip s
    let s := setRegister s 0x07 0x8100
    let (_, s) ← updateRegisters chip s
    let s := delay CLOCK_SETTLE_DELAY s
    let (_, s) ← readRegisters chip s
    let s := setRegister s POWERCFG 0x4001
    let s := setRegister s SYSCONFIG1 (s.registers_ SYSCONFIG1 ||| RDS)
    let s :=
      if s.region_ = Region.Europe then
        setRegister s SYSCONFIG1 (s.registers_ SYSCONFIG1 ||| DE)
      else s
    let s := setRegister s SYSCONFIG2 (s.registers_ SYSCONFIG2 ||| s.band_.code)
    let s := setRegister s SYSCONFIG2 (s.registers_ SYSCONFIG2 ||| s.channel_spacing_.code)
    let s := setRegister s SYSCONFIG2 (s.registers_ SYSCONFIG2 &&& 0xFFF0)
    let s := setRegister s SYSCONFIG2 (s.registers_ SYSCONFIG2 ||| 0x0001)
    let (_, s) ← updateRegisters chip s
    let s := delay MAX_POWERUP_TIME s
    some (SUCCESS, s)

/-- `Si4703_Breakout::powerOff`. -/
def powerOff (chip : Chip) (s : Si4703_Breakout) : Option Si4703_Breakout := do
  let (_, s) ← readRegisters chip s
  let s := setRegister s POWERCFG 0x0000
  let (_, s) ← updateRegisters chip s
  some s

/-! ## Vocabulary of the trace theorems -/

/-- The 16-bit word number `j` of a write payload, high byte first: the value
sent for register 0x02 + j. -/
def payloadWord (payload : List Nat) (j : Nat) : Nat :=
  payload.getD (2 * j) 0 * 256 + payload.getD (2 * j + 1) 0

/-- The 32 bytes with which the chip sends a register image: it starts at
register 0x0A and wraps to 0x00 after 0x0F, high byte first. -/
def wireOf (regs : Registers) : Fin 32 → Fin 256 := fun k =>
  if k.val % 2 = 0 then
    Fin.ofNat (regs ⟨(k.val / 2 + 10) % 16, Nat.mod_lt _ (by decide)⟩ / 256)
  else
    Fin.ofNat (regs ⟨(k.val / 2 + 10) % 16, Nat.mod_lt _ (by decide)⟩ % 256)

/-- A chip whose n-th read delivers the register image `images n` in full,
whose writes accept all 12 bytes, and whose clock advances exactly by the
requested delays. -/
def imageChip (images : Nat → Registers) : Chip :=
  { busRead := fun n => { count := 32, data := wireOf (images n) }
    busWrite := fun _ => 12
    elapsed := fun _ d => d }

/-- The handshake order on the log of bus transactions, for a run that starts
at read number `n0` with log `pre` and ends with log `post`; `word` is the
payload word that holds the start bit (0 for POWERCFG, 1 for CHANNEL) and
`startBit` its mask.  After the first register read come the first control
write, with the start bit set, then the status polls up to read `a`, the first
one that shows STC set, then one more read and the second control write, with
the start bit cleared, then the status polls up to read `b`, the first one
that shows STC clear; what follows contains reads only. -/
def HandshakeOrder (chip : Chip) (n0 : Nat) (pre post : List BusEvent) (word startBit : Nat) :
    Prop :=
  ∃ a b P1 P2 w1 w2 tail,
    n0 < a ∧ a + 1 < b ∧
    post = pre ++ [BusEvent.busRead 32, BusEvent.busWrite P1 w1]
             ++ List.replicate (a - n0) (BusEvent.busRead 32)
             ++ [BusEvent.busRead 32, BusEvent.busWrite P2 w2]
             ++ List.replicate (b - a - 1) (BusEvent.busRead 32)
             ++ tail ∧
    (∀ e, e ∈ tail → e = BusEvent.busRead 32) ∧
    payloadWord P1 word &&& startBit ≠ 0 ∧
    payloadWord P2 word &&& startBit = 0 ∧
    (∀ j, n0 < j → j < a → regOfWire (chip.busRead j).data STATUSRSSI &&& STC = 0) ∧
    regOfWire (chip.busRead a).data STATUSRSSI &&& STC ≠ 0 ∧
    (∀ j, a + 1 < j → j < b → regOfWire (chip.busRead j).data STATUSRSSI &&& STC ≠ 0) ∧
    regOfWire (chip.busRead b).data STATUSRSSI &&& STC = 0

/-- A register image with the given values of POWERCFG, CHANNEL, SYSCONFIG1,
SYSCONFIG2, STATUSRSSI and READCHAN; the other registers are zero. -/
def registerImage (powercfg channel sysconfig1 sysconfig2 statusrssi readchan : Nat) :
    Registers := fun r =>
  if r = POWERCFG then powercfg
  else if r = CHANNEL then channel
  else if r = SYSCONFIG1 then sysconfig1
  else if r = SYSCONFIG2 then sysconfig2
  else if r = STATUSRSSI then statusrssi
  else if r = READCHAN then readchan
  else 0

/-- A chip that completes a handshake: STC is clear in the reads 0 and 1, set
in the reads 2, 3 and 4, and clear from read 5 on; every read shows
POWERCFG = 0x4001 and the given values of CHANNEL and SYSCONFIG2, SFBL clear
and READCHAN = 68. -/
def handshakeChip (channel sysconfig2 : Nat) : Chip :=
  imageChip (fun n =>
    registerImage 0x4001 channel 0 sysconfig2 (if 2 ≤ n ∧ n ≤ 4 then 0x4000 else 0) 68)

/-- A chip whose first read returns only 31 bytes; the later reads are
complete and show STC clear in read 1, set in the reads 2, 3 and 4 and clear
from read 5 on, with SFBL clear and READCHAN = 68. -/
def shortReadChip : Chip :=
  { busRead := fun n =>
      { count := if n = 0 then 31 else 32,
        data := wireOf (registerImage 0x4001 0 0 0 (if 2 ≤ n ∧ n ≤ 4 then 0x4000 else 0) 68) }
    busWrite := fun _ => 12
    elapsed := fun _ d => d }

/-- A chip that never raises STC: every read is complete and shows
POWERCFG = 0x4201 (SEEKUP set) and STATUSRSSI = 0; writes accept all 12
bytes. -/
def silentChip : Chip :=
  imageChip (fun _ => registerImage 0x4201 0 0 0 0 0)

/-- A chip whose first read returns only 31 bytes and that never raises STC:
the later reads are complete and show STATUSRSSI = 0. -/
def deafChip : Chip :=
  { busRead := fun n =>
      { count := if n = 0 then 31 else 32,
        data := wireOf (registerImage 0x4001 0 0 0 0 0) }
    busWrite := fun _ => 12
    elapsed := fun _ d => d }

/-- The POWERCFG value that `seek` writes to start a seek when the value just
read is `r`: SKMODE is set, SEEKUP is cleared for `Down` and set otherwise,
and SEEK is set. -/
def seekWord (direction : SeekDirection) (r : Nat) : Nat :=
  if direction = SeekDirection.Down then
    clearBits (r ||| SKMODE) SEEKUP ||| SEEK
  else
    ((r ||| SKMODE) ||| SEEKUP) ||| SEEK

/-- The CHANNEL value that `setFrequency` writes to start a tune to channel
`channel` when the value just read is `r`. -/
def tuneWord (channel r : Nat) : Nat :=
  ((r &&& 0xFE00) ||| channel) ||| TUNE

/-- A chip that, like the Si4703, drops SFBL together with STC once the SEEK
bit is cleared: STC is set in the reads 2, 3 and 4 and clear from read 5 on,
SFBL is set in the reads 2 and 3 only; READCHAN is 68 in every read. -/
def settlingChip : Chip :=
  imageChip (fun n =>
    registerImage 0x4001 0 0 0
      ((if 2 ≤ n ∧ n ≤ 4 then 0x4000 else 0) + (if 2 ≤ n ∧ n ≤ 3 then 0x2000 else 0)) 68)

/-! # Theorems -/

/-! ## Byte order lemmas -/

theorem byteAt_lt (data : Fin 32 → Fin 256) (k : Nat) : byteAt data k < 256 := by
  unfold byteAt
  split
  · exact (data _).isLt
  · decide

theorem byteAt_eq (data : Fin 32 → Fin 256) (k : Nat) (h : k < 32) :
    byteAt data k = (data ⟨k, h⟩).val := by
  simp [byteAt, h]

theorem swapEndian_bytes (a b : Nat) (ha : a < 256) (hb : b < 256) :
    SwapEndian (a + 256 * b) = a * 256 + b := by
  unfold SwapEndian
  have h1 : (a + 256 * b) >>> 8 = b := by
    rw [Nat.shiftRight_eq_div_pow]; omega
  have h2 : (a + 256 * b) <<< 8 = 2 ^ 8 * (a + 256 * b) := by
    rw [Nat.shiftLeft_eq]; ring
  rw [h1, h2, Nat.lor_comm, ← Nat.mul_add_lt_is_or (by omega)]
  omega

theorem shift_or_bytes (a b : Nat) (hb : b < 256) :
    (a <<< 8) ||| b = a * 256 + b := by
  rw [Nat.shiftLeft_eq, Nat.mul_comm, ← Nat.mul_add_lt_is_or (by omega)]

theorem swapEndian_low (r : Nat) (hr : r < 65536) : SwapEndian r % 256 = r / 256 := by
  have h := swapEndian_bytes (r % 256) (r / 256) (by omega) (by omega)
  have e : r % 256 + 256 * (r / 256) = r := by omega
  rw [e] at h
  omega

theorem swapEndian_high (r : Nat) (hr : r < 65536) : SwapEndian r / 256 % 256 = r % 256 := by
  have h := swapEndian_bytes (r % 256) (r / 256) (by omega) (by omega)
  have e : r % 256 + 256 * (r / 256) = r := by omega
  rw [e] at h
  have hq : (r % 256 * 256 + r / 256) / 256 = r % 256 := by
    rw [Nat.add_comm, Nat.add_mul_div_right _ _ (by decide : 0 < 256),
      Nat.div_eq_of_lt (by omega)]
    omega
  rw [h, hq]
  omega

theorem regOfWire_lt (data : Fin 32 → Fin 256) (x : Fin 16) : regOfWire data x < 65536 := by
  unfold regOfWire
  have h1 := byteAt_lt data (2 * ((x.val + 6) % 16))
  have h2 := byteAt_lt data (2 * ((x.val + 6) % 16) + 1)
  omega

/-! ## `readRegisters` -/

theorem shuffleLoop_full (buffer : Nat → Nat) (regs : Registers) :
    shuffleLoop buffer 16 0x0A 0 regs
      = some (fun x => ToLittleEndian (buffer ((x.val + 6) % 16))) := by
  simp only [shuffleLoop]
  simp
  funext x
  fin_cases x <;> simp [setReg]

theorem shuffleLoop_wire (data : Fin 32 → Fin 256) (regs : Registers) :
    shuffleLoop (wordAt data) 16 0x0A 0 regs = some (regOfWire data) := by
  rw [shuffleLoop_full]
  congr 1
  funext x
  unfold ToLittleEndian wordAt regOfWire
  exact swapEndian_bytes _ _ (byteAt_lt _ _) (byteAt_lt _ _)

theorem readRegisters_ok (chip : Chip) (s : Si4703_Breakout)
    (h : (chip.busRead s.reads).count = 32) :
    readRegisters chip s = some (SUCCESS,
      { s with reads := s.reads + 1,
               trace := s.trace ++ [BusEvent.busRead 32],
               registers_ := regOfWire (chip.busRead s.reads).data }) := by
  simp [readRegisters, h, shuffleLoop_wire]

theorem readRegisters_short (chip : Chip) (s : Si4703_Breakout)
    (h : (chip.busRead s.reads).count ≠ 32) :
    readRegisters chip s = some (FAIL,
      { s with reads := s.reads + 1,
               trace := s.trace ++ [BusEvent.busRead (chip.busRead s.reads).count] }) := by
  simp [readRegisters, h]

/-- C1: when the bus read delivers all 32 bytes (little-endian host),
`readRegisters` returns SUCCESS and, for each wire word i in 0..15, the logical
register (0x0A + i) mod 16 holds (byte[2i] << 8) | byte[2i+1].  In particular
wire word 0 lands in register 0x0A, word 5 in 0x0F, word 6 in 0x00 and word 15
in 0x09. -/
theorem readRegisters_remaps_wire_words (chip : Chip) (s : Si4703_Breakout)
    (h : (chip.busRead s.reads).count = 32) :
    ∃ s', readRegisters chip s = some (SUCCESS, s') ∧
      (∀ i : Fin 16,
        s'.registers_ ⟨(0x0A + i.val) % 16, Nat.mod_lt _ (by decide)⟩
          = (((chip.busRead s.reads).data ⟨2 * i.val, by omega⟩).val <<< 8)
              ||| ((chip.busRead s.reads).data ⟨2 * i.val + 1, by omega⟩).val) ∧
      s'.registers_ 0x0A
          = (((chip.busRead s.reads).data 0).val <<< 8) ||| ((chip.busRead s.reads).data 1).val ∧
      s'.registers_ 0x0F
          = (((chip.busRead s.reads).data 10).val <<< 8) ||| ((chip.busRead s.reads).data 11).val ∧
      s'.registers_ 0x00
          = (((chip.busRead s.reads).data 12).val <<< 8) ||| ((chip.busRead s.reads).data 13).val ∧
      s'.registers_ 0x09
          = (((chip.busRead s.reads).data 30).val <<< 8) ||| ((chip.busRead s.reads).data 31).val := by
  have key : ∀ i : Fin 16,
      regOfWire (chip.busRead s.reads).data ⟨(0x0A + i.val) % 16, Nat.mod_lt _ (by decide)⟩
          = (((chip.busRead s.reads).data ⟨2 * i.val, by omega⟩).val <<< 8)
              ||| ((chip.busRead s.reads).data ⟨2 * i.val + 1, by omega⟩).val := by
    intro i
    rw [shift_or_bytes _ _ (Fin.isLt _)]
    unfold regOfWire
    have e : ((0x0A + i.val) % 16 + 6) % 16 = i.val := by omega
    simp only [e]
    rw [byteAt_eq _ _ (by omega), byteAt_eq _ _ (by omega)]
  refine ⟨_, readRegisters_ok chip s h, key, ?_, ?_, ?_, ?_⟩
  · exact key 0
  · exact key 5
  · exact key 6
  · exact key 15

/-- Witness for C1: the counting chip delivers 32 bytes to the US device. -/
theorem readRegisters_remaps_wire_words_witness :
    (countingChip.busRead usDevice.reads).count = 32 ∧
    ∃ s', readRegisters countingChip usDevice = some (SUCCESS, s') ∧
      s'.registers_ 0x0A = 0x0001 ∧ s'.registers_ 0x0F = 0x0A0B ∧
      s'.registers_ 0x00 = 0x0C0D ∧ s'.registers_ 0x09 = 0x1E1F := by
  refine ⟨rfl, ?_⟩
  obtain ⟨s', h1, _, h2, h3, h4, h5⟩ :=
    readRegisters_remaps_wire_words countingChip usDevice rfl
  exact ⟨s', h1, h2, h3, h4, h5⟩

/-! ## `updateRegisters` -/

theorem fillLoop_full (regs : Registers) :
    ∃ buffer, fillLoop regs 7 0x02 0 (fun _ => 0) = some buffer ∧
      (List.range 6).map buffer
        = [ToBigEndian (regs 0x02), ToBigEndian (regs 0x03), ToBigEndian (regs 0x04),
           ToBigEndian (regs 0x05), ToBigEndian (regs 0x06), ToBigEndian (regs 0x07)] := by
  refine ⟨_, by simp only [fillLoop]; simp; rfl, ?_⟩
  simp [List.range, List.range.loop, getReg, Function.update]

theorem updateRegisters_eq (chip : Chip) (s : Si4703_Breakout) :
    updateRegisters chip s
      = some (if chip.busWrite s.writes < 12 then FAIL else SUCCESS,
          { s with writes := s.writes + 1,
                   trace := s.trace ++
                     [BusEvent.busWrite (controlPayload s.registers_) (chip.busWrite s.writes)] }) := by
  obtain ⟨buffer, h1, h2⟩ := fillLoop_full s.registers_
  unfold updateRegisters
  rw [h1]
  simp only [h2, controlPayload]
  split <;> rfl

theorem controlPayload_bytes (regs : Registers) (hreg : ∀ r, regs r < 65536) :
    controlPayload regs
      = [regs 0x02 / 256, regs 0x02 % 256, regs 0x03 / 256, regs 0x03 % 256,
         regs 0x04 / 256, regs 0x04 % 256, regs 0x05 / 256, regs 0x05 % 256,
         regs 0x06 / 256, regs 0x06 % 256, regs 0x07 / 256, regs 0x07 % 256] := by
  simp only [controlPayload, wordsToBytes, ToBigEndian]
  simp only [swapEndian_low _ (hreg _), swapEndian_high _ (hreg _)]

/-- C2: for every 16-bit register image, `updateRegisters` issues exactly one
bus write, of exactly 12 bytes, whose bytes 2j and 2j+1 are the high and the
low byte of register 0x02 + j (j = 0..5, ascending); the payload is built from
registers 0x02-0x07 only, no bus read is made, and the register image is not
modified. -/
theorem updateRegisters_sends_control_block (chip : Chip) (s : Si4703_Breakout)
    (hreg : ∀ r, s.registers_ r < 65536) :
    ∃ status s' payload, updateRegisters chip s = some (status, s') ∧
      s'.trace = s.trace ++ [BusEvent.busWrite payload (chip.busWrite s.writes)] ∧
      s'.writes = s.writes + 1 ∧ s'.reads = s.reads ∧
      payload.length = 12 ∧
      payload
        = [s.registers_ 0x02 / 256, s.registers_ 0x02 % 256,
           s.registers_ 0x03 / 256, s.registers_ 0x03 % 256,
           s.registers_ 0x04 / 256, s.registers_ 0x04 % 256,
           s.registers_ 0x05 / 256, s.registers_ 0x05 % 256,
           s.registers_ 0x06 / 256, s.registers_ 0x06 % 256,
           s.registers_ 0x07 / 256, s.registers_ 0x07 % 256] ∧
      (∀ j : Fin 6,
        payload[2 * j.val]? = some (s.registers_ ⟨0x02 + j.val, by omega⟩ / 256) ∧
        payload[2 * j.val + 1]? = some (s.registers_ ⟨0x02 + j.val, by omega⟩ % 256)) ∧
      s'.registers_ = s.registers_ := by
  refine ⟨_, _, _, updateRegisters_eq chip s, rfl, rfl, rfl, ?_, controlPayload_bytes _ hreg, ?_, rfl⟩
  · rw [controlPayload_bytes _ hreg]; rfl
  · rw [controlPayload_bytes _ hreg]
    intro j
    fin_cases j <;> exact ⟨rfl, rfl⟩

/-- Witness for C2: the US example device holds 16-bit values. -/
theorem updateRegisters_sends_control_block_witness :
    (∀ r, usDevice.registers_ r < 65536) ∧
    ∃ status s' payload, updateRegisters countingChip usDevice = some (status, s') ∧
      s'.trace = usDevice.trace ++ [BusEvent.busWrite payload (countingChip.busWrite usDevice.writes)] ∧
      payload = [0x12, 0x02, 0x12, 0x03, 0x12, 0x04, 0x12, 0x05, 0x12, 0x06, 0x12, 0x07] := by
  have hreg : ∀ r, usDevice.registers_ r < 65536 := by decide
  refine ⟨hreg, ?_⟩
  obtain ⟨status, s', payload, h1, h2, _, _, _, h3, _, _⟩ :=
    updateRegisters_sends_control_block countingChip usDevice hreg
  exact ⟨status, s', payload, h1, h2, h3⟩

/-! ## Channel and frequency -/

theorem toUint16_small (k : Nat) (hk : k < 65536) (e : ℚ) (h0 : 0 ≤ e) (h1 : e < 1) :
    toUint16 (e + (k : ℚ)) = k := by
  unfold toUint16
  have hnn : (0 : ℚ) ≤ e + (k : ℚ) := by positivity
  rw [if_pos hnn]
  have hfl : ⌊e + (k : ℚ)⌋ = (k : ℤ) := by
    rw [Int.floor_eq_iff]
    push_cast
    constructor <;> linarith
  rw [hfl]
  omega

theorem channelSpacing_pos (s : Si4703_Breakout) : 0 < channelSpacing s := by
  unfold channelSpacing
  split <;> norm_num

theorem frequencyToChannel_on_grid (s : Si4703_Breakout) (m : ℚ) (k : Nat)
    (hm : minFrequency s = some m) (hk : k < 65536) :
    frequencyToChannel s (channelSpacing s * (k : ℚ) + m) = some k := by
  unfold frequencyToChannel
  rw [hm]
  have hpos := channelSpacing_pos s
  have e : (0.001 : ℚ) + (channelSpacing s * (k : ℚ) + m - m) / channelSpacing s
      = 0.001 + (k : ℚ) := by
    field_simp
  simp only [e]
  rw [toUint16_small k hk 0.001 (by norm_num) (by norm_num)]

/-- C3: over exact rational arithmetic, for a device whose band is US/Europe
(minimum 87.5 MHz) or Japan (minimum 76.0 MHz) and whose spacing is 200, 100
or 50 kHz (0.2, 0.1 or 0.05 MHz), and every channel code k with
0 <= k <= 1023: frequencyToChannel (channelToFrequency k) = k; hence for every
f = minFrequency + k * spacing on the grid of that band and spacing,
channelToFrequency (frequencyToChannel f) = f; and 101.1 MHz in the US
configuration (200 kHz) maps to channel 68. -/
theorem channel_frequency_roundtrip (s : Si4703_Breakout) (k : Nat)
    (hband : s.band_ = Band.Band_US_Europe ∨ s.band_ = Band.Band_Japan)
    (hk : k ≤ 1023) :
    (∃ f, channelToFrequency s k = some f ∧ frequencyToChannel s f = some k) ∧
    (∀ m f, minFrequency s = some m → f = m + (k : ℚ) * channelSpacing s →
      ∃ c, frequencyToChannel s f = some c ∧ c = k ∧ channelToFrequency s c = some f) ∧
    (s.band_ = Band.Band_US_Europe → minFrequency s = some 87.5) ∧
    (s.band_ = Band.Band_Japan → minFrequency s = some 76.0) ∧
    (s.channel_spacing_ = ChannelSpacing.Spacing_200kHz → channelSpacing s = 0.2) ∧
    (s.channel_spacing_ = ChannelSpacing.Spacing_100kHz → channelSpacing s = 0.1) ∧
    (s.channel_spacing_ = ChannelSpacing.Spacing_50kHz → channelSpacing s = 0.05) ∧
    (∀ (m sp f : ℚ),
      (s.band_ = Band.Band_US_Europe ∧ m = 87.5 ∨ s.band_ = Band.Band_Japan ∧ m = 76.0) →
      (s.channel_spacing_ = ChannelSpacing.Spacing_200kHz ∧ sp = 0.2 ∨
        s.channel_spacing_ = ChannelSpacing.Spacing_100kHz ∧ sp = 0.1 ∨
        s.channel_spacing_ = ChannelSpacing.Spacing_50kHz ∧ sp = 0.05) →
      f = m + (k : ℚ) * sp →
      channelToFrequency s k = some f ∧ frequencyToChannel s f = some k) ∧
    (s.band_ = Band.Band_US_Europe →
      s.channel_spacing_ = ChannelSpacing.Spacing_200kHz →
      frequencyToChannel s 101.1 = some 68) := by
  have hmin : ∃ m, minFrequency s = some m := by
    unfold minFrequency
    rcases hband with h | h <;> rw [h] <;> exact ⟨_, rfl⟩
  obtain ⟨m, hm⟩ := hmin
  have hctf : channelToFrequency s k = some (channelSpacing s * (k : ℚ) + m) := by
    unfold channelToFrequency
    rw [hm]
  have h87 : s.band_ = Band.Band_US_Europe → minFrequency s = some 87.5 := by
    intro h
    unfold minFrequency
    rw [h]
  have h76 : s.band_ = Band.Band_Japan → minFrequency s = some 76.0 := by
    intro h
    unfold minFrequency
    rw [h]
  have h200 : s.channel_spacing_ = ChannelSpacing.Spacing_200kHz → channelSpacing s = 0.2 := by
    intro h
    unfold channelSpacing
    rw [h]
  have h100 : s.channel_spacing_ = ChannelSpacing.Spacing_100kHz → channelSpacing s = 0.1 := by
    intro h
    unfold channelSpacing
    rw [h]
  have h50 : s.channel_spacing_ = ChannelSpacing.Spacing_50kHz → channelSpacing s = 0.05 := by
    intro h
    unfold channelSpacing
    rw [h]
  refine ⟨⟨_, hctf, frequencyToChannel_on_grid s m k hm (by omega)⟩, ?_, h87, h76, h200,
    h100, h50, ?_, ?_⟩
  · intro m' f hm' hf
    have hmm : m' = m := by rw [hm] at hm'; exact (Option.some.inj hm').symm
    subst hmm
    have hf' : f = channelSpacing s * (k : ℚ) + m' := by rw [hf]; ring
    subst hf'
    exact ⟨k, frequencyToChannel_on_grid s m' k hm (by omega), rfl, hctf⟩
  · intro m' sp f hm' hsp hf
    have hmm : m' = m := by
      rcases hm' with ⟨hb, e⟩ | ⟨hb, e⟩
      · have := h87 hb
        rw [hm] at this
        rw [e]; exact (Option.some.inj this).symm
      · have := h76 hb
        rw [hm] at this
        rw [e]; exact (Option.some.inj this).symm
    have hss : sp = channelSpacing s := by
      rcases hsp with ⟨hc, e⟩ | ⟨hc, e⟩ | ⟨hc, e⟩
      · rw [e, h200 hc]
      · rw [e, h100 hc]
      · rw [e, h50 hc]
    have hf' : f = channelSpacing s * (k : ℚ) + m := by rw [hf, hmm, hss]; ring
    subst hf'
    exact ⟨hctf, frequencyToChannel_on_grid s m k hm (by omega)⟩
  · intro hb hs
    have hsp : channelSpacing s = 0.2 := h200 hs
    have h := frequencyToChannel_on_grid s 87.5 68 (h87 hb) (by norm_num)
    have e : channelSpacing s * ((68 : ℕ) : ℚ) + 87.5 = 101.1 := by rw [hsp]; norm_num
    rw [e] at h
    exact h

/-- Witness for C3: channel 68 of the US device (200 kHz) is 101.1 MHz,
channel 1 of the Europe device (100 kHz) is 87.6 MHz, and channel 3 of the
Japan-band device with 50 kHz spacing is 76.15 MHz, each in both directions. -/
theorem channel_frequency_roundtrip_witness :
    (usDevice.band_ = Band.Band_US_Europe ∨ usDevice.band_ = Band.Band_Japan) ∧
    68 ≤ 1023 ∧
    (∃ f, channelToFrequency usDevice 68 = some f ∧ frequencyToChannel usDevice f = some 68) ∧
    frequencyToChannel usDevice 101.1 = some 68 ∧
    (channelToFrequency usDevice 68 = some 101.1 ∧
      frequencyToChannel usDevice 101.1 = some 68) ∧
    (channelToFrequency europeDevice 1 = some 87.6 ∧
      frequencyToChannel europeDevice 87.6 = some 1) ∧
    (channelToFrequency japan50Device 3 = some 76.15 ∧
      frequencyToChannel japan50Device 76.15 = some 3) :=
  ⟨Or.inl rfl, by decide,
    (channel_frequency_roundtrip usDevice 68 (Or.inl rfl) (by decide)).1,
    (channel_frequency_roundtrip usDevice 68 (Or.inl rfl) (by decide)).2.2.2.2.2.2.2.2 rfl rfl,
    (channel_frequency_roundtrip usDevice 68 (Or.inl rfl) (by decide)).2.2.2.2.2.2.2.1
      87.5 0.2 101.1 (Or.inl ⟨rfl, rfl⟩) (Or.inl ⟨rfl, rfl⟩) (by norm_num),
    (channel_frequency_roundtrip europeDevice 1 (Or.inl rfl) (by decide)).2.2.2.2.2.2.2.1
      87.5 0.1 87.6 (Or.inl ⟨rfl, rfl⟩) (Or.inr (Or.inl ⟨rfl, rfl⟩)) (by norm_num),
    (channel_frequency_roundtrip japan50Device 3 (Or.inr rfl) (by decide)).2.2.2.2.2.2.2.1
      76.0 0.05 76.15 (Or.inr ⟨rfl, rfl⟩) (Or.inr (Or.inr ⟨rfl, rfl⟩)) (by norm_num)⟩

/-! ## Bookkeeping of the driver object -/

theorem readRegisters_eq (chip : Chip) (s : Si4703_Breakout) :
    readRegisters chip s
      = some (if (chip.busRead s.reads).count = 32 then SUCCESS else FAIL, afterRead chip s) := by
  by_cases h : (chip.busRead s.reads).count = 32
  · rw [readRegisters_ok chip s h]; simp [h, afterRead]
  · rw [readRegisters_short chip s h]; simp [h, afterRead]

theorem updateRegisters_eq_afterWrite (chip : Chip) (s : Si4703_Breakout) :
    updateRegisters chip s
      = some (if chip.busWrite s.writes < 12 then FAIL else SUCCESS, afterWrite chip s) :=
  updateRegisters_eq chip s

@[simp] theorem afterRead_reads (chip : Chip) (s : Si4703_Breakout) :
    (afterRead chip s).reads = s.reads + 1 := rfl

@[simp] theorem afterRead_writes (chip : Chip) (s : Si4703_Breakout) :
    (afterRead chip s).writes = s.writes := rfl

@[simp] theorem afterRead_trace (chip : Chip) (s : Si4703_Breakout) :
    (afterRead chip s).trace
      = s.trace ++ [BusEvent.busRead (chip.busRead s.reads).count] := rfl

@[simp] theorem afterRead_band (chip : Chip) (s : Si4703_Breakout) :
    (afterRead chip s).band_ = s.band_ := rfl

@[simp] theorem afterRead_spacing (chip : Chip) (s : Si4703_Breakout) :
    (afterRead chip s).channel_spacing_ = s.channel_spacing_ := rfl

@[simp] theorem afterRead_clock (chip : Chip) (s : Si4703_Breakout) :
    (afterRead chip s).clock = s.clock := rfl

@[simp] theorem afterRead_clockReads (chip : Chip) (s : Si4703_Breakout) :
    (afterRead chip s).clockReads = s.clockReads := rfl

@[simp] theorem afterRead_pending (chip : Chip) (s : Si4703_Breakout) :
    (afterRead chip s).pending = s.pending := rfl

theorem afterRead_registers_ok (chip : Chip) (s : Si4703_Breakout)
    (h : (chip.busRead s.reads).count = 32) :
    (afterRead chip s).registers_ = regOfWire (chip.busRead s.reads).data := by
  simp [afterRead, h]

@[simp] theorem afterWrite_reads (chip : Chip) (s : Si4703_Breakout) :
    (afterWrite chip s).reads = s.reads := rfl

@[simp] theorem afterWrite_writes (chip : Chip) (s : Si4703_Breakout) :
    (afterWrite chip s).writes = s.writes + 1 := rfl

@[simp] theorem afterWrite_registers (chip : Chip) (s : Si4703_Breakout) :
    (afterWrite chip s).registers_ = s.registers_ := rfl

@[simp] theorem afterWrite_trace (chip : Chip) (s : Si4703_Breakout) :
    (afterWrite chip s).trace
      = s.trace ++ [BusEvent.busWrite (controlPayload s.registers_) (chip.busWrite s.writes)] :=
  rfl

@[simp] theorem afterWrite_band (chip : Chip) (s : Si4703_Breakout) :
    (afterWrite chip s).band_ = s.band_ := rfl

@[simp] theorem afterWrite_spacing (chip : Chip) (s : Si4703_Breakout) :
    (afterWrite chip s).channel_spacing_ = s.channel_spacing_ := rfl

@[simp] theorem setRegister_reads (s : Si4703_Breakout) (r : Fin 16) (v : Nat) :
    (setRegister s r v).reads = s.reads := rfl

@[simp] theorem setRegister_writes (s : Si4703_Breakout) (r : Fin 16) (v : Nat) :
    (setRegister s r v).writes = s.writes := rfl

@[simp] theorem setRegister_trace (s : Si4703_Breakout) (r : Fin 16) (v : Nat) :
    (setRegister s r v).trace = s.trace := rfl

@[simp] theorem setRegister_band (s : Si4703_Breakout) (r : Fin 16) (v : Nat) :
    (setRegister s r v).band_ = s.band_ := rfl

@[simp] theorem setRegister_spacing (s : Si4703_Breakout) (r : Fin 16) (v : Nat) :
    (setRegister s r v).channel_spacing_ = s.channel_spacing_ := rfl

@[simp] theorem setRegister_registers (s : Si4703_Breakout) (r : Fin 16) (v : Nat) :
    (setRegister s r v).registers_ = Function.update s.registers_ r v := rfl

@[simp] theorem delay_reads (ms : Nat) (s : Si4703_Breakout) : (delay ms s).reads = s.reads := rfl

@[simp] theorem delay_writes (ms : Nat) (s : Si4703_Breakout) :
    (delay ms s).writes = s.writes := rfl

@[simp] theorem delay_trace (ms : Nat) (s : Si4703_Breakout) : (delay ms s).trace = s.trace := rfl

@[simp] theorem delay_registers (ms : Nat) (s : Si4703_Breakout) :
    (delay ms s).registers_ = s.registers_ := rfl

@[simp] theorem delay_band (ms : Nat) (s : Si4703_Breakout) : (delay ms s).band_ = s.band_ := rfl

@[simp] theorem delay_spacing (ms : Nat) (s : Si4703_Breakout) :
    (delay ms s).channel_spacing_ = s.channel_spacing_ := rfl

theorem waitSTCSet_reads (chip : Chip) (fuel : Nat) :
    ∀ s s1 : Si4703_Breakout, waitSTCSet chip fuel s = some s1 → s.reads < s1.reads := by
  induction fuel with
  | zero => intro s s1 h; simp [waitSTCSet] at h
  | succ n ih =>
    intro s s1 h
    rw [waitSTCSet, readRegisters_eq] at h
    simp only at h
    split at h
    · cases h; simp
    · have := ih _ _ h
      simp at this
      omega

theorem waitSTCClear_reads (chip : Chip) (fuel : Nat) :
    ∀ s s1 : Si4703_Breakout, waitSTCClear chip fuel s = some s1 → s.reads < s1.reads := by
  induction fuel with
  | zero => intro s s1 h; simp [waitSTCClear] at h
  | succ n ih =>
    intro s s1 h
    rw [waitSTCClear, readRegisters_eq] at h
    simp only at h
    split at h
    · cases h; simp
    · have := ih _ _ h
      simp at this
      omega

theorem tuneHandshake_reads (chip : Chip) (fuel channel : Nat) (s s1 : Si4703_Breakout)
    (h : tuneHandshake chip fuel channel s = some s1) : s.reads < s1.reads := by
  unfold tuneHandshake at h
  simp only [readRegisters_eq, updateRegisters_eq_afterWrite, Option.bind_eq_bind,
    Option.some_bind] at h
  rw [Option.bind_eq_some] at h
  obtain ⟨s2, h2, h3⟩ := h
  have a := waitSTCSet_reads chip fuel _ _ h2
  have b := waitSTCClear_reads chip fuel _ _ h3
  simp at a b
  omega

/-! ## `setFrequency`: the grid check -/

theorem setFrequency_eq (chip : Chip) (fuel : Nat) (f m : ℚ) (s : Si4703_Breakout)
    (hm : minFrequency s = some m) :
    setFrequency chip fuel f s
      = if FloatsEqual ((f - m) / channelSpacing s)
            ((toUint16 (0.001 + (f - m) / channelSpacing s) : ℕ) : ℚ) = true
        then tuneHandshake chip fuel (toUint16 (0.001 + (f - m) / channelSpacing s)) s
        else some s := by
  unfold setFrequency frequencyToChannel
  rw [hm]
  simp only
  split <;> simp_all

theorem toUint16_eq (q : ℚ) (k : Nat) (h0 : (k : ℚ) ≤ q) (h1 : q < (k : ℚ) + 1)
    (hk : k < 65536) : toUint16 q = k := by
  have e : q = (q - (k : ℚ)) + (k : ℚ) := by ring
  rw [e]
  exact toUint16_small k hk _ (by linarith) (by linarith)

theorem grid_error_eq (s : Si4703_Breakout) (f m : ℚ) (c : Nat) :
    |(channelSpacing s * (c : ℚ) + m) - f| < 0.02 * channelSpacing s
      ↔ |(f - m) / channelSpacing s - (c : ℚ)| < 0.02 := by
  have hpos := channelSpacing_pos s
  have e : (channelSpacing s * (c : ℚ) + m) - f
      = channelSpacing s * -((f - m) / channelSpacing s - (c : ℚ)) := by
    field_simp
    ring
  rw [e, abs_mul, abs_neg, abs_of_pos hpos, mul_comm]
  exact mul_lt_mul_right hpos

/-- C5 (as amended): over exact rational arithmetic, for every device with a
defined band minimum and every frequency f at or above it, the channel code is
the integer part of 0.001 + (f - minFrequency) / spacing (modulo 2^16), and
the grid check of `setFrequency` lets the tune proceed if and only if the
channel offset (f - minFrequency) / spacing is within 0.02 of that channel
code, that is, if and only if |channelToFrequency (frequencyToChannel f) - f|
is below 0.02 channel spacings (0.02 * spacing MHz); otherwise the call
returns the object unchanged. -/
theorem setFrequency_accepts_iff (chip : Chip) (fuel : Nat) (f m : ℚ)
    (s : Si4703_Breakout) (hm : minFrequency s = some m) (hf : m ≤ f) :
    ∃ c g, frequencyToChannel s f = some c ∧ channelToFrequency s c = some g ∧
      (c : ℤ) = ⌊0.001 + (f - m) / channelSpacing s⌋ % 65536 ∧
      (|g - f| < 0.02 * channelSpacing s ↔ |(f - m) / channelSpacing s - (c : ℚ)| < 0.02) ∧
      (|g - f| < 0.02 * channelSpacing s →
        setFrequency chip fuel f s = tuneHandshake chip fuel c s) ∧
      (setFrequency chip fuel f s = some s ↔ ¬ |g - f| < 0.02 * channelSpacing s) := by
  have hfloor : ((toUint16 (0.001 + (f - m) / channelSpacing s) : ℕ) : ℤ)
      = ⌊0.001 + (f - m) / channelSpacing s⌋ % 65536 := by
    have hq : (0 : ℚ) ≤ 0.001 + (f - m) / channelSpacing s := by
      have h1 : (0 : ℚ) ≤ (f - m) / channelSpacing s :=
        div_nonneg (by linarith) (le_of_lt (channelSpacing_pos s))
      have h2 : (0 : ℚ) ≤ 0.001 := by norm_num
      linarith
    unfold toUint16
    rw [if_pos hq]
    exact Int.toNat_of_nonneg (Int.emod_nonneg _ (by decide))
  have hc : frequencyToChannel s f = some (toUint16 (0.001 + (f - m) / channelSpacing s)) := by
    unfold frequencyToChannel; rw [hm]
  have hg : channelToFrequency s (toUint16 (0.001 + (f - m) / channelSpacing s))
      = some (channelSpacing s * ((toUint16 (0.001 + (f - m) / channelSpacing s) : ℕ) : ℚ) + m) := by
    unfold channelToFrequency; rw [hm]
  have hiff := grid_error_eq s f m (toUint16 (0.001 + (f - m) / channelSpacing s))
  have heq := setFrequency_eq chip fuel f m s hm
  have hfe : FloatsEqual ((f - m) / channelSpacing s)
        ((toUint16 (0.001 + (f - m) / channelSpacing s) : ℕ) : ℚ) = true
      ↔ |(f - m) / channelSpacing s
          - ((toUint16 (0.001 + (f - m) / channelSpacing s) : ℕ) : ℚ)| < 0.02 := by
    unfold FloatsEqual
    exact decide_eq_true_iff
  refine ⟨_, _, hc, hg, hfloor, hiff, ?_, ?_⟩
  · intro h
    rw [heq, if_pos (hfe.mpr (hiff.mp h))]
  · constructor
    · intro hrej h
      rw [heq, if_pos (hfe.mpr (hiff.mp h))] at hrej
      have := tuneHandshake_reads chip fuel _ s s hrej
      omega
    · intro h
      rw [heq, if_neg]
      intro h'
      exact h (hiff.mpr (hfe.mp h'))

/-- Witness for C5 (as amended): 101.1 MHz on the US device. -/
theorem setFrequency_accepts_iff_witness :
    minFrequency usDevice = some 87.5 ∧ (87.5 : ℚ) ≤ 101.1 ∧
    ∃ c g, frequencyToChannel usDevice 101.1 = some c ∧ channelToFrequency usDevice c = some g ∧
      (c : ℤ) = ⌊0.001 + ((101.1 : ℚ) - 87.5) / channelSpacing usDevice⌋ % 65536 ∧
      (|g - 101.1| < 0.02 * channelSpacing usDevice
        ↔ |((101.1 : ℚ) - 87.5) / channelSpacing usDevice - (c : ℚ)| < 0.02) ∧
      (|g - 101.1| < 0.02 * channelSpacing usDevice →
        setFrequency countingChip 3 101.1 usDevice = tuneHandshake countingChip 3 c usDevice) ∧
      (setFrequency countingChip 3 101.1 usDevice = some usDevice
        ↔ ¬ |g - 101.1| < 0.02 * channelSpacing usDevice) :=
  ⟨rfl, by norm_num,
    setFrequency_accepts_iff countingChip 3 101.1 87.5 usDevice rfl (by norm_num)⟩

/-- Counterexample to C5 as stated: 87.51 MHz on the US device lies at or
above the band minimum, the frequency re-derived from its channel code (87.5)
is within 0.02 MHz of it, and yet `setFrequency` rejects it (the object comes
back unchanged, nothing is read or written). -/
theorem setFrequency_rejects_within_tolerance :
    minFrequency usDevice = some 87.5 ∧ (87.5 : ℚ) ≤ 87.51 ∧
    frequencyToChannel usDevice 87.51 = some 0 ∧
    channelToFrequency usDevice 0 = some 87.5 ∧
    |(87.5 : ℚ) - 87.51| < 0.02 ∧
    setFrequency countingChip 3 87.51 usDevice = some usDevice := by
  have hsp : channelSpacing usDevice = 0.2 := rfl
  have hu : toUint16 (0.001 + ((87.51 : ℚ) - 87.5) / channelSpacing usDevice) = 0 := by
    apply toUint16_eq
    · rw [hsp]; norm_num
    · rw [hsp]; norm_num
    · decide
  refine ⟨rfl, by norm_num, ?_, ?_, ?_, ?_⟩
  · unfold frequencyToChannel
    rw [show minFrequency usDevice = some 87.5 from rfl]
    simp only [hu]
  · unfold channelToFrequency
    rw [show minFrequency usDevice = some 87.5 from rfl, hsp]
    norm_num
  · rw [abs_lt]; constructor <;> norm_num
  · rw [setFrequency_eq countingChip 3 87.51 87.5 usDevice rfl, hu, if_neg]
    unfold FloatsEqual
    rw [decide_eq_true_iff, hsp, abs_lt]
    norm_num

/-! ## `setVolume` -/

theorem nibble_and_high (v : Nat) (hv : v ≤ 15) : v &&& 0xFFF0 = 0 := by
  interval_cases v <;> rfl

theorem nibble_and_low (v : Nat) (hv : v ≤ 15) : v &&& 0x000F = v := by
  interval_cases v <;> rfl

theorem volume_field_high (r v : Nat) (hv : v ≤ 15) :
    ((r &&& 0xFFF0) ||| v) &&& 0xFFF0 = r &&& 0xFFF0 := by
  rw [Nat.and_comm, Nat.and_or_distrib_left, Nat.and_comm 0xFFF0 v, nibble_and_high v hv,
    Nat.or_zero, Nat.and_comm, Nat.and_assoc, Nat.and_self]

theorem volume_field_low (r v : Nat) (hv : v ≤ 15) :
    ((r &&& 0xFFF0) ||| v) &&& 0x000F = v := by
  rw [Nat.and_comm, Nat.and_or_distrib_left, Nat.and_comm 0x000F v, nibble_and_low v hv,
    Nat.and_comm, Nat.and_assoc]
  have e : (0xFFF0 : Nat) &&& 0x000F = 0 := by rfl
  rw [e, Nat.and_zero, Nat.zero_or]

theorem volume_field_lt (r v : Nat) (hv : v ≤ 15) :
    (r &&& 0xFFF0) ||| v < 65536 := by
  have h1 : r &&& 0xFFF0 < 2 ^ 16 := Nat.and_lt_two_pow r (by norm_num)
  have h2 : v < 2 ^ 16 := by norm_num; omega
  exact Nat.or_lt_two_pow h1 h2

theorem clamp_volume (volume : Int) :
    (if (if volume < 0 then 0 else volume) > 15 then 15
      else (if volume < 0 then 0 else volume)) = max 0 (min volume 15) := by
  split <;> split <;> omega

theorem clamp_le (volume : Int) : (max 0 (min volume 15)).toNat ≤ 15 := by
  omega

theorem setVolume_eq (chip : Chip) (volume : Int) (s : Si4703_Breakout) :
    setVolume chip volume s
      = some (afterWrite chip
          (setRegister
            (setRegister (afterRead chip s) SYSCONFIG2
              ((afterRead chip s).registers_ SYSCONFIG2 &&& 0xFFF0))
            SYSCONFIG2
            ((((afterRead chip s).registers_ SYSCONFIG2 &&& 0xFFF0)
                ||| (max 0 (min volume 15)).toNat) % 65536))) := by
  unfold setVolume
  simp only [readRegisters_eq, updateRegisters_eq_afterWrite, Option.bind_eq_bind,
    Option.some_bind, clamp_volume, setRegister_registers, Function.update_same]

/-- C6: for every integer volume and every register content delivered by the
read, `setVolume` returns normally and the control write it issues carries
SYSCONFIG2 = (SYSCONFIG2 as just read AND 0xFFF0) OR clamp(volume, 0, 15): that
value is stored in the image and sent as bytes 6 and 7 of the payload, its
upper 12 bits are those just read, its low nibble is the clamped volume, which
is 15 for volume 99 and 0 for volume -5. -/
theorem setVolume_writes_clamped (chip : Chip) (volume : Int) (s : Si4703_Breakout)
    (hread : (chip.busRead s.reads).count = 32) :
    ∃ s' payload, setVolume chip volume s = some s' ∧
      s'.trace = s.trace ++ [BusEvent.busRead 32,
        BusEvent.busWrite payload (chip.busWrite s.writes)] ∧
      s'.registers_ SYSCONFIG2
        = (regOfWire (chip.busRead s.reads).data SYSCONFIG2 &&& 0xFFF0)
            ||| (max 0 (min volume 15)).toNat ∧
      payload.length = 12 ∧
      payload[6]? = some (s'.registers_ SYSCONFIG2 / 256) ∧
      payload[7]? = some (s'.registers_ SYSCONFIG2 % 256) ∧
      s'.registers_ SYSCONFIG2 &&& 0xFFF0
        = regOfWire (chip.busRead s.reads).data SYSCONFIG2 &&& 0xFFF0 ∧
      s'.registers_ SYSCONFIG2 &&& 0x000F = (max 0 (min volume 15)).toNat ∧
      (volume = 99 → s'.registers_ SYSCONFIG2 &&& 0x000F = 15) ∧
      (volume = -5 → s'.registers_ SYSCONFIG2 &&& 0x000F = 0) := by
  have hv := clamp_le volume
  have hR := afterRead_registers_ok chip s hread
  have hval : ((regOfWire (chip.busRead s.reads).data SYSCONFIG2 &&& 0xFFF0)
      ||| (max 0 (min volume 15)).toNat) % 65536
      = (regOfWire (chip.busRead s.reads).data SYSCONFIG2 &&& 0xFFF0)
          ||| (max 0 (min volume 15)).toNat :=
    Nat.mod_eq_of_lt (volume_field_lt _ _ hv)
  have hreg : ∀ r : Fin 16,
      (Function.update
        (Function.update (regOfWire (chip.busRead s.reads).data) SYSCONFIG2
          (regOfWire (chip.busRead s.reads).data SYSCONFIG2 &&& 0xFFF0))
        SYSCONFIG2
        ((regOfWire (chip.busRead s.reads).data SYSCONFIG2 &&& 0xFFF0)
          ||| (max 0 (min volume 15)).toNat)) r < 65536 := by
    intro r
    by_cases hr : r = SYSCONFIG2
    · subst hr
      rw [Function.update_same]
      exact volume_field_lt _ _ hv
    · rw [Function.update_noteq hr, Function.update_noteq hr]
      exact regOfWire_lt _ _
  have hlow := volume_field_low (regOfWire (chip.busRead s.reads).data SYSCONFIG2) _ hv
  refine ⟨_, controlPayload
      (Function.update
        (Function.update (regOfWire (chip.busRead s.reads).data) SYSCONFIG2
          (regOfWire (chip.busRead s.reads).data SYSCONFIG2 &&& 0xFFF0))
        SYSCONFIG2
        ((regOfWire (chip.busRead s.reads).data SYSCONFIG2 &&& 0xFFF0)
          ||| (max 0 (min volume 15)).toNat)),
    setVolume_eq chip volume s, ?_, ?_, ?_, ?_, ?_, ?_, ?_, ?_, ?_⟩
  · simp [hread, hR, hval]
  · simp [hR, hval]
  · rw [controlPayload_bytes _ hreg]
    rfl
  · simp only [afterWrite_registers, setRegister_registers, hR, hval]
    rw [controlPayload_bytes _ hreg]
    rfl
  · simp only [afterWrite_registers, setRegister_registers, hR, hval]
    rw [controlPayload_bytes _ hreg]
    rfl
  · simp only [afterWrite_registers, setRegister_registers, hR, hval, Function.update_same]
    exact volume_field_high _ _ hv
  · simp only [afterWrite_registers, setRegister_registers, hR, hval, Function.update_same]
    exact hlow
  · intro h99
    simp only [afterWrite_registers, setRegister_registers, hR, hval, Function.update_same]
    rw [hlow, h99]
    rfl
  · intro h5
    simp only [afterWrite_registers, setRegister_registers, hR, hval, Function.update_same]
    rw [hlow, h5]
    rfl

/-- Witness for C6: volume 99 on the US device with the counting chip, whose
read delivers SYSCONFIG2 = 0x1617. -/
theorem setVolume_writes_clamped_witness :
    (countingChip.busRead usDevice.reads).count = 32 ∧
    ∃ s' payload, setVolume countingChip 99 usDevice = some s' ∧
      s'.trace = usDevice.trace ++ [BusEvent.busRead 32,
        BusEvent.busWrite payload (countingChip.busWrite usDevice.writes)] ∧
      s'.registers_ SYSCONFIG2 = 0x161F ∧
      payload[6]? = some (s'.registers_ SYSCONFIG2 / 256) ∧
      payload[7]? = some (s'.registers_ SYSCONFIG2 % 256) := by
  refine ⟨rfl, ?_⟩
  obtain ⟨s', payload, h1, h2, h3, _, h4, h5, _⟩ :=
    setVolume_writes_clamped countingChip 99 usDevice rfl
  exact ⟨s', payload, h1, h2, h3, h4, h5⟩

/-! ## `readRDS` -/

@[simp] theorem millis_reads (chip : Chip) (s : Si4703_Breakout) :
    (millis chip s).2.reads = s.reads := rfl

@[simp] theorem millis_registers (chip : Chip) (s : Si4703_Breakout) :
    (millis chip s).2.registers_ = s.registers_ := rfl

@[simp] theorem millis_trace (chip : Chip) (s : Si4703_Breakout) :
    (millis chip s).2.trace = s.trace := rfl

@[simp] theorem millis_clock (chip : Chip) (s : Si4703_Breakout) :
    (millis chip s).2.clock = (millis chip s).1 := rfl

theorem millis_ge (chip : Chip) (s : Si4703_Breakout) : s.clock ≤ (millis chip s).1 := by
  simp [millis]

@[simp] theorem delay_clock (ms : Nat) (s : Si4703_Breakout) : (delay ms s).clock = s.clock := rfl

theorem high_byte_eq (r : Nat) (hr : r < 65536) : (r &&& 0xFF00) >>> 8 = r / 256 := by
  have e : r / 256 = r >>> 8 := by rw [Nat.shiftRight_eq_div_pow]
  rw [e]
  apply Nat.eq_of_testBit_eq
  intro j
  simp only [Nat.testBit_shiftRight, Nat.testBit_and]
  by_cases hj : j < 8
  · have : Nat.testBit 0xFF00 (8 + j) = true := by
      interval_cases j <;> rfl
    rw [this, Bool.and_true]
  · have : Nat.testBit r (8 + j) = false := by
      apply Nat.testBit_lt_two_pow
      calc r < 2 ^ 16 := by norm_num; exact hr
        _ ≤ 2 ^ (8 + j) := Nat.pow_le_pow_right (by decide) (by omega)
    rw [this, Bool.false_and]

theorem low_byte_eq (r : Nat) : r &&& 0x00FF = r % 256 :=
  Nat.and_pow_two_sub_one_eq_mod r 8

theorem slot_index_lt (b : Nat) : b &&& 0x03 < 4 :=
  Nat.and_lt_two_pow b (by norm_num : 3 < 2 ^ 2)

theorem slotsFilled_update (completed : Nat → Bool) (idx : Nat) (hidx : idx < 4)
    (hc : completed idx = false) :
    slotsFilled (Function.update completed idx true) = slotsFilled completed + 1 := by
  unfold slotsFilled
  interval_cases idx <;> simp [Function.update_apply, hc] <;> omega

theorem slotsFilled_eq_four (completed : Nat → Bool) (h : slotsFilled completed = 4) :
    ∀ i, i < 4 → completed i = true := by
  intro i hi
  unfold slotsFilled at h
  have h0 : (if completed 0 = true then 1 else 0) ≤ 1 := by split_ifs <;> omega
  have h1 : (if completed 1 = true then 1 else 0) ≤ 1 := by split_ifs <;> omega
  have h2 : (if completed 2 = true then 1 else 0) ≤ 1 := by split_ifs <;> omega
  have h3 : (if completed 3 = true then 1 else 0) ≤ 1 := by split_ifs <;> omega
  interval_cases i
  · by_contra hc
    rw [if_neg hc] at h
    omega
  · by_contra hc
    rw [if_neg hc] at h
    omega
  · by_contra hc
    rw [if_neg hc] at h
    omega
  · by_contra hc
    rw [if_neg hc] at h
    omega

theorem readRDSBody_eq (chip : Chip) (completed : Nat → Bool) (completedCount : Nat)
    (buffer : Nat → Nat) (s : Si4703_Breakout) :
    readRDSBody chip completed completedCount buffer s
      = some (
          if (afterRead chip s).registers_ STATUSRSSI &&& RDSR ≠ 0 then
            if (!completed ((afterRead chip s).registers_ RDSB &&& 0x03)
                && decide ((afterRead chip s).registers_ RDSB < 500)) = true then
              (Function.update completed ((afterRead chip s).registers_ RDSB &&& 0x03) true,
               completedCount + 1,
               Function.update
                 (Function.update buffer (((afterRead chip s).registers_ RDSB &&& 0x03) * 2)
                   (((afterRead chip s).registers_ RDSD &&& 0xFF00) >>> 8))
                 (((afterRead chip s).registers_ RDSB &&& 0x03) * 2 + 1)
                 ((afterRead chip s).registers_ RDSD &&& 0x00FF),
               delay 40 (afterRead chip s))
            else (completed, completedCount, buffer, delay 40 (afterRead chip s))
          else (completed, completedCount, buffer, delay 30 (afterRead chip s))) := by
  unfold readRDSBody
  rw [readRegisters_eq]
  simp only
  split_ifs <;> rfl

theorem readRDSBody_count (chip : Chip) (c c' : Nat → Bool) (n n' : Nat)
    (b b' : Nat → Nat) (s s' : Si4703_Breakout) (hn : n = slotsFilled c)
    (h : readRDSBody chip c n b s = some (c', n', b', s')) :
    n' = slotsFilled c' ∧ s'.reads = s.reads + 1 ∧ s'.clock = s.clock := by
  rw [readRDSBody_eq] at h
  split_ifs at h with h1 h2
  · cases h
    simp only [Bool.and_eq_true, Bool.not_eq_true', decide_eq_true_eq] at h2
    refine ⟨?_, rfl, rfl⟩
    rw [slotsFilled_update _ _ (slot_index_lt _) h2.1, hn]
  · cases h; exact ⟨hn, rfl, rfl⟩
  · cases h; exact ⟨hn, rfl, rfl⟩

theorem readRDSLoop_exit (chip : Chip) (endTime : Int) (fuel : Nat) :
    ∀ (c c' : Nat → Bool) (n n' : Nat) (b b' : Nat → Nat) (s s' : Si4703_Breakout),
      n = slotsFilled c →
      readRDSLoop chip endTime fuel c n b s = some (c', n', b', s') →
      n' = slotsFilled c' ∧ (n' < 4 → endTime ≤ (s'.clock : Int)) ∧ s.reads ≤ s'.reads := by
  induction fuel with
  | zero => intro c c' n n' b b' s s' _ h; simp [readRDSLoop] at h
  | succ m ih =>
    intro c c' n n' b b' s s' hn h
    rw [readRDSLoop] at h
    by_cases h4 : n < 4
    · rw [if_pos h4] at h
      by_cases ht : ((millis chip s).1 : Int) < endTime
      · rw [if_pos ht] at h
        cases hb : readRDSBody chip c n b (millis chip s).2 with
        | none => rw [hb] at h; simp at h
        | some r =>
          obtain ⟨c1, n1, b1, s1⟩ := r
          rw [hb] at h
          simp only at h
          obtain ⟨e1, e2, _⟩ := readRDSBody_count chip c c1 n n1 b b1 _ s1 hn hb
          obtain ⟨r1, r2, r3⟩ := ih c1 c' n1 n' b1 b' s1 s' e1 h
          refine ⟨r1, r2, ?_⟩
          simp at e2
          omega
      · rw [if_neg ht] at h
        cases h
        refine ⟨hn, fun _ => ?_, le_refl _⟩
        simp only [millis_clock]
        omega
    · rw [if_neg h4] at h
      cases h
      exact ⟨hn, fun h' => absurd h' h4, le_refl _⟩

theorem firstArrival_start (chip : Chip) (n0 : Nat) (buffer : Nat → Nat) :
    FirstArrival chip n0 n0 (fun _ => false) buffer := by
  intro i _
  refine ⟨fun h => by simp at h, fun _ j h1 h2 => ?_⟩
  omega

theorem readRDSBody_firstArrival (chip : Chip) (n0 : Nat) (c c' : Nat → Bool) (n n' : Nat)
    (b b' : Nat → Nat) (s s' : Si4703_Breakout)
    (hok : (chip.busRead s.reads).count = 32) (hn0 : n0 ≤ s.reads)
    (hinv : FirstArrival chip n0 s.reads c b)
    (h : readRDSBody chip c n b s = some (c', n', b', s')) :
    FirstArrival chip n0 (s.reads + 1) c' b' := by
  rw [readRDSBody_eq, afterRead_registers_ok chip s hok] at h
  have hstale : ∀ i, i < 4 → c i = true →
      ∃ k, n0 ≤ k ∧ k < s.reads + 1 ∧ offersSlot (regOfWire (chip.busRead k).data) i ∧
        (∀ j, n0 ≤ j → j < k → ¬ offersSlot (regOfWire (chip.busRead j).data) i) ∧
        b (2 * i) = regOfWire (chip.busRead k).data RDSD / 256 ∧
        b (2 * i + 1) = regOfWire (chip.busRead k).data RDSD % 256 := by
    intro i hi hc
    obtain ⟨k, k1, k2, k3, k4, k5, k6⟩ := (hinv i hi).1 hc
    exact ⟨k, k1, by omega, k3, k4, k5, k6⟩
  split_ifs at h with h1 h2
  · -- the pair is accepted
    cases h
    simp only [Bool.and_eq_true, Bool.not_eq_true', decide_eq_true_eq] at h2
    obtain ⟨hfree, hlt⟩ := h2
    intro i hi
    by_cases hidx : i = regOfWire (chip.busRead s.reads).data RDSB &&& 0x03
    · refine ⟨fun _ => ⟨s.reads, hn0, by omega, ⟨h1, hidx.symm, hlt⟩, ?_, ?_, ?_⟩, ?_⟩
      · intro j hj1 hj2
        exact (hinv i hi).2 (by rw [hidx]; exact hfree) j hj1 hj2
      · rw [Function.update_apply, if_neg (by omega), Function.update_apply, if_pos (by omega)]
        exact high_byte_eq _ (regOfWire_lt _ _)
      · rw [Function.update_apply, if_pos (by omega)]
        exact low_byte_eq _
      · intro hc
        rw [hidx, Function.update_same] at hc
        exact absurd hc (by decide)
    · refine ⟨fun hc => ?_, fun hc j hj1 hj2 => ?_⟩
      · rw [Function.update_noteq hidx] at hc
        obtain ⟨k, k1, k2, k3, k4, k5, k6⟩ := hstale i hi hc
        refine ⟨k, k1, k2, k3, k4, ?_, ?_⟩
        · rw [Function.update_apply, if_neg (by omega), Function.update_apply,
            if_neg (by omega)]
          exact k5
        · rw [Function.update_apply, if_neg (by omega), Function.update_apply,
            if_neg (by omega)]
          exact k6
      · rw [Function.update_noteq hidx] at hc
        by_cases hj : j < s.reads
        · exact (hinv i hi).2 hc j hj1 hj
        · have : j = s.reads := by omega
          subst this
          intro hoff
          exact hidx hoff.2.1.symm
  · -- RDS-ready, but the slot is filled or RDSB is 500 or more
    cases h
    simp only [Bool.and_eq_true, Bool.not_eq_true', decide_eq_true_eq, not_and] at h2
    intro i hi
    refine ⟨hstale i hi, fun hc j hj1 hj2 => ?_⟩
    by_cases hj : j < s.reads
    · exact (hinv i hi).2 hc j hj1 hj
    · have : j = s.reads := by omega
      subst this
      intro hoff
      exact h2 (by rw [hoff.2.1]; exact hc) hoff.2.2
  · -- RDS-ready is clear
    cases h
    intro i hi
    refine ⟨hstale i hi, fun hc j hj1 hj2 => ?_⟩
    by_cases hj : j < s.reads
    · exact (hinv i hi).2 hc j hj1 hj
    · have : j = s.reads := by omega
      subst this
      intro hoff
      exact h1 hoff.1

theorem readRDSLoop_firstArrival (chip : Chip) (endTime : Int) (n0 : Nat)
    (hok : ∀ k, n0 ≤ k → (chip.busRead k).count = 32) (fuel : Nat) :
    ∀ (c c' : Nat → Bool) (n n' : Nat) (b b' : Nat → Nat) (s s' : Si4703_Breakout),
      n0 ≤ s.reads → n = slotsFilled c → FirstArrival chip n0 s.reads c b →
      readRDSLoop chip endTime fuel c n b s = some (c', n', b', s') →
      FirstArrival chip n0 s'.reads c' b' := by
  induction fuel with
  | zero => intro c c' n n' b b' s s' _ _ _ h; simp [readRDSLoop] at h
  | succ m ih =>
    intro c c' n n' b b' s s' hn0 hn hinv h
    rw [readRDSLoop] at h
    by_cases h4 : n < 4
    · rw [if_pos h4] at h
      by_cases ht : ((millis chip s).1 : Int) < endTime
      · rw [if_pos ht] at h
        cases hb : readRDSBody chip c n b (millis chip s).2 with
        | none => rw [hb] at h; simp at h
        | some r =>
          obtain ⟨c1, n1, b1, s1⟩ := r
          rw [hb] at h
          simp only at h
          obtain ⟨e1, e2, _⟩ := readRDSBody_count chip c c1 n n1 b b1 _ s1 hn hb
          have hinv1 := readRDSBody_firstArrival chip n0 c c1 n n1 b b1 (millis chip s).2 s1
            (hok _ hn0) hn0 hinv hb
          simp only [millis_reads] at e2 hinv1
          rw [← e2] at hinv1
          exact ih c1 c' n1 n' b1 b' s1 s' (by omega) e1 hinv1 h
      · rw [if_neg ht] at h
        cases h
        exact hinv
    · rw [if_neg h4] at h
      cases h
      exact hinv

theorem slotsFilled_le (completed : Nat → Bool) : slotsFilled completed ≤ 4 := by
  unfold slotsFilled
  split_ifs <;> omega

theorem readRDS_of_loop (chip : Chip) (fuel : Nat) (buffer : Nat → Nat) (timeout : Int)
    (s : Si4703_Breakout) (c : Nat → Bool) (n : Nat) (b : Nat → Nat) (s1 : Si4703_Breakout)
    (hloop : readRDSLoop chip (((millis chip s).1 : Int) + timeout) fuel (fun _ => false) 0
      buffer (millis chip s).2 = some (c, n, b, s1)) :
    readRDS chip fuel buffer timeout s
      = if ((millis chip s1).1 : Int) ≥ ((millis chip s).1 : Int) + timeout then
          some (Function.update b 0 0, (millis chip s1).2)
        else
          some (Function.update b 8 0, (millis chip s1).2) := by
  unfold readRDS
  simp only [hloop]

theorem readRDS_inv (chip : Chip) (fuel : Nat) (buffer : Nat → Nat) (timeout : Int)
    (s : Si4703_Breakout) (out : Nat → Nat) (s' : Si4703_Breakout)
    (hrun : readRDS chip fuel buffer timeout s = some (out, s')) :
    ∃ c n b s1,
      readRDSLoop chip (((millis chip s).1 : Int) + timeout) fuel (fun _ => false) 0
        buffer (millis chip s).2 = some (c, n, b, s1) := by
  cases hl : readRDSLoop chip (((millis chip s).1 : Int) + timeout) fuel (fun _ => false) 0
      buffer (millis chip s).2 with
  | none =>
    unfold readRDS at hrun
    simp only [hl] at hrun
    cases hrun
  | some r =>
    obtain ⟨c, n, b, s1⟩ := r
    exact ⟨c, n, b, s1, rfl⟩

/-- C7: when every poll delivers a register image (all 32 bytes) and
`readRDS` returns a non-empty result, then the result is 8 characters (bytes
0..7 of the buffer) followed by the terminator at index 8, and for each slot i
in 0..3 the output bytes 2i and 2i+1
are the high and the low byte of RDSD of the first poll of the call that had
RDS-ready set, RDSB AND 3 = i and RDSB < 500.  Hence later polls for a filled
slot, polls with RDSB >= 500 and the order of arrival have no influence on the
output. -/
theorem readRDS_first_arrival (chip : Chip) (fuel : Nat) (buffer : Nat → Nat)
    (timeout : Int) (s : Si4703_Breakout) (out : Nat → Nat) (s' : Si4703_Breakout)
    (hok : ∀ k, s.reads ≤ k → (chip.busRead k).count = 32)
    (hrun : readRDS chip fuel buffer timeout s = some (out, s'))
    (hne : out 0 ≠ 0) :
    out 8 = 0 ∧
    ∀ i, i < 4 →
      ∃ k, s.reads ≤ k ∧ k < s'.reads ∧
        (regOfWire (chip.busRead k).data STATUSRSSI &&& RDSR ≠ 0 ∧
          regOfWire (chip.busRead k).data RDSB &&& 0x03 = i ∧
          regOfWire (chip.busRead k).data RDSB < 500) ∧
        (∀ j, s.reads ≤ j → j < k →
          ¬ (regOfWire (chip.busRead j).data STATUSRSSI &&& RDSR ≠ 0 ∧
            regOfWire (chip.busRead j).data RDSB &&& 0x03 = i ∧
            regOfWire (chip.busRead j).data RDSB < 500)) ∧
        out (2 * i) = regOfWire (chip.busRead k).data RDSD / 256 ∧
        out (2 * i + 1) = regOfWire (chip.busRead k).data RDSD % 256 := by
  obtain ⟨c, n, b, s1, hloop⟩ := readRDS_inv chip fuel buffer timeout s out s' hrun
  rw [readRDS_of_loop chip fuel buffer timeout s c n b s1 hloop] at hrun
  obtain ⟨hcount, hexit, _⟩ :=
    readRDSLoop_exit chip _ fuel _ c 0 n buffer b _ s1 (by simp [slotsFilled]) hloop
  have hinv := readRDSLoop_firstArrival chip _ s.reads hok fuel _ c 0 n buffer b
    (millis chip s).2 s1 (by simp) (by simp [slotsFilled]) (firstArrival_start chip s.reads buffer) hloop
  split_ifs at hrun with hlate
  · cases hrun
    exact absurd (Function.update_same 0 0 b) hne
  · cases hrun
    have hclk := millis_ge chip s1
    have hn4 : n = 4 := by
      have := slotsFilled_le c
      by_contra hcon
      have := hexit (by omega)
      omega
    have hall := slotsFilled_eq_four c (by rw [← hcount, hn4])
    refine ⟨Function.update_same 8 0 b, fun i hi => ?_⟩
    obtain ⟨k, k1, k2, k3, k4, k5, k6⟩ := (hinv i hi).1 (hall i hi)
    refine ⟨k, k1, k2, k3, k4, ?_, ?_⟩
    · rw [Function.update_apply, if_neg (by omega)]; exact k5
    · rw [Function.update_apply, if_neg (by omega)]; exact k6

/-- Witness for C7: the chip that delivers slot 2, nothing, slot 0, a
duplicate of slot 2, a group with RDSB = 501, slot 3 and slot 1. -/
theorem readRDS_first_arrival_witness :
    (∀ k, usDevice.reads ≤ k → (shuffledChip.busRead k).count = 32) ∧
    ∃ out s', readRDS shuffledChip 10 (fun _ => 0x20) 1000 usDevice = some (out, s') ∧
      out 0 ≠ 0 ∧ out 8 = 0 ∧
      ∀ i, i < 4 →
        ∃ k, usDevice.reads ≤ k ∧ k < s'.reads ∧
          (regOfWire (shuffledChip.busRead k).data STATUSRSSI &&& RDSR ≠ 0 ∧
            regOfWire (shuffledChip.busRead k).data RDSB &&& 0x03 = i ∧
            regOfWire (shuffledChip.busRead k).data RDSB < 500) ∧
          (∀ j, usDevice.reads ≤ j → j < k →
            ¬ (regOfWire (shuffledChip.busRead j).data STATUSRSSI &&& RDSR ≠ 0 ∧
              regOfWire (shuffledChip.busRead j).data RDSB &&& 0x03 = i ∧
              regOfWire (shuffledChip.busRead j).data RDSB < 500)) ∧
          out (2 * i) = regOfWire (shuffledChip.busRead k).data RDSD / 256 ∧
          out (2 * i + 1) = regOfWire (shuffledChip.busRead k).data RDSD % 256 := by
  have hok : ∀ k, usDevice.reads ≤ k → (shuffledChip.busRead k).count = 32 :=
    fun _ _ => rfl
  have hsome : (readRDS shuffledChip 10 (fun _ => 0x20) 1000 usDevice).isSome = true := by
    decide
  have hrun : readRDS shuffledChip 10 (fun _ => 0x20) 1000 usDevice
      = some (((readRDS shuffledChip 10 (fun _ => 0x20) 1000 usDevice).get hsome).1,
          ((readRDS shuffledChip 10 (fun _ => 0x20) 1000 usDevice).get hsome).2) := by
    simp
  have hne : ∀ h, ((readRDS shuffledChip 10 (fun _ => 0x20) 1000 usDevice).get h).1 0 ≠ 0 := by
    decide
  exact ⟨hok, _, _, hrun, hne hsome,
    readRDS_first_arrival shuffledChip 10 (fun _ => 0x20) 1000 usDevice _ _ hok hrun
      (hne hsome)⟩

/-- C8: the clock of the embedding never runs backwards.  If the polling loop
of `readRDS` is left with fewer than 4 slots accepted (`completedCount < 4`,
which is the number of slots marked in `completed`), then `readRDS` returns
"no data": the first output byte is the terminator, so the result is the empty
string and never a fragment of 2, 4 or 6 characters. -/
theorem readRDS_partial_is_no_data (chip : Chip) (fuel : Nat) (buffer : Nat → Nat)
    (timeout : Int) (s : Si4703_Breakout) (completed : Nat → Bool) (completedCount : Nat)
    (b : Nat → Nat) (s1 : Si4703_Breakout)
    (hloop : readRDSLoop chip (((millis chip s).1 : Int) + timeout) fuel (fun _ => false) 0
      buffer (millis chip s).2 = some (completed, completedCount, b, s1))
    (hfew : completedCount < 4) :
    completedCount = slotsFilled completed ∧
    ∃ out s', readRDS chip fuel buffer timeout s = some (out, s') ∧ out 0 = 0 := by
  obtain ⟨hcount, hexit, _⟩ :=
    readRDSLoop_exit chip _ fuel _ completed 0 completedCount buffer b _ s1
      (by simp [slotsFilled]) hloop
  have hclk := millis_ge chip s1
  have hlate := hexit hfew
  refine ⟨hcount, Function.update b 0 0, (millis chip s1).2, ?_, Function.update_same 0 0 b⟩
  rw [readRDS_of_loop chip fuel buffer timeout s completed completedCount b s1 hloop, if_pos]
  omega

/-- Witness for C8: with a timeout of 100 ms the four-pair chip gets only
three polls in (at 0, 40 and 80 ms), so three slots are accepted. -/
theorem readRDS_partial_is_no_data_witness :
    ∃ completed completedCount b s1,
      readRDSLoop fourPairChip (((millis fourPairChip usDevice).1 : Int) + 100) 10
        (fun _ => false) 0 (fun _ => 0x20) (millis fourPairChip usDevice).2
        = some (completed, completedCount, b, s1) ∧
      completedCount < 4 ∧ completedCount = slotsFilled completed ∧
      ∃ out s', readRDS fourPairChip 10 (fun _ => 0x20) 100 usDevice = some (out, s') ∧
        out 0 = 0 := by
  have hsome : (readRDSLoop fourPairChip (((millis fourPairChip usDevice).1 : Int) + 100) 10
      (fun _ => false) 0 (fun _ => 0x20) (millis fourPairChip usDevice).2).isSome = true := by
    decide
  have hloop : readRDSLoop fourPairChip (((millis fourPairChip usDevice).1 : Int) + 100) 10
      (fun _ => false) 0 (fun _ => 0x20) (millis fourPairChip usDevice).2
      = some (((readRDSLoop fourPairChip (((millis fourPairChip usDevice).1 : Int) + 100) 10
          (fun _ => false) 0 (fun _ => 0x20) (millis fourPairChip usDevice).2).get hsome).1,
        ((readRDSLoop fourPairChip (((millis fourPairChip usDevice).1 : Int) + 100) 10
          (fun _ => false) 0 (fun _ => 0x20) (millis fourPairChip usDevice).2).get hsome).2.1,
        ((readRDSLoop fourPairChip (((millis fourPairChip usDevice).1 : Int) + 100) 10
          (fun _ => false) 0 (fun _ => 0x20) (millis fourPairChip usDevice).2).get hsome).2.2.1,
        ((readRDSLoop fourPairChip (((millis fourPairChip usDevice).1 : Int) + 100) 10
          (fun _ => false) 0 (fun _ => 0x20) (millis fourPairChip usDevice).2).get hsome).2.2.2) := by
    simp
  have hfew : ∀ h, ((readRDSLoop fourPairChip (((millis fourPairChip usDevice).1 : Int) + 100) 10
      (fun _ => false) 0 (fun _ => 0x20) (millis fourPairChip usDevice).2).get h).2.1 < 4 := by
    decide
  exact ⟨_, _, _, _, hloop, hfew hsome,
    readRDS_partial_is_no_data fourPairChip 10 (fun _ => 0x20) 100 usDevice _ _ _ _ hloop
      (hfew hsome)⟩

/-- C9 fails on the code: with a timeout of 130 ms and a clock that advances
exactly by the requested delays, the four-pair chip fills all 4 slots in the
polls at 0, 40, 80 and 120 ms, the loop is left with `completedCount = 4` and
the buffer holds "ABCDEFGH"; the `delay(40)` after the fourth pair moves the
clock to 160 ms, the test `millis() >= endTime` after the loop succeeds, and
`readRDS` returns the empty "no data" result. -/
theorem readRDS_complete_yet_no_data :
    ∃ completed b s1,
      readRDSLoop fourPairChip (((millis fourPairChip usDevice).1 : Int) + 130) 10
        (fun _ => false) 0 (fun _ => 0x20) (millis fourPairChip usDevice).2
        = some (completed, 4, b, s1) ∧
      (∀ i, i < 4 → completed i = true) ∧
      (List.range 8).map b = [0x41, 0x42, 0x43, 0x44, 0x45, 0x46, 0x47, 0x48] ∧
      s1.clock + fourPairChip.elapsed s1.clockReads s1.pending = 160 ∧
      ∃ out s', readRDS fourPairChip 10 (fun _ => 0x20) 130 usDevice = some (out, s') ∧
        out 0 = 0 := by
  have hsome : (readRDSLoop fourPairChip (((millis fourPairChip usDevice).1 : Int) + 130) 10
      (fun _ => false) 0 (fun _ => 0x20) (millis fourPairChip usDevice).2).isSome = true := by
    decide
  have hfour : ∀ h, ((readRDSLoop fourPairChip (((millis fourPairChip usDevice).1 : Int) + 130)
      10 (fun _ => false) 0 (fun _ => 0x20) (millis fourPairChip usDevice).2).get h).2.1 = 4 := by
    decide
  have hloop : readRDSLoop fourPairChip (((millis fourPairChip usDevice).1 : Int) + 130) 10
      (fun _ => false) 0 (fun _ => 0x20) (millis fourPairChip usDevice).2
      = some (((readRDSLoop fourPairChip (((millis fourPairChip usDevice).1 : Int) + 130) 10
          (fun _ => false) 0 (fun _ => 0x20) (millis fourPairChip usDevice).2).get hsome).1,
        4,
        ((readRDSLoop fourPairChip (((millis fourPairChip usDevice).1 : Int) + 130) 10
          (fun _ => false) 0 (fun _ => 0x20) (millis fourPairChip usDevice).2).get hsome).2.2.1,
        ((readRDSLoop fourPairChip (((millis fourPairChip usDevice).1 : Int) + 130) 10
          (fun _ => false) 0 (fun _ => 0x20) (millis fourPairChip usDevice).2).get hsome).2.2.2) := by
    rw [← hfour hsome]
    simp
  have hall : ∀ h, ∀ i, i < 4 →
      ((readRDSLoop fourPairChip (((millis fourPairChip usDevice).1 : Int) + 130) 10
        (fun _ => false) 0 (fun _ => 0x20) (millis fourPairChip usDevice).2).get h).1 i = true := by
    decide
  have hbuf : ∀ h, (List.range 8).map
      ((readRDSLoop fourPairChip (((millis fourPairChip usDevice).1 : Int) + 130) 10
        (fun _ => false) 0 (fun _ => 0x20) (millis fourPairChip usDevice).2).get h).2.2.1
      = [0x41, 0x42, 0x43, 0x44, 0x45, 0x46, 0x47, 0x48] := by
    decide
  have hclock : ∀ h,
      ((readRDSLoop fourPairChip (((millis fourPairChip usDevice).1 : Int) + 130) 10
        (fun _ => false) 0 (fun _ => 0x20) (millis fourPairChip usDevice).2).get h).2.2.2.clock
      + fourPairChip.elapsed
        ((readRDSLoop fourPairChip (((millis fourPairChip usDevice).1 : Int) + 130) 10
          (fun _ => false) 0 (fun _ => 0x20) (millis fourPairChip usDevice).2).get h).2.2.2.clockReads
        ((readRDSLoop fourPairChip (((millis fourPairChip usDevice).1 : Int) + 130) 10
          (fun _ => false) 0 (fun _ => 0x20) (millis fourPairChip usDevice).2).get h).2.2.2.pending
      = 160 := by
    decide
  have hout : ∀ h, ((readRDS fourPairChip 10 (fun _ => 0x20) 130 usDevice).get h).1 0 = 0 := by
    decide
  have hsome2 : (readRDS fourPairChip 10 (fun _ => 0x20) 130 usDevice).isSome = true := by
    decide
  exact ⟨_, _, _, hloop, hall hsome, hbuf hsome, hclock hsome, _, _,
    (Option.some_get hsome2).symm, hout hsome2⟩

/-! ## `seek` -/

@[simp] theorem afterRead_region (chip : Chip) (s : Si4703_Breakout) :
    (afterRead chip s).region_ = s.region_ := rfl

theorem waitSTCSet_run (chip : Chip) (a : Nat) (fuel : Nat) :
    ∀ s : Si4703_Breakout, s.reads ≤ a →
      (∀ k, s.reads ≤ k → k ≤ a → (chip.busRead k).count = 32) →
      (∀ j, s.reads ≤ j → j < a → regOfWire (chip.busRead j).data STATUSRSSI &&& STC = 0) →
      regOfWire (chip.busRead a).data STATUSRSSI &&& STC ≠ 0 →
      a - s.reads < fuel →
      ∃ s', waitSTCSet chip fuel s = some s' ∧ s'.reads = a + 1 ∧
        s'.band_ = s.band_ ∧ s'.channel_spacing_ = s.channel_spacing_ := by
  induction fuel with
  | zero => intro s _ _ _ _ hf; omega
  | succ m ih =>
    intro s hle hok hclr hset hf
    rw [waitSTCSet, readRegisters_eq]
    simp only
    rw [afterRead_registers_ok chip s (hok _ (le_refl _) hle)]
    by_cases hlast : s.reads = a
    · rw [if_pos (by rw [hlast]; exact hset)]
      exact ⟨_, rfl, by simp [hlast], rfl, rfl⟩
    · rw [if_neg (by rw [not_not]; exact hclr _ (le_refl _) (by omega))]
      obtain ⟨s', e1, e2, e3, e4⟩ := ih (afterRead chip s) (by simp; omega)
        (fun k hk1 hk2 => hok k (by simp at hk1; omega) hk2)
        (fun j hj1 hj2 => hclr j (by simp at hj1; omega) hj2) hset (by simp; omega)
      exact ⟨s', e1, e2, e3, e4⟩

theorem waitSTCClear_run (chip : Chip) (b : Nat) (fuel : Nat) :
    ∀ s : Si4703_Breakout, s.reads ≤ b →
      (∀ k, s.reads ≤ k → k ≤ b → (chip.busRead k).count = 32) →
      (∀ j, s.reads ≤ j → j < b → regOfWire (chip.busRead j).data STATUSRSSI &&& STC ≠ 0) →
      regOfWire (chip.busRead b).data STATUSRSSI &&& STC = 0 →
      b - s.reads < fuel →
      ∃ s', waitSTCClear chip fuel s = some s' ∧ s'.reads = b + 1 ∧
        s'.band_ = s.band_ ∧ s'.channel_spacing_ = s.channel_spacing_ := by
  induction fuel with
  | zero => intro s _ _ _ _ hf; omega
  | succ m ih =>
    intro s hle hok hset hclr hf
    rw [waitSTCClear, readRegisters_eq]
    simp only
    rw [afterRead_registers_ok chip s (hok _ (le_refl _) hle)]
    by_cases hlast : s.reads = b
    · rw [if_pos (by rw [hlast]; exact hclr)]
      exact ⟨_, rfl, by simp [hlast], rfl, rfl⟩
    · rw [if_neg (hset _ (le_refl _) (by omega))]
      obtain ⟨s', e1, e2, e3, e4⟩ := ih (afterRead chip s) (by simp; omega)
        (fun k hk1 hk2 => hok k (by simp at hk1; omega) hk2)
        (fun j hj1 hj2 => hset j (by simp at hj1; omega) hj2) hclr (by simp; omega)
      exact ⟨s', e1, e2, e3, e4⟩

theorem channelToFrequency_congr (s s' : Si4703_Breakout) (channel : Nat)
    (h1 : s'.band_ = s.band_) (h2 : s'.channel_spacing_ = s.channel_spacing_) :
    channelToFrequency s' channel = channelToFrequency s channel := by
  unfold channelToFrequency minFrequency channelSpacing
  rw [h1, h2]

theorem getFrequency_eq (chip : Chip) (s : Si4703_Breakout) :
    getFrequency chip s
      = (channelToFrequency s ((afterRead chip s).registers_ READCHAN &&& 0x03FF)).bind
          (fun f => some (f, afterRead chip s)) := by
  unfold getFrequency
  simp only [readRegisters_eq, Option.bind_eq_bind, Option.some_bind]
  rw [channelToFrequency_congr s (afterRead chip s) _ rfl rfl]

@[simp] theorem seekStart_reads (direction : SeekDirection) (s : Si4703_Breakout) :
    (seekStart direction s).reads = s.reads := by
  cases direction <;> rfl

@[simp] theorem seekStart_writes (direction : SeekDirection) (s : Si4703_Breakout) :
    (seekStart direction s).writes = s.writes := by
  cases direction <;> rfl

@[simp] theorem seekStart_trace (direction : SeekDirection) (s : Si4703_Breakout) :
    (seekStart direction s).trace = s.trace := by
  cases direction <;> rfl

@[simp] theorem seekStart_band (direction : SeekDirection) (s : Si4703_Breakout) :
    (seekStart direction s).band_ = s.band_ := by
  cases direction <;> rfl

@[simp] theorem seekStart_spacing (direction : SeekDirection) (s : Si4703_Breakout) :
    (seekStart direction s).channel_spacing_ = s.channel_spacing_ := by
  cases direction <;> rfl

theorem seek_eq (chip : Chip) (fuel : Nat) (direction : SeekDirection) (s : Si4703_Breakout) :
    seek chip fuel direction s
      = (waitSTCSet chip fuel (afterWrite chip (seekStart direction (afterRead chip s)))).bind
        (fun s2 =>
          (waitSTCClear chip fuel
            (afterWrite chip
              (setRegister (afterRead chip s2) POWERCFG
                (clearBits ((afterRead chip s2).registers_ POWERCFG) SEEK)))).bind
          (fun s3 =>
            if (afterRead chip s2).registers_ STATUSRSSI &&& SFBL ≠ 0 then
              some ((FAIL : ℚ), s3)
            else getFrequency chip s3)) := by
  unfold seek
  simp only [readRegisters_eq, updateRegisters_eq_afterWrite, Option.bind_eq_bind,
    Option.some_bind]

theorem seek_run (chip : Chip) (fuel : Nat) (direction : SeekDirection) (s : Si4703_Breakout)
    (a b : Nat) (ha : s.reads < a) (hb : a + 1 < b)
    (hok : ∀ k, s.reads ≤ k → k ≤ b + 1 → (chip.busRead k).count = 32)
    (h1 : ∀ j, s.reads < j → j < a → regOfWire (chip.busRead j).data STATUSRSSI &&& STC = 0)
    (h2 : regOfWire (chip.busRead a).data STATUSRSSI &&& STC ≠ 0)
    (h3 : ∀ j, a + 1 < j → j < b → regOfWire (chip.busRead j).data STATUSRSSI &&& STC ≠ 0)
    (h4 : regOfWire (chip.busRead b).data STATUSRSSI &&& STC = 0)
    (hfuel : b - s.reads ≤ fuel) :
    ∃ s3, s3.reads = b + 1 ∧ s3.band_ = s.band_ ∧ s3.channel_spacing_ = s.channel_spacing_ ∧
      seek chip fuel direction s
        = if regOfWire (chip.busRead (a + 1)).data STATUSRSSI &&& SFBL ≠ 0 then
            some ((FAIL : ℚ), s3)
          else getFrequency chip s3 := by
  rw [seek_eq]
  obtain ⟨s2, e1, e2, e3, e4⟩ := waitSTCSet_run chip a fuel
    (afterWrite chip (seekStart direction (afterRead chip s)))
    (by simp; omega)
    (fun k hk1 hk2 => hok k (by simp at hk1; omega) (by omega))
    (fun j hj1 hj2 => h1 j (by simp at hj1; omega) hj2) h2
    (by simp; omega)
  rw [e1, Option.some_bind]
  obtain ⟨s3, f1, f2, f3, f4⟩ := waitSTCClear_run chip b fuel
    (afterWrite chip (setRegister (afterRead chip s2) POWERCFG
      (clearBits ((afterRead chip s2).registers_ POWERCFG) SEEK)))
    (by simp; omega)
    (fun k hk1 hk2 => hok k (by simp at hk1; omega) (by omega))
    (fun j hj1 hj2 => h3 j (by simp at hj1; omega) hj2) h4
    (by simp; omega)
  rw [f1, Option.some_bind]
  have hre : (afterRead chip s2).registers_ = regOfWire (chip.busRead (a + 1)).data := by
    rw [afterRead_registers_ok chip s2 (by rw [e2]; exact hok _ (by omega) (by omega)), e2]
  rw [hre]
  refine ⟨s3, f2, ?_, ?_, rfl⟩
  · rw [f3]; simp only [afterWrite_band, setRegister_band, afterRead_band]; rw [e3]
    simp
  · rw [f4]; simp only [afterWrite_spacing, setRegister_spacing, afterRead_spacing]; rw [e4]
    simp

/-- C10: let the reads after the first one show STC clear until read `a`, in
which STC first appears, and let the polls after the second control write show
STC set until read `b`, which shows it clear (all reads delivering 32 bytes,
fuel sufficient).  If SFBL is set in every read from `a` to `b`, then `seekUp`
and `seekDown` both return FAIL and make no further register read: read `b`,
the end of the settling poll, is the last one.  If SFBL is clear in every read
from `a` to `b`, they return channelToFrequency (READCHAN AND 0x03FF) with
READCHAN taken from exactly one further read, number `b + 1`. -/
theorem seek_outcome_by_sfbl (chip : Chip) (fuel : Nat) (s : Si4703_Breakout) (a b : Nat)
    (ha : s.reads < a) (hb : a + 1 < b)
    (hok : ∀ k, s.reads ≤ k → k ≤ b + 1 → (chip.busRead k).count = 32)
    (h1 : ∀ j, s.reads < j → j < a → regOfWire (chip.busRead j).data STATUSRSSI &&& STC = 0)
    (h2 : regOfWire (chip.busRead a).data STATUSRSSI &&& STC ≠ 0)
    (h3 : ∀ j, a + 1 < j → j < b → regOfWire (chip.busRead j).data STATUSRSSI &&& STC ≠ 0)
    (h4 : regOfWire (chip.busRead b).data STATUSRSSI &&& STC = 0)
    (hfuel : b - s.reads ≤ fuel) :
    ((∀ j, a ≤ j → j ≤ b → regOfWire (chip.busRead j).data STATUSRSSI &&& SFBL ≠ 0) →
      ∃ u d, seekUp chip fuel s = some ((FAIL : ℚ), u) ∧ u.reads = b + 1 ∧
        seekDown chip fuel s = some ((FAIL : ℚ), d) ∧ d.reads = b + 1) ∧
    ((∀ j, a ≤ j → j ≤ b → regOfWire (chip.busRead j).data STATUSRSSI &&& SFBL = 0) →
      ∃ u d, u.reads = b + 2 ∧ d.reads = b + 2 ∧
        seekUp chip fuel s
          = (channelToFrequency s
              (regOfWire (chip.busRead (b + 1)).data READCHAN &&& 0x03FF)).map
              (fun f => (f, u)) ∧
        seekDown chip fuel s
          = (channelToFrequency s
              (regOfWire (chip.busRead (b + 1)).data READCHAN &&& 0x03FF)).map
              (fun f => (f, d))) := by
  obtain ⟨u, u1, u2, u3, u4⟩ :=
    seek_run chip fuel SeekDirection.Up s a b ha hb hok h1 h2 h3 h4 hfuel
  obtain ⟨d, d1, d2, d3, d4⟩ :=
    seek_run chip fuel SeekDirection.Down s a b ha hb hok h1 h2 h3 h4 hfuel
  have hfreq : ∀ t : Si4703_Breakout, t.reads = b + 1 → t.band_ = s.band_ →
      t.channel_spacing_ = s.channel_spacing_ →
      getFrequency chip t
        = (channelToFrequency s
            (regOfWire (chip.busRead (b + 1)).data READCHAN &&& 0x03FF)).map
            (fun f => (f, afterRead chip t)) := by
    intro t t1 t2 t3
    rw [getFrequency_eq, afterRead_registers_ok chip t (by rw [t1]; exact hok _ (by omega) (le_refl _)),
      t1, channelToFrequency_congr s t _ t2 t3]
    cases channelToFrequency s (regOfWire (chip.busRead (b + 1)).data READCHAN &&& 0x03FF) <;> rfl
  constructor
  · intro hset
    have hs := hset (a + 1) (by omega) (by omega)
    refine ⟨u, d, ?_, u1, ?_, d1⟩
    · unfold seekUp; rw [u4, if_pos hs]
    · unfold seekDown; rw [d4, if_pos hs]
  · intro hclr
    have hc := hclr (a + 1) (by omega) (by omega)
    refine ⟨afterRead chip u, afterRead chip d, by simp [u1], by simp [d1], ?_, ?_⟩
    · unfold seekUp; rw [u4, if_neg (by rw [not_not]; exact hc), hfreq u u1 u2 u3]
    · unfold seekDown; rw [d4, if_neg (by rw [not_not]; exact hc), hfreq d d1 d2 d3]

theorem seekChip_hypotheses (sfbl : Nat) (hs : sfbl = 0 ∨ sfbl = SFBL) :
    (∀ k, usDevice.reads ≤ k → k ≤ 5 + 1 → ((seekChip sfbl).busRead k).count = 32) ∧
    (∀ j, usDevice.reads < j → j < 2 →
      regOfWire ((seekChip sfbl).busRead j).data STATUSRSSI &&& STC = 0) ∧
    regOfWire ((seekChip sfbl).busRead 2).data STATUSRSSI &&& STC ≠ 0 ∧
    (∀ j, 2 + 1 < j → j < 5 →
      regOfWire ((seekChip sfbl).busRead j).data STATUSRSSI &&& STC ≠ 0) ∧
    regOfWire ((seekChip sfbl).busRead 5).data STATUSRSSI &&& STC = 0 := by
  refine ⟨fun _ _ _ => rfl, ?_, ?_, ?_, ?_⟩
  · intro j hj1 hj2
    have hj : j = 1 := by
      have : usDevice.reads = 0 := rfl
      omega
    subst hj
    rcases hs with h | h <;> subst h <;> decide
  · rcases hs with h | h <;> subst h <;> decide
  · intro j hj1 hj2
    have hj : j = 4 := by omega
    subst hj
    rcases hs with h | h <;> subst h <;> decide
  · rcases hs with h | h <;> subst h <;> decide

/-- Witness for C10: the seek chip with SFBL held set during the reads 2 to
5 makes `seekUp` and `seekDown` fail after 6 reads; with SFBL clear they
return 101.1 MHz (channel 68) after 7 reads. -/
theorem seek_outcome_by_sfbl_witness :
    (∃ u d, seekUp (seekChip SFBL) 5 usDevice = some ((FAIL : ℚ), u) ∧ u.reads = 6 ∧
      seekDown (seekChip SFBL) 5 usDevice = some ((FAIL : ℚ), d) ∧ d.reads = 6) ∧
    (∃ u d, u.reads = 7 ∧ d.reads = 7 ∧
      seekUp (seekChip 0) 5 usDevice = some (101.1, u) ∧
      seekDown (seekChip 0) 5 usDevice = some (101.1, d)) := by
  obtain ⟨p1, p2, p3, p4, p5⟩ := seekChip_hypotheses SFBL (Or.inr rfl)
  obtain ⟨q1, q2, q3, q4, q5⟩ := seekChip_hypotheses 0 (Or.inl rfl)
  have hfreq : channelToFrequency usDevice
      (regOfWire ((seekChip 0).busRead (5 + 1)).data READCHAN &&& 0x03FF) = some 101.1 := by
    have e : regOfWire ((seekChip 0).busRead (5 + 1)).data READCHAN &&& 0x03FF = 68 := by
      decide
    rw [e]
    unfold channelToFrequency
    rw [show minFrequency usDevice = some 87.5 from rfl,
      show channelSpacing usDevice = 0.2 from rfl]
    norm_num
  constructor
  · refine (seek_outcome_by_sfbl (seekChip SFBL) 5 usDevice 2 5 (by decide) (by decide)
      p1 p2 p3 p4 p5 (by decide)).1 ?_
    intro j hj1 hj2
    interval_cases j <;> decide
  · obtain ⟨u, d, r1, r2, r3, r4⟩ :=
      (seek_outcome_by_sfbl (seekChip 0) 5 usDevice 2 5 (by decide) (by decide)
        q1 q2 q3 q4 q5 (by decide)).2 (by
          intro j hj1 hj2
          interval_cases j <;> decide)
    rw [hfreq] at r3 r4
    exact ⟨u, d, r1, r2, r3, r4⟩

/-! ## Status codes of the bus transactions -/

/-- C13: `readRegisters` returns FAIL whenever the bus read does not return
32 bytes (fewer bytes, or an error value), and then all 16 registers of the
image keep their values; it returns SUCCESS when 32 bytes are returned.
`updateRegisters` returns FAIL whenever the bus write accepts fewer than 12
bytes and SUCCESS when it accepts 12.  FAIL and SUCCESS are different. -/
theorem bus_transfer_status (chip : Chip) (s : Si4703_Breakout) :
    ((chip.busRead s.reads).count ≠ 32 →
      ∃ s', readRegisters chip s = some (FAIL, s') ∧
        ∀ r : Fin 16, s'.registers_ r = s.registers_ r) ∧
    ((chip.busRead s.reads).count = 32 →
      ∃ s', readRegisters chip s = some (SUCCESS, s')) ∧
    (chip.busWrite s.writes < 12 →
      ∃ s', updateRegisters chip s = some (FAIL, s')) ∧
    (chip.busWrite s.writes = 12 →
      ∃ s', updateRegisters chip s = some (SUCCESS, s')) ∧
    FAIL ≠ SUCCESS := by
  refine ⟨fun h => ⟨_, readRegisters_short chip s h, fun _ => rfl⟩,
    fun h => ⟨_, readRegisters_ok chip s h⟩, fun h => ?_, fun h => ?_, by decide⟩
  · refine ⟨afterWrite chip s, ?_⟩
    rw [updateRegisters_eq_afterWrite, if_pos h]
  · refine ⟨afterWrite chip s, ?_⟩
    rw [updateRegisters_eq_afterWrite, if_neg (by omega)]

/-! ## The constructor and `minFrequency` -/

/-- C12 fails on the code: a device constructed for region US or Europe has
band `Band_US_Europe` and `minFrequency` 87.5, but a device constructed for
region Japan has band `Band_Japan_Wide`, for which the `switch` of
`minFrequency` has no case: the function runs off its end and returns no
defined value (not 76.0). -/
theorem minFrequency_of_constructed (registers0 : Registers) :
    minFrequency (Si4703_Breakout.Si4703_Breakout Region.US registers0) = some 87.5 ∧
    minFrequency (Si4703_Breakout.Si4703_Breakout Region.Europe registers0) = some 87.5 ∧
    (Si4703_Breakout.Si4703_Breakout Region.Japan registers0).band_ = Band.Band_Japan_Wide ∧
    minFrequency (Si4703_Breakout.Si4703_Breakout Region.Japan registers0) = none ∧
    channelToFrequency (Si4703_Breakout.Si4703_Breakout Region.Japan registers0) 0 = none ∧
    frequencyToChannel (Si4703_Breakout.Si4703_Breakout Region.Japan registers0) 76.0 = none :=
  ⟨rfl, rfl, rfl, rfl, rfl, rfl⟩

/-! ## `powerOff` -/

theorem payloadWord_controlPayload (regs : Registers) (hreg : ∀ r, regs r < 65536) :
    payloadWord (controlPayload regs) 0 = regs 0x02 ∧
    payloadWord (controlPayload regs) 1 = regs 0x03 ∧
    payloadWord (controlPayload regs) 2 = regs 0x04 ∧
    payloadWord (controlPayload regs) 3 = regs 0x05 ∧
    payloadWord (controlPayload regs) 4 = regs 0x06 ∧
    payloadWord (controlPayload regs) 5 = regs 0x07 := by
  rw [controlPayload_bytes regs hreg]
  simp only [payloadWord, List.getD_cons_zero, List.getD_cons_succ, Nat.mul_zero, Nat.mul_one,
    Nat.zero_add]
  refine ⟨?_, ?_, ?_, ?_, ?_, ?_⟩ <;> omega

theorem powerOff_eq (chip : Chip) (s : Si4703_Breakout) :
    powerOff chip s
      = some (afterWrite chip (setRegister (afterRead chip s) POWERCFG 0x0000)) := by
  unfold powerOff
  simp only [readRegisters_eq, updateRegisters_eq_afterWrite, Option.bind_eq_bind,
    Option.some_bind]

theorem update_lt (regs : Registers) (r : Fin 16) (v : Nat) (hreg : ∀ x, regs x < 65536)
    (hv : v < 65536) : ∀ x, Function.update regs r v x < 65536 := by
  intro x
  by_cases hx : x = r
  · subst hx; rw [Function.update_same]; exact hv
  · rw [Function.update_noteq hx]; exact hreg x

/-- C15 (as amended): for every register content delivered by the read,
`powerOff` issues one control write in which POWERCFG is 0x0000, so the enable
bit (bit 0) and every other POWERCFG bit (mute, seek, seek-up and seek-mode
bits) are cleared, and registers 0x03-0x07 are written back as read. -/
theorem powerOff_writes_zero_powercfg (chip : Chip) (s : Si4703_Breakout)
    (hread : (chip.busRead s.reads).count = 32) :
    ∃ s' P, powerOff chip s = some s' ∧
      s'.trace = s.trace ++ [BusEvent.busRead 32,
        BusEvent.busWrite P (chip.busWrite s.writes)] ∧
      payloadWord P 0 = 0x0000 ∧
      payloadWord P 1 = regOfWire (chip.busRead s.reads).data 0x03 ∧
      payloadWord P 2 = regOfWire (chip.busRead s.reads).data 0x04 ∧
      payloadWord P 3 = regOfWire (chip.busRead s.reads).data 0x05 ∧
      payloadWord P 4 = regOfWire (chip.busRead s.reads).data 0x06 ∧
      payloadWord P 5 = regOfWire (chip.busRead s.reads).data 0x07 := by
  have hR := afterRead_registers_ok chip s hread
  have hreg := update_lt (regOfWire (chip.busRead s.reads).data) POWERCFG 0x0000
    (regOfWire_lt _) (by decide)
  obtain ⟨p0, p1, p2, p3, p4, p5⟩ := payloadWord_controlPayload _ hreg
  refine ⟨_, controlPayload (Function.update (regOfWire (chip.busRead s.reads).data)
    POWERCFG 0x0000), powerOff_eq chip s, ?_, ?_, ?_, ?_, ?_, ?_, ?_⟩
  · simp [hread, hR]
  · rw [p0]; rfl
  · rw [p1]; rfl
  · rw [p2]; rfl
  · rw [p3]; rfl
  · rw [p4]; rfl
  · rw [p5]; rfl

/-- Witness for C15 (as amended): the chip whose reads show POWERCFG = 0x4001,
CHANNEL = 0x0044 and SYSCONFIG2 = 0x0011. -/
theorem powerOff_writes_zero_powercfg_witness :
    ((handshakeChip 0x0044 0x0011).busRead usDevice.reads).count = 32 ∧
    ∃ s' P, powerOff (handshakeChip 0x0044 0x0011) usDevice = some s' ∧
      s'.trace = usDevice.trace ++ [BusEvent.busRead 32,
        BusEvent.busWrite P ((handshakeChip 0x0044 0x0011).busWrite usDevice.writes)] ∧
      payloadWord P 0 = 0x0000 ∧ payloadWord P 1 = 0x0044 ∧ payloadWord P 3 = 0x0011 := by
  refine ⟨rfl, ?_⟩
  obtain ⟨s', P, h1, h2, h3, h4, _, h5, _, _⟩ :=
    powerOff_writes_zero_powercfg (handshakeChip 0x0044 0x0011) usDevice rfl
  refine ⟨s', P, h1, h2, h3, ?_, ?_⟩
  · rw [h4]; decide
  · rw [h5]; decide

/-- Counterexample to C15 as stated: the read delivers POWERCFG = 0x4001 (mute
disabled, chip enabled); clearing only the enable bit would give 0x4000, but
the control write of `powerOff` carries POWERCFG = 0x0000. -/
theorem powerOff_clears_mute_bit :
    regOfWire ((handshakeChip 0x0044 0x0011).busRead usDevice.reads).data POWERCFG = 0x4001 ∧
    clearBits 0x4001 0x0001 = 0x4000 ∧
    (powerOff (handshakeChip 0x0044 0x0011) usDevice).map (fun s' => s'.trace)
      = some [BusEvent.busRead 32,
          BusEvent.busWrite [0x00, 0x00, 0x00, 0x44, 0x00, 0x00, 0x00, 0x11, 0, 0, 0, 0] 12] ∧
    payloadWord [0x00, 0x00, 0x00, 0x44, 0x00, 0x00, 0x00, 0x11, 0, 0, 0, 0] 0 ≠ 0x4000 := by
  decide

/-! ## The first control write of `setFrequency` -/

theorem setFrequency_us_101_1 (chip : Chip) (fuel : Nat) :
    frequencyToChannel usDevice 101.1 = some 68 ∧
    setFrequency chip fuel 101.1 usDevice = tuneHandshake chip fuel 68 usDevice := by
  have hsp : channelSpacing usDevice = 0.2 := rfl
  have hu : toUint16 (0.001 + ((101.1 : ℚ) - 87.5) / channelSpacing usDevice) = 68 := by
    apply toUint16_eq
    · rw [hsp]; norm_num
    · rw [hsp]; norm_num
    · decide
  constructor
  · unfold frequencyToChannel
    rw [show minFrequency usDevice = some 87.5 from rfl]
    simp only [hu]
  · rw [setFrequency_eq chip fuel 101.1 87.5 usDevice rfl, hu, if_pos]
    unfold FloatsEqual
    rw [decide_eq_true_iff, hsp, abs_lt]
    norm_num

/-- C17 fails on the code: the chip delivers CHANNEL = 0x0200 (channel 512)
in the read before the tune; `setFrequency(101.1)` on the US device computes
channel code 68, masks the old word with 0xFE00, which keeps bit 9, and sends
the CHANNEL word 0x8244 in its first control write: TUNE is set, but the
10-bit channel field is 0x244 = 580, not 68. -/
theorem setFrequency_keeps_channel_bit9 :
    regOfWire ((handshakeChip 0x0200 0).busRead usDevice.reads).data CHANNEL = 0x0200 ∧
    frequencyToChannel usDevice 101.1 = some 68 ∧
    (setFrequency (handshakeChip 0x0200 0) 5 101.1 usDevice).map
        (fun s' => s'.trace.take 2)
      = some [BusEvent.busRead 32,
          BusEvent.busWrite [0x40, 0x01, 0x82, 0x44, 0, 0, 0, 0, 0, 0, 0, 0] 12] ∧
    payloadWord [0x40, 0x01, 0x82, 0x44, 0, 0, 0, 0, 0, 0, 0, 0] 1 = 0x8244 ∧
    0x8244 &&& TUNE = TUNE ∧
    0x8244 &&& 0x03FF = 580 := by
  refine ⟨by decide, (setFrequency_us_101_1 (handshakeChip 0x0200 0) 5).1, ?_, by decide,
    by decide, by decide⟩
  rw [(setFrequency_us_101_1 (handshakeChip 0x0200 0) 5).2]
  decide

/-! ## `powerOn` -/

/-- C20 fails on the code: the device is constructed for region US (band
code 0x0000, spacing code 0x0000, no de-emphasis bit) and the read-back during
power-on shows SYSCONFIG1 = 0x0800 (DE set) and SYSCONFIG2 = 0x0020 (spacing
field 50 kHz).  `powerOn` succeeds and its final control write carries
SYSCONFIG1 = 0x1800 and SYSCONFIG2 = 0x0021: RDS-enable is set and the volume
nibble is 1, but the stale spacing field 0x0020 and the stale DE bit
survive. -/
theorem powerOn_keeps_stale_fields :
    (powerOn (imageChip (fun _ => registerImage 0 0 0x0800 0x0020 0 0)) 3 0 0
        (Si4703_Breakout.Si4703_Breakout Region.US (fun _ => 0))).map
        (fun r => (r.1, r.2.trace))
      = some (SUCCESS,
          [BusEvent.busRead 32,
           BusEvent.busWrite [0, 0, 0, 0, 0x08, 0x00, 0x00, 0x20, 0, 0, 0x81, 0x00] 12,
           BusEvent.busRead 32,
           BusEvent.busWrite [0x40, 0x01, 0, 0, 0x18, 0x00, 0x00, 0x21, 0, 0, 0, 0] 12]) ∧
    payloadWord [0x40, 0x01, 0, 0, 0x18, 0x00, 0x00, 0x21, 0, 0, 0, 0] 3 = 0x0021 ∧
    0x0021 &&& 0x0030 = 0x0020 ∧
    ChannelSpacing.code (Si4703_Breakout.Si4703_Breakout Region.US (fun _ => 0)).channel_spacing_
      = 0x0000 ∧
    payloadWord [0x40, 0x01, 0, 0, 0x18, 0x00, 0x00, 0x21, 0, 0, 0, 0] 2 = 0x1800 ∧
    0x1800 &&& DE = DE ∧ 0x1800 &&& RDS = RDS ∧ 0x0021 &&& 0x000F = 1 := by
  decide

/-! ## Runs of the polling loops, read off from their results -/

theorem afterRead_trace_ok (chip : Chip) (s : Si4703_Breakout)
    (h : (chip.busRead s.reads).count = 32) :
    (afterRead chip s).trace = s.trace ++ [BusEvent.busRead 32] := by
  rw [afterRead_trace, h]

theorem waitSTCSet_inv (chip : Chip) (fuel : Nat) :
    ∀ s s2 : Si4703_Breakout,
      (∀ k, s.reads ≤ k → (chip.busRead k).count = 32) →
      waitSTCSet chip fuel s = some s2 →
      ∃ a, s.reads ≤ a ∧ s2.reads = a + 1 ∧ s2.writes = s.writes ∧
        s2.trace = s.trace ++ List.replicate (a + 1 - s.reads) (BusEvent.busRead 32) ∧
        s2.band_ = s.band_ ∧ s2.channel_spacing_ = s.channel_spacing_ ∧
        (∀ j, s.reads ≤ j → j < a →
          regOfWire (chip.busRead j).data STATUSRSSI &&& STC = 0) ∧
        regOfWire (chip.busRead a).data STATUSRSSI &&& STC ≠ 0 := by
  induction fuel with
  | zero => intro s s2 _ h; simp [waitSTCSet] at h
  | succ m ih =>
    intro s s2 hok h
    rw [waitSTCSet, readRegisters_eq] at h
    simp only at h
    rw [afterRead_registers_ok chip s (hok _ (le_refl _))] at h
    split_ifs at h with hset
    · cases h
      refine ⟨s.reads, le_refl _, rfl, rfl, ?_, rfl, rfl, fun j h1 h2 => by omega, hset⟩
      rw [afterRead_trace_ok chip s (hok _ (le_refl _))]
      simp
    · obtain ⟨a, a1, a2, a3, a4, a5, a6, a7, a8⟩ := ih (afterRead chip s) s2
        (fun k hk => hok k (by simp at hk; omega)) h
      simp only [afterRead_reads, afterRead_writes, afterRead_band, afterRead_spacing] at a1 a2 a3 a4 a5 a6 a7
      refine ⟨a, by omega, a2, a3, ?_, a5, a6, fun j h1 h2 => ?_, a8⟩
      · rw [a4, afterRead_trace_ok chip s (hok _ (le_refl _)), List.append_assoc]
        congr 1
        have e : a + 1 - s.reads = (a + 1 - (s.reads + 1)) + 1 := by omega
        rw [e, List.replicate_succ]
        rfl
      · by_cases hj : j = s.reads
        · subst hj; rw [not_not] at hset; exact hset
        · exact a7 j (by omega) h2

theorem waitSTCClear_inv (chip : Chip) (fuel : Nat) :
    ∀ s s2 : Si4703_Breakout,
      (∀ k, s.reads ≤ k → (chip.busRead k).count = 32) →
      waitSTCClear chip fuel s = some s2 →
      ∃ b, s.reads ≤ b ∧ s2.reads = b + 1 ∧ s2.writes = s.writes ∧
        s2.trace = s.trace ++ List.replicate (b + 1 - s.reads) (BusEvent.busRead 32) ∧
        s2.band_ = s.band_ ∧ s2.channel_spacing_ = s.channel_spacing_ ∧
        (∀ j, s.reads ≤ j → j < b →
          regOfWire (chip.busRead j).data STATUSRSSI &&& STC ≠ 0) ∧
        regOfWire (chip.busRead b).data STATUSRSSI &&& STC = 0 := by
  induction fuel with
  | zero => intro s s2 _ h; simp [waitSTCClear] at h
  | succ m ih =>
    intro s s2 hok h
    rw [waitSTCClear, readRegisters_eq] at h
    simp only at h
    rw [afterRead_registers_ok chip s (hok _ (le_refl _))] at h
    split_ifs at h with hclr
    · cases h
      refine ⟨s.reads, le_refl _, rfl, rfl, ?_, rfl, rfl, fun j h1 h2 => by omega, hclr⟩
      rw [afterRead_trace_ok chip s (hok _ (le_refl _))]
      simp
    · obtain ⟨b, b1, b2, b3, b4, b5, b6, b7, b8⟩ := ih (afterRead chip s) s2
        (fun k hk => hok k (by simp at hk; omega)) h
      simp only [afterRead_reads, afterRead_writes, afterRead_band, afterRead_spacing] at b1 b2 b3 b4 b5 b6 b7
      refine ⟨b, by omega, b2, b3, ?_, b5, b6, fun j h1 h2 => ?_, b8⟩
      · rw [b4, afterRead_trace_ok chip s (hok _ (le_refl _)), List.append_assoc]
        congr 1
        have e : b + 1 - s.reads = (b + 1 - (s.reads + 1)) + 1 := by omega
        rw [e, List.replicate_succ]
        rfl
      · by_cases hj : j = s.reads
        · subst hj; exact hclr
        · exact b7 j (by omega) h2

theorem handshake_inv (chip : Chip) (fuel : Nat) (X1 s2 s3 : Si4703_Breakout)
    (reg : Fin 16) (bit : Nat)
    (hok : ∀ k, X1.reads ≤ k → (chip.busRead k).count = 32)
    (h2 : waitSTCSet chip fuel X1 = some s2)
    (h3 : waitSTCClear chip fuel
      (afterWrite chip (setRegister (afterRead chip s2) reg
        (clearBits ((afterRead chip s2).registers_ reg) bit))) = some s3) :
    ∃ a b, X1.reads ≤ a ∧ a + 1 < b ∧ s2.reads = a + 1 ∧ s3.reads = b + 1 ∧
      s3.band_ = X1.band_ ∧ s3.channel_spacing_ = X1.channel_spacing_ ∧
      (afterRead chip s2).registers_ = regOfWire (chip.busRead (a + 1)).data ∧
      s3.trace = X1.trace ++ List.replicate (a + 1 - X1.reads) (BusEvent.busRead 32)
        ++ [BusEvent.busRead 32,
            BusEvent.busWrite
              (controlPayload (Function.update (regOfWire (chip.busRead (a + 1)).data) reg
                (clearBits (regOfWire (chip.busRead (a + 1)).data reg) bit)))
              (chip.busWrite X1.writes)]
        ++ List.replicate (b - a - 1) (BusEvent.busRead 32) ∧
      (∀ j, X1.reads ≤ j → j < a →
        regOfWire (chip.busRead j).data STATUSRSSI &&& STC = 0) ∧
      regOfWire (chip.busRead a).data STATUSRSSI &&& STC ≠ 0 ∧
      (∀ j, a + 1 < j → j < b →
        regOfWire (chip.busRead j).data STATUSRSSI &&& STC ≠ 0) ∧
      regOfWire (chip.busRead b).data STATUSRSSI &&& STC = 0 := by
  obtain ⟨a, a1, a2, a3, a4, a5, a6, a7, a8⟩ := waitSTCSet_inv chip fuel X1 s2 hok h2
  have hre : (afterRead chip s2).registers_ = regOfWire (chip.busRead (a + 1)).data := by
    rw [afterRead_registers_ok chip s2 (by rw [a2]; exact hok _ (by omega)), a2]
  obtain ⟨b, b1, b2, _, b4, b5, b6, b7, b8⟩ := waitSTCClear_inv chip fuel _ s3
    (fun k hk => hok k (by simp at hk; omega)) h3
  simp only [afterWrite_reads, setRegister_reads, afterRead_reads, afterWrite_band,
    setRegister_band, afterRead_band, afterWrite_spacing, setRegister_spacing,
    afterRead_spacing, a2] at b1 b5 b6 b7
  refine ⟨a, b, a1, by omega, a2, b2, by rw [b5, a5], by rw [b6, a6], hre, ?_, a7, a8,
    fun j h1 h2 => b7 j (by omega) h2, b8⟩
  rw [b4]
  simp only [afterWrite_trace, setRegister_trace, setRegister_registers, afterWrite_reads,
    setRegister_reads, afterRead_reads, setRegister_writes, afterRead_writes, hre, a2, a3]
  rw [afterRead_trace_ok chip s2 (by rw [a2]; exact hok _ (by omega)), a4]
  have e : b + 1 - (a + 1 + 1) = b - a - 1 := by omega
  rw [e]
  simp [List.append_assoc]

theorem clearBits_lt (x m : Nat) (hx : x < 65536) : clearBits x m < 65536 := by
  unfold clearBits
  exact lt_of_le_of_lt Nat.and_le_left hx

theorem clearBits_SEEK (x : Nat) : clearBits x SEEK &&& SEEK = 0 := by
  unfold clearBits
  rw [Nat.and_assoc]
  have e : (0xFFFF ^^^ SEEK) &&& SEEK = 0 := by decide
  rw [e, Nat.and_zero]

theorem clearBits_TUNE (x : Nat) : clearBits x TUNE &&& TUNE = 0 := by
  unfold clearBits
  rw [Nat.and_assoc]
  have e : (0xFFFF ^^^ TUNE) &&& TUNE = 0 := by decide
  rw [e, Nat.and_zero]

theorem or_and_self_mask (x m : Nat) : (x ||| m) &&& m = m := by
  apply Nat.eq_of_testBit_eq
  intro i
  simp only [Nat.testBit_and, Nat.testBit_or]
  cases Nat.testBit x i <;> cases Nat.testBit m i <;> rfl

theorem or_and_other (x m n : Nat) (h : m &&& n = 0) : (x ||| m) &&& n = x &&& n := by
  rw [Nat.and_comm, Nat.and_or_distrib_left, Nat.and_comm n m, h, Nat.or_zero, Nat.and_comm]

theorem or_lt_65536 (x m : Nat) (hx : x < 65536) (hm : m < 65536) : x ||| m < 65536 := by
  have h1 : x < 2 ^ 16 := by norm_num; exact hx
  have h2 : m < 2 ^ 16 := by norm_num; exact hm
  exact Nat.or_lt_two_pow h1 h2

theorem setRegister_twice (s : Si4703_Breakout) (r : Fin 16) (v w : Nat) :
    setRegister (setRegister s r v) r w = setRegister s r w := by
  simp [setRegister, Function.update_idem]

theorem seekStart_eq (direction : SeekDirection) (s : Si4703_Breakout) :
    seekStart direction s
      = setRegister s POWERCFG (seekWord direction (s.registers_ POWERCFG)) := by
  unfold seekStart seekWord
  cases direction <;>
    simp [setRegister_twice, setRegister_registers, Function.update_same]

theorem tuneHandshake_eq (chip : Chip) (fuel channel : Nat) (s : Si4703_Breakout) :
    tuneHandshake chip fuel channel s
      = (waitSTCSet chip fuel
          (delay 60 (afterWrite chip
            (setRegister (afterRead chip s) CHANNEL
              (tuneWord channel ((afterRead chip s).registers_ CHANNEL)))))).bind
        (fun s2 =>
          waitSTCClear chip fuel
            (afterWrite chip
              (setRegister (afterRead chip s2) CHANNEL
                (clearBits ((afterRead chip s2).registers_ CHANNEL) TUNE)))) := by
  unfold tuneHandshake tuneWord
  simp only [readRegisters_eq, updateRegisters_eq_afterWrite, Option.bind_eq_bind,
    Option.some_bind, setRegister_registers, Function.update_same, setRegister_twice]

theorem seekWord_lt (direction : SeekDirection) (r : Nat) (hr : r < 65536) :
    seekWord direction r < 65536 := by
  unfold seekWord
  split
  · exact or_lt_65536 _ _ (clearBits_lt _ _ (or_lt_65536 _ _ hr (by decide))) (by decide)
  · exact or_lt_65536 _ _ (or_lt_65536 _ _ (or_lt_65536 _ _ hr (by decide)) (by decide))
      (by decide)

theorem seekWord_bits (direction : SeekDirection) (r : Nat) :
    seekWord direction r &&& SKMODE = SKMODE ∧
    seekWord direction r &&& SEEK = SEEK ∧
    (direction = SeekDirection.Up → seekWord direction r &&& SEEKUP = SEEKUP) ∧
    (direction = SeekDirection.Down → seekWord direction r &&& SEEKUP = 0) ∧
    seekWord direction r &&& 0xF8FF = r &&& 0xF8FF := by
  have m1 : ((0xFFFF : Nat) ^^^ SEEKUP) &&& SKMODE = SKMODE := by decide
  have m2 : ((0xFFFF : Nat) ^^^ SEEKUP) &&& SEEKUP = 0 := by decide
  have m3 : ((0xFFFF : Nat) ^^^ SEEKUP) &&& 0xF8FF = 0xF8FF := by decide
  cases direction
  · -- Up
    have e : seekWord SeekDirection.Up r = ((r ||| SKMODE) ||| SEEKUP) ||| SEEK := by
      simp [seekWord]
    rw [e]
    refine ⟨?_, or_and_self_mask _ _, fun _ => ?_, fun h => (by cases h), ?_⟩
    · rw [or_and_other _ _ _ (by decide), or_and_other _ _ _ (by decide), or_and_self_mask]
    · rw [or_and_other _ _ _ (by decide), or_and_self_mask]
    · rw [or_and_other _ _ _ (by decide), or_and_other _ _ _ (by decide),
        or_and_other _ _ _ (by decide)]
  · -- Down
    have e : seekWord SeekDirection.Down r = clearBits (r ||| SKMODE) SEEKUP ||| SEEK := by
      simp [seekWord]
    rw [e]
    unfold clearBits
    refine ⟨?_, or_and_self_mask _ _, fun h => (by cases h), fun _ => ?_, ?_⟩
    · rw [or_and_other _ _ _ (by decide), Nat.and_assoc, m1, or_and_self_mask]
    · rw [or_and_other _ _ _ (by decide), Nat.and_assoc, m2, Nat.and_zero]
    · rw [or_and_other _ _ _ (by decide), Nat.and_assoc, m3, or_and_other _ _ _ (by decide)]

theorem tuneWord_lt (channel r : Nat) (hc : channel < 65536) (hr : r < 65536) :
    tuneWord channel r < 65536 := by
  unfold tuneWord
  exact or_lt_65536 _ _
    (or_lt_65536 _ _ (lt_of_le_of_lt Nat.and_le_left hr) hc) (by decide)

theorem toUint16_lt (q : ℚ) : toUint16 q < 65536 := by
  unfold toUint16
  have h := Int.emod_lt_of_pos (if 0 ≤ q then ⌊q⌋ else ⌈q⌉) (by decide : (0 : ℤ) < 65536)
  have h0 := Int.emod_nonneg (if 0 ≤ q then ⌊q⌋ else ⌈q⌉) (by decide : (65536 : ℤ) ≠ 0)
  omega

theorem handshakeOrder_of_inv (chip : Chip) (fuel : Nat) (s X1 s2 s3 : Si4703_Breakout)
    (reg : Fin 16) (bit word : Nat) (P1 : List Nat) (w1 : Int) (tail post : List BusEvent)
    (hok : ∀ k, s.reads ≤ k → (chip.busRead k).count = 32)
    (hX1r : X1.reads = s.reads + 1)
    (hX1t : X1.trace = s.trace ++ [BusEvent.busRead 32, BusEvent.busWrite P1 w1])
    (h2 : waitSTCSet chip fuel X1 = some s2)
    (h3 : waitSTCClear chip fuel
      (afterWrite chip (setRegister (afterRead chip s2) reg
        (clearBits ((afterRead chip s2).registers_ reg) bit))) = some s3)
    (hP1 : payloadWord P1 word &&& bit ≠ 0)
    (hword : ∀ regs : Registers, (∀ r, regs r < 65536) →
      payloadWord (controlPayload regs) word = regs reg)
    (hbit : ∀ x, clearBits x bit &&& bit = 0)
    (hpost : post = s3.trace ++ tail)
    (htail : ∀ e, e ∈ tail → e = BusEvent.busRead 32) :
    HandshakeOrder chip s.reads s.trace post word bit := by
  obtain ⟨a, b, i1, i2, _, _, _, _, _, i6, i7, i8, i9, i10⟩ :=
    handshake_inv chip fuel X1 s2 s3 reg bit (fun k hk => hok k (by omega)) h2 h3
  refine ⟨a, b, P1,
    controlPayload (Function.update (regOfWire (chip.busRead (a + 1)).data) reg
      (clearBits (regOfWire (chip.busRead (a + 1)).data reg) bit)),
    w1, chip.busWrite X1.writes, tail, by omega, i2, ?_, htail, hP1, ?_,
    fun j h1 h2 => i7 j (by omega) h2, i8, i9, i10⟩
  · rw [hpost, i6, hX1t, hX1r]
    have e : a + 1 - (s.reads + 1) = a - s.reads := by omega
    rw [e]
  · rw [hword _ (update_lt _ _ _ (regOfWire_lt _) (clearBits_lt _ _ (regOfWire_lt _ _))),
      Function.update_same]
    exact hbit _

/-- C16: on every terminating run of `setFrequency` with an on-grid
frequency, and of `seek`, in which the bus reads deliver all 32 bytes, the log
of bus transactions has the handshake order.  After the first register read
comes the first control write, with the start bit (TUNE in CHANNEL, resp. SEEK
in POWERCFG) set; only then the status polls begin; they end with read `a`,
the first that shows STC set; one more read and the second control write
follow, with the start bit cleared; the polls after it end with read `b`, the
first that shows STC clear.  There are exactly two control writes: what
follows read `b` contains reads only. -/
theorem handshake_order (chip : Chip) (fuel : Nat) (s : Si4703_Breakout)
    (hok : ∀ k, s.reads ≤ k → (chip.busRead k).count = 32) :
    (∀ (f m : ℚ) (c : Nat) (s' : Si4703_Breakout),
      minFrequency s = some m → frequencyToChannel s f = some c →
      |(f - m) / channelSpacing s - (c : ℚ)| < 0.02 →
      setFrequency chip fuel f s = some s' →
      HandshakeOrder chip s.reads s.trace s'.trace 1 TUNE) ∧
    (∀ (direction : SeekDirection) (r : ℚ) (s' : Si4703_Breakout),
      seek chip fuel direction s = some (r, s') →
      HandshakeOrder chip s.reads s.trace s'.trace 0 SEEK) := by
  have hR := afterRead_registers_ok chip s (hok _ (le_refl _))
  constructor
  · intro f m c s' hm hc hgrid hrun
    have hc' : c = toUint16 (0.001 + (f - m) / channelSpacing s) := by
      unfold frequencyToChannel at hc
      rw [hm] at hc
      exact (Option.some.inj hc).symm
    rw [setFrequency_eq chip fuel f m s hm, ← hc', if_pos] at hrun
    swap
    · unfold FloatsEqual
      rw [decide_eq_true_iff]
      exact hgrid
    rw [tuneHandshake_eq, Option.bind_eq_some] at hrun
    obtain ⟨s2, h2, h3⟩ := hrun
    have hclt : c < 65536 := by rw [hc']; exact toUint16_lt _
    have hreg := update_lt (regOfWire (chip.busRead s.reads).data) CHANNEL
      (tuneWord c (regOfWire (chip.busRead s.reads).data CHANNEL)) (regOfWire_lt _)
      (tuneWord_lt _ _ hclt (regOfWire_lt _ _))
    refine handshakeOrder_of_inv chip fuel s _ s2 s' CHANNEL TUNE 1
      (controlPayload (Function.update (regOfWire (chip.busRead s.reads).data) CHANNEL
        (tuneWord c (regOfWire (chip.busRead s.reads).data CHANNEL))))
      (chip.busWrite s.writes) [] _ hok ?_ ?_ h2 h3 ?_
      (fun regs hr => (payloadWord_controlPayload regs hr).2.1) clearBits_TUNE
      (List.append_nil _).symm (fun e he => by cases he)
    · simp
    · simp [hR, hok s.reads (le_refl _)]
    · rw [(payloadWord_controlPayload _ hreg).2.1]
      have e : Function.update (regOfWire (chip.busRead s.reads).data) CHANNEL
          (tuneWord c (regOfWire (chip.busRead s.reads).data CHANNEL)) 0x03
          = tuneWord c (regOfWire (chip.busRead s.reads).data CHANNEL) :=
        Function.update_same _ _ _
      rw [e]
      unfold tuneWord
      rw [or_and_self_mask]
      decide
  · intro direction r s' hrun
    rw [seek_eq, Option.bind_eq_some] at hrun
    obtain ⟨s2, h2, hrest⟩ := hrun
    rw [Option.bind_eq_some] at hrest
    obtain ⟨s3, h3, hfin⟩ := hrest
    have hreg := update_lt (regOfWire (chip.busRead s.reads).data) POWERCFG
      (seekWord direction (regOfWire (chip.busRead s.reads).data POWERCFG)) (regOfWire_lt _)
      (seekWord_lt _ _ (regOfWire_lt _ _))
    have htail : ∃ tail, s'.trace = s3.trace ++ tail ∧
        ∀ e, e ∈ tail → e = BusEvent.busRead 32 := by
      split_ifs at hfin with hsf
      · cases hfin
        exact ⟨[], (List.append_nil _).symm, fun e he => by cases he⟩
      · rw [getFrequency_eq, Option.bind_eq_some] at hfin
        obtain ⟨fr, _, hfr⟩ := hfin
        cases hfr
        obtain ⟨a, b, _, _, _, i4, _⟩ := handshake_inv chip fuel _ s2 s3 POWERCFG SEEK
          (fun k hk => hok k (by simp at hk; omega)) h2 h3
        refine ⟨[BusEvent.busRead 32], ?_, fun e he => by simpa using he⟩
        rw [afterRead_trace_ok chip s3 (hok _ (by
          have := waitSTCClear_reads chip fuel _ _ h3
          have := waitSTCSet_reads chip fuel _ _ h2
          simp at *
          omega))]
    obtain ⟨tail, ht1, ht2⟩ := htail
    refine handshakeOrder_of_inv chip fuel s _ s2 s3 POWERCFG SEEK 0
      (controlPayload (Function.update (regOfWire (chip.busRead s.reads).data) POWERCFG
        (seekWord direction (regOfWire (chip.busRead s.reads).data POWERCFG))))
      (chip.busWrite s.writes) tail _ hok ?_ ?_ h2 h3 ?_
      (fun regs hr => (payloadWord_controlPayload regs hr).1) clearBits_SEEK ht1 ht2
    · simp
    · simp [seekStart_eq, hR, hok s.reads (le_refl _)]
    · rw [(payloadWord_controlPayload _ hreg).1]
      have e : Function.update (regOfWire (chip.busRead s.reads).data) POWERCFG
          (seekWord direction (regOfWire (chip.busRead s.reads).data POWERCFG)) 0x02
          = seekWord direction (regOfWire (chip.busRead s.reads).data POWERCFG) :=
        Function.update_same _ _ _
      rw [e, (seekWord_bits _ _).2.1]
      decide

/-- Witness for C16: the handshake chip completes `setFrequency(101.1)` and
`seekUp` on the US device. -/
theorem handshake_order_witness :
    (∀ k, usDevice.reads ≤ k → ((handshakeChip 0 0).busRead k).count = 32) ∧
    (∃ s', setFrequency (handshakeChip 0 0) 5 101.1 usDevice = some s' ∧
      HandshakeOrder (handshakeChip 0 0) usDevice.reads usDevice.trace s'.trace 1 TUNE) ∧
    (∃ r s', seek (handshakeChip 0 0) 5 SeekDirection.Up usDevice = some (r, s') ∧
      HandshakeOrder (handshakeChip 0 0) usDevice.reads usDevice.trace s'.trace 0 SEEK) := by
  have hok : ∀ k, usDevice.reads ≤ k → ((handshakeChip 0 0).busRead k).count = 32 :=
    fun _ _ => rfl
  have ht : (tuneHandshake (handshakeChip 0 0) 5 68 usDevice).isSome = true := by decide
  have hs : (seek (handshakeChip 0 0) 5 SeekDirection.Up usDevice).isSome = true := by decide
  have hrun1 : setFrequency (handshakeChip 0 0) 5 101.1 usDevice
      = some ((tuneHandshake (handshakeChip 0 0) 5 68 usDevice).get ht) := by
    rw [(setFrequency_us_101_1 (handshakeChip 0 0) 5).2]
    simp
  have hrun2 : seek (handshakeChip 0 0) 5 SeekDirection.Up usDevice
      = some (((seek (handshakeChip 0 0) 5 SeekDirection.Up usDevice).get hs).1,
          ((seek (handshakeChip 0 0) 5 SeekDirection.Up usDevice).get hs).2) := by
    simp
  have hgrid : |((101.1 : ℚ) - 87.5) / channelSpacing usDevice - ((68 : ℕ) : ℚ)| < 0.02 := by
    rw [show channelSpacing usDevice = 0.2 from rfl, abs_lt]
    norm_num
  exact ⟨hok,
    ⟨_, hrun1, (handshake_order (handshakeChip 0 0) 5 usDevice hok).1 101.1 87.5 68 _ rfl
      (setFrequency_us_101_1 (handshakeChip 0 0) 5).1 hgrid hrun1⟩,
    ⟨_, _, hrun2, (handshake_order (handshakeChip 0 0) 5 usDevice hok).2 _ _ _ hrun2⟩⟩

/-! ## The moment at which `seek` samples SFBL -/

theorem channelToFrequency_ge (s : Si4703_Breakout) (channel : Nat) (f : ℚ)
    (h : channelToFrequency s channel = some f) : 76 ≤ f := by
  unfold channelToFrequency at h
  have hpos := channelSpacing_pos s
  have hch : (0 : ℚ) ≤ (channel : ℚ) := Nat.cast_nonneg _
  have hmul : 0 ≤ channelSpacing s * (channel : ℚ) := mul_nonneg (le_of_lt hpos) hch
  cases hm : minFrequency s with
  | none => rw [hm] at h; cases h
  | some m =>
    rw [hm] at h
    cases h
    unfold minFrequency at hm
    split at hm
    · cases hm; norm_num; linarith
    · cases hm; norm_num; linarith
    · cases hm

/-- C11 (as amended): on every terminating run of `seek` in which the bus
reads deliver all 32 bytes, let `a` be the first status poll that shows STC
set and `b` the poll that ends the settling (the first after the second
control write that shows STC clear).  The outcome is decided by the SFBL bit
of read `a + 1`, the register read made right after STC was observed and
before the SEEK bit is cleared: `seek` returns FAIL, with read `b` as its last
read, exactly when SFBL is set in that image; otherwise it makes one further
read, `b + 1`, and returns channelToFrequency (READCHAN AND 0x03FF) of it,
which is not FAIL. -/
theorem seek_outcome_sampled_before_settling (chip : Chip) (fuel : Nat)
    (direction : SeekDirection) (s : Si4703_Breakout) (r : ℚ) (s' : Si4703_Breakout)
    (hok : ∀ k, s.reads ≤ k → (chip.busRead k).count = 32)
    (hrun : seek chip fuel direction s = some (r, s')) :
    ∃ a b, s.reads < a ∧ a + 1 < b ∧
      (∀ j, s.reads < j → j < a → regOfWire (chip.busRead j).data STATUSRSSI &&& STC = 0) ∧
      regOfWire (chip.busRead a).data STATUSRSSI &&& STC ≠ 0 ∧
      (∀ j, a + 1 < j → j < b → regOfWire (chip.busRead j).data STATUSRSSI &&& STC ≠ 0) ∧
      regOfWire (chip.busRead b).data STATUSRSSI &&& STC = 0 ∧
      ((regOfWire (chip.busRead (a + 1)).data STATUSRSSI &&& SFBL ≠ 0 ∧
          r = (FAIL : ℚ) ∧ s'.reads = b + 1) ∨
       (regOfWire (chip.busRead (a + 1)).data STATUSRSSI &&& SFBL = 0 ∧
          s'.reads = b + 2 ∧
          channelToFrequency s (regOfWire (chip.busRead (b + 1)).data READCHAN &&& 0x03FF)
            = some r ∧
          r ≠ (FAIL : ℚ))) := by
  rw [seek_eq, Option.bind_eq_some] at hrun
  obtain ⟨s2, h2, hrest⟩ := hrun
  rw [Option.bind_eq_some] at hrest
  obtain ⟨s3, h3, hfin⟩ := hrest
  obtain ⟨a, b, i1, i2, _, i4, i5, i6, i7, _, i9, i10, i11, i12⟩ :=
    handshake_inv chip fuel _ s2 s3 POWERCFG SEEK
      (fun k hk => hok k (by simp at hk; omega)) h2 h3
  simp only [afterWrite_reads, seekStart_reads, afterRead_reads, afterWrite_band,
    seekStart_band, afterRead_band, afterWrite_spacing, seekStart_spacing,
    afterRead_spacing] at i1 i5 i6 i9
  refine ⟨a, b, by omega, i2, fun j h1 h2 => i9 j (by omega) h2, i10, i11, i12, ?_⟩
  rw [i7] at hfin
  split_ifs at hfin with hsf
  · cases hfin
    exact Or.inl ⟨hsf, rfl, i4⟩
  · rw [not_not] at hsf
    rw [getFrequency_eq, Option.bind_eq_some] at hfin
    obtain ⟨fr, hfr, hres⟩ := hfin
    cases hres
    rw [afterRead_registers_ok chip s3 (by rw [i4]; exact hok _ (by omega)), i4,
      channelToFrequency_congr s s3 _ i5 i6] at hfr
    refine Or.inr ⟨hsf, by simp [i4], hfr, ?_⟩
    have := channelToFrequency_ge s _ _ hfr
    have hF : ((FAIL : ℕ) : ℚ) = 0 := by simp [FAIL]
    rw [hF]
    linarith

/-- Witness for C11 (as amended): `seekUp` on the settling chip. -/
theorem seek_outcome_sampled_before_settling_witness :
    (∀ k, usDevice.reads ≤ k → (settlingChip.busRead k).count = 32) ∧
    ∃ r s', seek settlingChip 5 SeekDirection.Up usDevice = some (r, s') ∧
      ∃ a b, usDevice.reads < a ∧ a + 1 < b ∧
        (∀ j, usDevice.reads < j → j < a →
          regOfWire (settlingChip.busRead j).data STATUSRSSI &&& STC = 0) ∧
        regOfWire (settlingChip.busRead a).data STATUSRSSI &&& STC ≠ 0 ∧
        (∀ j, a + 1 < j → j < b →
          regOfWire (settlingChip.busRead j).data STATUSRSSI &&& STC ≠ 0) ∧
        regOfWire (settlingChip.busRead b).data STATUSRSSI &&& STC = 0 ∧
        ((regOfWire (settlingChip.busRead (a + 1)).data STATUSRSSI &&& SFBL ≠ 0 ∧
            r = (FAIL : ℚ) ∧ s'.reads = b + 1) ∨
         (regOfWire (settlingChip.busRead (a + 1)).data STATUSRSSI &&& SFBL = 0 ∧
            s'.reads = b + 2 ∧
            channelToFrequency usDevice
              (regOfWire (settlingChip.busRead (b + 1)).data READCHAN &&& 0x03FF) = some r ∧
            r ≠ (FAIL : ℚ))) := by
  have hok : ∀ k, usDevice.reads ≤ k → (settlingChip.busRead k).count = 32 := fun _ _ => rfl
  have hs : (seek settlingChip 5 SeekDirection.Up usDevice).isSome = true := by decide
  have hrun : seek settlingChip 5 SeekDirection.Up usDevice
      = some (((seek settlingChip 5 SeekDirection.Up usDevice).get hs).1,
          ((seek settlingChip 5 SeekDirection.Up usDevice).get hs).2) := by
    simp
  exact ⟨hok, _, _, hrun,
    seek_outcome_sampled_before_settling settlingChip 5 SeekDirection.Up usDevice _ _ hok hrun⟩

/-- Counterexample to C11 as stated: on the settling chip the settling poll
ends with read 5 (STC is still set in read 4 and clear in read 5), and SFBL is
clear in read 5; yet `seek` returns FAIL after these 6 reads, because SFBL was
set in read 3, the read made before the SEEK bit was cleared. -/
theorem seek_fails_with_sfbl_clear_at_settle :
    regOfWire (settlingChip.busRead 4).data STATUSRSSI &&& STC ≠ 0 ∧
    regOfWire (settlingChip.busRead 5).data STATUSRSSI &&& STC = 0 ∧
    regOfWire (settlingChip.busRead 5).data STATUSRSSI &&& SFBL = 0 ∧
    regOfWire (settlingChip.busRead 3).data STATUSRSSI &&& SFBL ≠ 0 ∧
    ∃ u, seek settlingChip 5 SeekDirection.Up usDevice = some ((FAIL : ℚ), u) ∧
      u.reads = 6 := by
  have h4 : regOfWire (settlingChip.busRead 4).data STATUSRSSI &&& STC ≠ 0 := by decide
  have h5 : regOfWire (settlingChip.busRead 5).data STATUSRSSI &&& STC = 0 := by decide
  have h3 : regOfWire (settlingChip.busRead (2 + 1)).data STATUSRSSI &&& SFBL ≠ 0 := by decide
  refine ⟨h4, h5, by decide, h3, ?_⟩
  obtain ⟨u, u1, _, _, u4⟩ := seek_run settlingChip 5 SeekDirection.Up usDevice 2 5
    (by decide) (by decide) (fun _ _ _ => rfl)
    (fun j hj1 hj2 => by
      have hj : j = 1 := by
        have : usDevice.reads = 0 := rfl
        omega
      subst hj
      decide)
    (by decide)
    (fun j hj1 hj2 => by
      have hj : j = 4 := by omega
      subst hj
      exact h4)
    h5 (by decide)
  rw [if_pos h3] at u4
  exact ⟨u, u4, u1⟩

/-! ## Watched calls -/

theorem watch_waitSTCSet_returned (chip : Chip) (fuel : Nat) :
    ∀ s : Si4703_Breakout,
      waitSTCSet chip fuel s
        = match (Watch.waitSTCSet chip fuel s).result with
          | none => none
          | some _ => some (Watch.waitSTCSet chip fuel s).object := by
  induction fuel with
  | zero => intro s; rfl
  | succ m ih =>
    intro s
    rw [waitSTCSet, Watch.waitSTCSet, readRegisters_eq]
    simp only
    split_ifs
    · rfl
    · exact ih _

theorem watch_waitSTCClear_returned (chip : Chip) (fuel : Nat) :
    ∀ s : Si4703_Breakout,
      waitSTCClear chip fuel s
        = match (Watch.waitSTCClear chip fuel s).result with
          | none => none
          | some _ => some (Watch.waitSTCClear chip fuel s).object := by
  induction fuel with
  | zero => intro s; rfl
  | succ m ih =>
    intro s
    rw [waitSTCClear, Watch.waitSTCClear, readRegisters_eq]
    simp only
    split_ifs
    · rfl
    · exact ih _

theorem watch_waitSTCSet_trace (chip : Chip) (fuel : Nat) :
    ∀ s : Si4703_Breakout, ∃ rest, (Watch.waitSTCSet chip fuel s).object.trace = s.trace ++ rest := by
  induction fuel with
  | zero => intro s; exact ⟨[], (List.append_nil _).symm⟩
  | succ m ih =>
    intro s
    rw [Watch.waitSTCSet, readRegisters_eq]
    simp only
    split_ifs
    · exact ⟨_, afterRead_trace chip s⟩
    · obtain ⟨rest, hr⟩ := ih (afterRead chip s)
      exact ⟨_, by rw [hr, afterRead_trace, List.append_assoc]⟩

theorem watch_waitSTCClear_trace (chip : Chip) (fuel : Nat) :
    ∀ s : Si4703_Breakout, ∃ rest, (Watch.waitSTCClear chip fuel s).object.trace = s.trace ++ rest := by
  induction fuel with
  | zero => intro s; exact ⟨[], (List.append_nil _).symm⟩
  | succ m ih =>
    intro s
    rw [Watch.waitSTCClear, readRegisters_eq]
    simp only
    split_ifs
    · exact ⟨_, afterRead_trace chip s⟩
    · obtain ⟨rest, hr⟩ := ih (afterRead chip s)
      exact ⟨_, by rw [hr, afterRead_trace, List.append_assoc]⟩

theorem watch_seek_returned (chip : Chip) (fuel : Nat) (direction : SeekDirection)
    (s : Si4703_Breakout) :
    seek chip fuel direction s = (Watch.seek chip fuel direction s).returned := by
  rw [seek_eq, watch_waitSTCSet_returned]
  unfold Watch.seek
  simp only [readRegisters_eq, updateRegisters_eq_afterWrite]
  rcases h1 : Watch.waitSTCSet chip fuel (afterWrite chip (seekStart direction (afterRead chip s)))
    with ⟨o1, r1⟩
  cases r1 with
  | none => rfl
  | some u1 =>
    simp only [Option.some_bind]
    rw [watch_waitSTCClear_returned]
    rcases h2 : Watch.waitSTCClear chip fuel
        (afterWrite chip (setRegister (afterRead chip o1) POWERCFG
          (clearBits ((afterRead chip o1).registers_ POWERCFG) SEEK)))
      with ⟨o2, r2⟩
    cases r2 with
    | none => rfl
    | some u2 =>
      simp only [Option.some_bind]
      split_ifs
      · rfl
      · cases h3 : getFrequency chip o2 with
        | none => rfl
        | some p => rfl

theorem watch_tuneHandshake_returned (chip : Chip) (fuel channel : Nat) (s : Si4703_Breakout) :
    tuneHandshake chip fuel channel s
      = match (Watch.tuneHandshake chip fuel channel s).result with
        | none => none
        | some _ => some (Watch.tuneHandshake chip fuel channel s).object := by
  rw [tuneHandshake_eq, watch_waitSTCSet_returned]
  unfold Watch.tuneHandshake tuneWord
  simp only [readRegisters_eq, updateRegisters_eq_afterWrite, setRegister_registers,
    Function.update_same, setRegister_twice]
  rcases h1 : Watch.waitSTCSet chip fuel
      (delay 60 (afterWrite chip (setRegister (afterRead chip s) CHANNEL
        ((afterRead chip s).registers_ CHANNEL &&& 0xFE00 ||| channel ||| TUNE))))
    with ⟨o1, r1⟩
  cases r1 with
  | none => rfl
  | some u1 =>
    simp only [Option.some_bind]
    rw [watch_waitSTCClear_returned]

theorem watch_setFrequency_returned (chip : Chip) (fuel : Nat) (f : ℚ) (s : Si4703_Breakout) :
    setFrequency chip fuel f s
      = match (Watch.setFrequency chip fuel f s).result with
        | none => none
        | some _ => some (Watch.setFrequency chip fuel f s).object := by
  unfold setFrequency Watch.setFrequency
  cases hm : minFrequency s with
  | none => rfl
  | some m =>
    cases hc : frequencyToChannel s f with
    | none => rfl
    | some c =>
      simp only
      split_ifs
      · rfl
      · exact watch_tuneHandshake_returned chip fuel c s

theorem watch_waitSTCSet_polls (chip : Chip) (fuel : Nat) (s : Si4703_Breakout) :
    ∃ rest, (Watch.waitSTCSet chip fuel s).object.trace = s.trace ++ rest ∧
      (0 < fuel → ∃ rest1, rest = BusEvent.busRead (chip.busRead s.reads).count :: rest1) := by
  cases fuel with
  | zero => exact ⟨[], (List.append_nil _).symm, fun h => absurd h (lt_irrefl _)⟩
  | succ m =>
    rw [Watch.waitSTCSet, readRegisters_eq]
    simp only
    split_ifs
    · exact ⟨_, afterRead_trace chip s, fun _ => ⟨[], rfl⟩⟩
    · obtain ⟨rest, hr⟩ := watch_waitSTCSet_trace chip m (afterRead chip s)
      exact ⟨_, by rw [hr, afterRead_trace, List.append_assoc]; rfl, fun _ => ⟨rest, rfl⟩⟩

theorem watch_seek_after (chip : Chip) (fuel : Nat) (direction : SeekDirection)
    (s : Si4703_Breakout) :
    ∃ more, (Watch.seek chip fuel direction s).object.trace
      = (Watch.waitSTCSet chip fuel
          (afterWrite chip (seekStart direction (afterRead chip s)))).object.trace ++ more := by
  unfold Watch.seek
  simp only [readRegisters_eq, updateRegisters_eq_afterWrite]
  rcases h1 : Watch.waitSTCSet chip fuel (afterWrite chip (seekStart direction (afterRead chip s)))
    with ⟨o1, r1⟩
  cases r1 with
  | none => exact ⟨[], (List.append_nil _).symm⟩
  | some u1 =>
    simp only
    obtain ⟨rest2, e2⟩ := watch_waitSTCClear_trace chip fuel
      (afterWrite chip (setRegister (afterRead chip o1) POWERCFG
        (clearBits ((afterRead chip o1).registers_ POWERCFG) SEEK)))
    rcases h2 : Watch.waitSTCClear chip fuel
        (afterWrite chip (setRegister (afterRead chip o1) POWERCFG
          (clearBits ((afterRead chip o1).registers_ POWERCFG) SEEK)))
      with ⟨o2, r2⟩
    rw [h2] at e2
    simp only [afterWrite_trace, setRegister_trace, afterRead_trace] at e2
    cases r2 with
    | none => exact ⟨_, by simp only; rw [e2, List.append_assoc, List.append_assoc]⟩
    | some u2 =>
      simp only
      split_ifs
      · exact ⟨_, by simp only; rw [e2, List.append_assoc, List.append_assoc]⟩
      · rw [getFrequency_eq]
        cases channelToFrequency o2 ((afterRead chip o2).registers_ READCHAN &&& 0x03FF) with
        | none =>
          exact ⟨_, by
            simp only [Option.none_bind]
            rw [e2, List.append_assoc, List.append_assoc]⟩
        | some f =>
          exact ⟨_, by
            simp only [Option.some_bind, afterRead_trace]
            rw [e2, List.append_assoc, List.append_assoc, List.append_assoc]⟩

theorem watch_seek_trace (chip : Chip) (fuel : Nat) (direction : SeekDirection)
    (s : Si4703_Breakout) :
    ∃ rest, (Watch.seek chip fuel direction s).object.trace
      = s.trace ++ [BusEvent.busRead (chip.busRead s.reads).count,
          BusEvent.busWrite
            (controlPayload (Function.update (afterRead chip s).registers_ POWERCFG
              (seekWord direction ((afterRead chip s).registers_ POWERCFG))))
            (chip.busWrite s.writes)] ++ rest ∧
      (0 < fuel → ∃ rest1, rest = BusEvent.busRead (chip.busRead (s.reads + 1)).count :: rest1) := by
  obtain ⟨more, hmore⟩ := watch_seek_after chip fuel direction s
  obtain ⟨rest, hrest, hpoll⟩ := watch_waitSTCSet_polls chip fuel
    (afterWrite chip (seekStart direction (afterRead chip s)))
  refine ⟨rest ++ more, ?_, fun hf => ?_⟩
  · rw [hmore, hrest]
    simp only [afterWrite_trace, seekStart_eq, setRegister_trace, afterRead_trace,
      setRegister_registers, afterWrite_writes, setRegister_writes, afterRead_writes]
    simp [List.append_assoc]
  · obtain ⟨rest1, h1⟩ := hpoll hf
    refine ⟨rest1 ++ more, ?_⟩
    rw [h1]
    simp

theorem watch_tuneHandshake_after (chip : Chip) (fuel channel : Nat) (s : Si4703_Breakout) :
    ∃ more, (Watch.tuneHandshake chip fuel channel s).object.trace
      = (Watch.waitSTCSet chip fuel
          (delay 60 (afterWrite chip (setRegister (afterRead chip s) CHANNEL
            (tuneWord channel ((afterRead chip s).registers_ CHANNEL)))))).object.trace
        ++ more := by
  unfold Watch.tuneHandshake tuneWord
  simp only [readRegisters_eq, updateRegisters_eq_afterWrite, setRegister_registers,
    Function.update_same, setRegister_twice]
  rcases h1 : Watch.waitSTCSet chip fuel
      (delay 60 (afterWrite chip (setRegister (afterRead chip s) CHANNEL
        ((afterRead chip s).registers_ CHANNEL &&& 0xFE00 ||| channel ||| TUNE))))
    with ⟨o1, r1⟩
  cases r1 with
  | none => exact ⟨[], (List.append_nil _).symm⟩
  | some u1 =>
    simp only
    obtain ⟨rest2, e2⟩ := watch_waitSTCClear_trace chip fuel
      (afterWrite chip (setRegister (afterRead chip o1) CHANNEL
        (clearBits ((afterRead chip o1).registers_ CHANNEL) TUNE)))
    simp only [afterWrite_trace, setRegister_trace, afterRead_trace] at e2
    exact ⟨_, by rw [e2, List.append_assoc, List.append_assoc]⟩

theorem watch_tuneHandshake_trace (chip : Chip) (fuel channel : Nat) (s : Si4703_Breakout) :
    ∃ rest, (Watch.tuneHandshake chip fuel channel s).object.trace
      = s.trace ++ [BusEvent.busRead (chip.busRead s.reads).count,
          BusEvent.busWrite
            (controlPayload (Function.update (afterRead chip s).registers_ CHANNEL
              (tuneWord channel ((afterRead chip s).registers_ CHANNEL))))
            (chip.busWrite s.writes)] ++ rest ∧
      (0 < fuel → ∃ rest1, rest = BusEvent.busRead (chip.busRead (s.reads + 1)).count :: rest1) := by
  obtain ⟨more, hmore⟩ := watch_tuneHandshake_after chip fuel channel s
  obtain ⟨rest, hrest, hpoll⟩ := watch_waitSTCSet_polls chip fuel
    (delay 60 (afterWrite chip (setRegister (afterRead chip s) CHANNEL
      (tuneWord channel ((afterRead chip s).registers_ CHANNEL)))))
  refine ⟨rest ++ more, ?_, fun hf => ?_⟩
  · rw [hmore, hrest]
    simp only [afterWrite_trace, delay_trace, setRegister_trace, afterRead_trace,
      setRegister_registers, afterWrite_writes, setRegister_writes, afterRead_writes]
    simp [List.append_assoc]
  · obtain ⟨rest1, h1⟩ := hpoll hf
    refine ⟨rest1 ++ more, ?_⟩
    rw [h1]
    simp

theorem watch_setFrequency_eq (chip : Chip) (fuel : Nat) (f m : ℚ) (c : Nat)
    (s : Si4703_Breakout) (hm : minFrequency s = some m)
    (hc : frequencyToChannel s f = some c)
    (hgrid : |(f - m) / channelSpacing s - (c : ℚ)| < 0.02) :
    Watch.setFrequency chip fuel f s = Watch.tuneHandshake chip fuel c s := by
  unfold Watch.setFrequency
  rw [hm, hc]
  simp only
  rw [if_neg]
  unfold FloatsEqual
  simp only [Bool.not_eq_true', decide_eq_false_iff_not, not_not]
  exact hgrid

theorem watched_returned_iff {α : Type} (w : Watched α) (o : Option (α × Si4703_Breakout))
    (h : o = w.returned) (r : α) (s' : Si4703_Breakout) :
    o = some (r, s') ↔ w.result = some r ∧ w.object = s' := by
  subst h
  unfold Watched.returned
  cases hr : w.result with
  | none => simp
  | some a => simp

theorem watched_unit_iff (w : Watched Unit) (o : Option Si4703_Breakout)
    (h : o = match w.result with
      | none => none
      | some _ => some w.object) (s' : Si4703_Breakout) :
    o = some s' ↔ w.result = some () ∧ w.object = s' := by
  subst h
  cases hr : w.result with
  | none => simp
  | some a => simp

/-! ## The control write that starts a seek -/

theorem waitSTCSet_trace_ext (chip : Chip) (fuel : Nat) :
    ∀ s s2 : Si4703_Breakout, waitSTCSet chip fuel s = some s2 →
      ∃ rest, s2.trace = s.trace ++ rest := by
  induction fuel with
  | zero => intro s s2 h; simp [waitSTCSet] at h
  | succ m ih =>
    intro s s2 h
    rw [waitSTCSet, readRegisters_eq] at h
    simp only at h
    split_ifs at h
    · cases h; exact ⟨_, afterRead_trace chip s⟩
    · obtain ⟨rest, hr⟩ := ih _ _ h
      exact ⟨_, by rw [hr, afterRead_trace, List.append_assoc]⟩

theorem waitSTCClear_trace_ext (chip : Chip) (fuel : Nat) :
    ∀ s s2 : Si4703_Breakout, waitSTCClear chip fuel s = some s2 →
      ∃ rest, s2.trace = s.trace ++ rest := by
  induction fuel with
  | zero => intro s s2 h; simp [waitSTCClear] at h
  | succ m ih =>
    intro s s2 h
    rw [waitSTCClear, readRegisters_eq] at h
    simp only at h
    split_ifs at h
    · cases h; exact ⟨_, afterRead_trace chip s⟩
    · obtain ⟨rest, hr⟩ := ih _ _ h
      exact ⟨_, by rw [hr, afterRead_trace, List.append_assoc]⟩

theorem seek_trace_ext (chip : Chip) (fuel : Nat) (direction : SeekDirection)
    (s : Si4703_Breakout) (r : ℚ) (s' : Si4703_Breakout)
    (hrun : seek chip fuel direction s = some (r, s')) :
    ∃ rest, s'.trace
      = s.trace ++ [BusEvent.busRead (chip.busRead s.reads).count,
          BusEvent.busWrite
            (controlPayload (Function.update (afterRead chip s).registers_ POWERCFG
              (seekWord direction ((afterRead chip s).registers_ POWERCFG))))
            (chip.busWrite s.writes)] ++ rest := by
  rw [seek_eq, Option.bind_eq_some] at hrun
  obtain ⟨s2, h2, hrest⟩ := hrun
  rw [Option.bind_eq_some] at hrest
  obtain ⟨s3, h3, hfin⟩ := hrest
  obtain ⟨r1, e1⟩ := waitSTCSet_trace_ext chip fuel _ _ h2
  obtain ⟨r2, e2⟩ := waitSTCClear_trace_ext chip fuel _ _ h3
  simp only [afterWrite_trace, setRegister_trace, afterRead_trace, seekStart_eq,
    setRegister_registers, afterWrite_writes, setRegister_writes, afterRead_writes] at e1 e2
  have e3 : ∃ r3, s'.trace = s3.trace ++ r3 := by
    split_ifs at hfin
    · cases hfin; exact ⟨[], (List.append_nil _).symm⟩
    · rw [getFrequency_eq, Option.bind_eq_some] at hfin
      obtain ⟨fr, _, hres⟩ := hfin
      cases hres
      exact ⟨_, afterRead_trace chip s3⟩
  obtain ⟨r3, e3⟩ := e3
  refine ⟨r1 ++ ([BusEvent.busRead (chip.busRead s2.reads).count] ++
    [BusEvent.busWrite
      (controlPayload (Function.update (afterRead chip s2).registers_ POWERCFG
        (clearBits ((afterRead chip s2).registers_ POWERCFG) SEEK)))
      (chip.busWrite s2.writes)] ++ r2 ++ r3), ?_⟩
  rw [e3, e2, e1]
  simp [List.append_assoc]

theorem waitSTCSet_silentChip (fuel : Nat) :
    ∀ s : Si4703_Breakout, waitSTCSet silentChip fuel s = none := by
  induction fuel with
  | zero => intro s; rfl
  | succ m ih =>
    intro s
    rw [waitSTCSet, readRegisters_eq]
    simp only
    have hr : (afterRead silentChip s).registers_ STATUSRSSI &&& STC = 0 := by
      rw [afterRead_registers_ok silentChip s rfl]
      exact (by decide :
        regOfWire (wireOf (registerImage 0x4201 0 0 0 0 0)) STATUSRSSI &&& STC = 0)
    rw [if_neg (by rw [hr]; exact fun h => h rfl)]
    exact ih _

theorem seek_silentChip (fuel : Nat) (direction : SeekDirection) (s : Si4703_Breakout) :
    seek silentChip fuel direction s = none := by
  rw [seek_eq, waitSTCSet_silentChip]
  rfl

/-- C18: for either direction, every register content delivered by the
initial read, and every bound on the number of polls watched (so also for a
seek that never returns because the chip never raises STC): the first bus
transaction of `seek` after its initial register read is a control write
whose POWERCFG word has SKMODE set, SEEK set, SEEKUP set for `Up` (`seekUp`)
and cleared for `Down` (`seekDown`) whatever SEEKUP was before, and agrees
with the value just read in every other bit (mask 0xF8FF).  A seek that
returns has returned the result and the object of the watched call. -/
theorem seek_start_powercfg (chip : Chip) (fuel : Nat) (direction : SeekDirection)
    (s : Si4703_Breakout) (hread : (chip.busRead s.reads).count = 32) :
    (∃ P rest,
      (Watch.seek chip fuel direction s).object.trace
        = s.trace ++ [BusEvent.busRead 32, BusEvent.busWrite P (chip.busWrite s.writes)]
            ++ rest ∧
      payloadWord P 0 &&& SKMODE = SKMODE ∧
      payloadWord P 0 &&& SEEK = SEEK ∧
      (direction = SeekDirection.Up → payloadWord P 0 &&& SEEKUP = SEEKUP) ∧
      (direction = SeekDirection.Down → payloadWord P 0 &&& SEEKUP = 0) ∧
      payloadWord P 0 &&& 0xF8FF
        = regOfWire (chip.busRead s.reads).data POWERCFG &&& 0xF8FF) ∧
    Watch.seekUp chip fuel s = Watch.seek chip fuel SeekDirection.Up s ∧
    Watch.seekDown chip fuel s = Watch.seek chip fuel SeekDirection.Down s ∧
    seekUp chip fuel s = seek chip fuel SeekDirection.Up s ∧
    seekDown chip fuel s = seek chip fuel SeekDirection.Down s ∧
    (∀ (r : ℚ) (s' : Si4703_Breakout),
      seek chip fuel direction s = some (r, s') ↔
        (Watch.seek chip fuel direction s).result = some r ∧
        (Watch.seek chip fuel direction s).object = s') := by
  obtain ⟨b1, b2, b3, b4, b5⟩ :=
    seekWord_bits direction (regOfWire (chip.busRead s.reads).data POWERCFG)
  obtain ⟨rest, hrest, _⟩ := watch_seek_trace chip fuel direction s
  rw [afterRead_registers_ok chip s hread, hread] at hrest
  have hw : payloadWord
      (controlPayload (Function.update (regOfWire (chip.busRead s.reads).data) POWERCFG
        (seekWord direction (regOfWire (chip.busRead s.reads).data POWERCFG)))) 0
      = seekWord direction (regOfWire (chip.busRead s.reads).data POWERCFG) := by
    rw [(payloadWord_controlPayload _ (update_lt _ _ _ (regOfWire_lt _)
      (seekWord_lt _ _ (regOfWire_lt _ _)))).1]
    exact Function.update_same _ _ _
  refine ⟨⟨_, rest, hrest, ?_, ?_, ?_, ?_, ?_⟩, rfl, rfl, rfl, rfl, fun r s' =>
    watched_returned_iff _ _ (watch_seek_returned chip fuel direction s) r s'⟩
  · rw [hw]; exact b1
  · rw [hw]; exact b2
  · rw [hw]; exact b3
  · rw [hw]; exact b4
  · rw [hw]; exact b5

/-- Witness for C18: `seekDown` on the US device with the silent chip, whose
reads show POWERCFG = 0x4201 (SEEKUP set) and which never raises STC, so that
`seek` does not return whatever the fuel.  Watched for three polls the call
has issued the control write with POWERCFG = 0x4501 right after its first
read, and then polled three times. -/
theorem seek_start_powercfg_witness :
    (silentChip.busRead usDevice.reads).count = 32 ∧
    (∀ fuel, seek silentChip fuel SeekDirection.Down usDevice = none) ∧
    (Watch.seek silentChip 3 SeekDirection.Down usDevice).result = none ∧
    (Watch.seek silentChip 3 SeekDirection.Down usDevice).object.trace
      = [BusEvent.busRead 32,
         BusEvent.busWrite [0x45, 0x01, 0, 0, 0, 0, 0, 0, 0, 0, 0, 0] 12,
         BusEvent.busRead 32, BusEvent.busRead 32, BusEvent.busRead 32] ∧
    ∃ P rest,
      (Watch.seek silentChip 3 SeekDirection.Down usDevice).object.trace
        = usDevice.trace ++ [BusEvent.busRead 32,
            BusEvent.busWrite P (silentChip.busWrite usDevice.writes)] ++ rest ∧
      payloadWord P 0 &&& SKMODE = SKMODE ∧
      payloadWord P 0 &&& SEEK = SEEK ∧
      payloadWord P 0 &&& SEEKUP = 0 ∧
      payloadWord P 0 &&& 0xF8FF = 0x4001 := by
  have e : regOfWire (silentChip.busRead usDevice.reads).data POWERCFG &&& 0xF8FF
      = 0x4001 := by decide
  obtain ⟨P, rest, p1, p2, p3, _, p5, p6⟩ :=
    (seek_start_powercfg silentChip 3 SeekDirection.Down usDevice rfl).1
  exact ⟨rfl, fun fuel => seek_silentChip fuel SeekDirection.Down usDevice, by decide, by decide, P, rest, p1, p2, p3, p5 rfl,
    by rw [p6, e]⟩

/-! ## Failed bus reads -/

theorem afterRead_registers_short (chip : Chip) (s : Si4703_Breakout)
    (h : (chip.busRead s.reads).count ≠ 32) :
    (afterRead chip s).registers_ = s.registers_ := by
  simp [afterRead, h]

theorem tuneHandshake_trace_ext (chip : Chip) (fuel channel : Nat)
    (s s' : Si4703_Breakout) (hrun : tuneHandshake chip fuel channel s = some s') :
    ∃ rest, s'.trace
      = s.trace ++ [BusEvent.busRead (chip.busRead s.reads).count,
          BusEvent.busWrite
            (controlPayload (Function.update (afterRead chip s).registers_ CHANNEL
              (tuneWord channel ((afterRead chip s).registers_ CHANNEL))))
            (chip.busWrite s.writes)] ++ rest := by
  rw [tuneHandshake_eq, Option.bind_eq_some] at hrun
  obtain ⟨s2, h2, h3⟩ := hrun
  obtain ⟨r1, e1⟩ := waitSTCSet_trace_ext chip fuel _ _ h2
  obtain ⟨r2, e2⟩ := waitSTCClear_trace_ext chip fuel _ _ h3
  simp only [afterWrite_trace, setRegister_trace, afterRead_trace, delay_trace,
    setRegister_registers, afterWrite_writes, setRegister_writes, afterRead_writes] at e1 e2
  refine ⟨r1 ++ ([BusEvent.busRead (chip.busRead s2.reads).count] ++
    [BusEvent.busWrite
      (controlPayload (Function.update (afterRead chip s2).registers_ CHANNEL
        (clearBits ((afterRead chip s2).registers_ CHANNEL) TUNE)))
      (chip.busWrite s2.writes)] ++ r2), ?_⟩
  rw [e2, e1]
  simp [List.append_assoc]

theorem waitSTCSet_deafChip (fuel : Nat) :
    ∀ s : Si4703_Breakout, 1 ≤ s.reads → waitSTCSet deafChip fuel s = none := by
  induction fuel with
  | zero => intro s _; rfl
  | succ m ih =>
    intro s hs
    have hc : (deafChip.busRead s.reads).count = 32 := by
      have h0 : s.reads ≠ 0 := by omega
      simp [deafChip, h0]
    rw [waitSTCSet, readRegisters_eq]
    simp only
    have hr : (afterRead deafChip s).registers_ STATUSRSSI &&& STC = 0 := by
      rw [afterRead_registers_ok deafChip s hc]
      exact (by decide :
        regOfWire (wireOf (registerImage 0x4001 0 0 0 0 0)) STATUSRSSI &&& STC = 0)
    rw [if_neg (by rw [hr]; exact fun h => h rfl)]
    exact ih _ (by rw [afterRead_reads]; omega)

theorem seek_deafChip (fuel : Nat) (direction : SeekDirection) (s : Si4703_Breakout) :
    seek deafChip fuel direction s = none := by
  rw [seek_eq, waitSTCSet_deafChip fuel _ (by simp)]
  rfl

/-- C14 (as amended): if the initial register read of setVolume, powerOff,
setFrequency (on an on-grid frequency) or seek returns other than 32 bytes,
`readRegisters` returns FAIL and leaves the image as it was, but the operation
does not look at that result: the failure is neither fatal nor surfaced.  The
operation makes its changes on the stale image and issues its control write
as the next bus transaction; setVolume and powerOff then return, setFrequency
and seek go on to poll.  For setFrequency and seek this holds for every bound
on the number of polls watched, whether or not the call returns; a call that
returns has returned the object of the watched call.  For setFrequency it is
shown for the handshake that follows a passed grid check, with any channel
code, and for the whole call on a frequency that passes the grid check. -/
theorem failed_read_is_not_fatal (chip : Chip) (s : Si4703_Breakout)
    (hfail : (chip.busRead s.reads).count ≠ 32) :
    (∃ s1, readRegisters chip s = some (FAIL, s1) ∧ s1.registers_ = s.registers_) ∧
    (∀ volume : Int, ∃ s', setVolume chip volume s = some s' ∧
      s'.trace = s.trace ++ [BusEvent.busRead (chip.busRead s.reads).count,
        BusEvent.busWrite
          (controlPayload (Function.update s.registers_ SYSCONFIG2
            (((s.registers_ SYSCONFIG2 &&& 0xFFF0) ||| (max 0 (min volume 15)).toNat) % 65536)))
          (chip.busWrite s.writes)]) ∧
    (∃ s', powerOff chip s = some s' ∧
      s'.trace = s.trace ++ [BusEvent.busRead (chip.busRead s.reads).count,
        BusEvent.busWrite (controlPayload (Function.update s.registers_ POWERCFG 0x0000))
          (chip.busWrite s.writes)]) ∧
    (∀ (fuel c : Nat),
      ∃ rest, (Watch.tuneHandshake chip fuel c s).object.trace
          = s.trace ++ [BusEvent.busRead (chip.busRead s.reads).count,
              BusEvent.busWrite
                (controlPayload (Function.update s.registers_ CHANNEL
                  (tuneWord c (s.registers_ CHANNEL))))
                (chip.busWrite s.writes)] ++ rest ∧
        (0 < fuel →
          ∃ rest1, rest = BusEvent.busRead (chip.busRead (s.reads + 1)).count :: rest1)) ∧
    (∀ (fuel : Nat) (f m : ℚ) (c : Nat),
      minFrequency s = some m → frequencyToChannel s f = some c →
      |(f - m) / channelSpacing s - (c : ℚ)| < 0.02 →
      (∃ rest, (Watch.setFrequency chip fuel f s).object.trace
          = s.trace ++ [BusEvent.busRead (chip.busRead s.reads).count,
              BusEvent.busWrite
                (controlPayload (Function.update s.registers_ CHANNEL
                  (tuneWord c (s.registers_ CHANNEL))))
                (chip.busWrite s.writes)] ++ rest ∧
        (0 < fuel →
          ∃ rest1, rest = BusEvent.busRead (chip.busRead (s.reads + 1)).count :: rest1)) ∧
      (∀ s' : Si4703_Breakout, setFrequency chip fuel f s = some s' ↔
        (Watch.setFrequency chip fuel f s).result = some () ∧
        (Watch.setFrequency chip fuel f s).object = s')) ∧
    (∀ (fuel : Nat) (direction : SeekDirection),
      (∃ rest, (Watch.seek chip fuel direction s).object.trace
          = s.trace ++ [BusEvent.busRead (chip.busRead s.reads).count,
              BusEvent.busWrite
                (controlPayload (Function.update s.registers_ POWERCFG
                  (seekWord direction (s.registers_ POWERCFG))))
                (chip.busWrite s.writes)] ++ rest ∧
        (0 < fuel →
          ∃ rest1, rest = BusEvent.busRead (chip.busRead (s.reads + 1)).count :: rest1)) ∧
      (∀ (r : ℚ) (s' : Si4703_Breakout), seek chip fuel direction s = some (r, s') ↔
        (Watch.seek chip fuel direction s).result = some r ∧
        (Watch.seek chip fuel direction s).object = s')) := by
  have hst := afterRead_registers_short chip s hfail
  refine ⟨⟨_, readRegisters_short chip s hfail, rfl⟩, fun volume => ?_, ?_, ?_, ?_, ?_⟩
  · refine ⟨_, setVolume_eq chip volume s, ?_⟩
    simp [hst, Function.update_idem]
  · refine ⟨_, powerOff_eq chip s, ?_⟩
    simp [hst]
  · intro fuel c
    obtain ⟨rest, hrest, hpoll⟩ := watch_tuneHandshake_trace chip fuel c s
    rw [hst] at hrest
    exact ⟨rest, hrest, hpoll⟩
  · intro fuel f m c hm hc hgrid
    refine ⟨?_, fun s' =>
      watched_unit_iff _ _ (watch_setFrequency_returned chip fuel f s) s'⟩
    rw [watch_setFrequency_eq chip fuel f m c s hm hc hgrid]
    obtain ⟨rest, hrest, hpoll⟩ := watch_tuneHandshake_trace chip fuel c s
    rw [hst] at hrest
    exact ⟨rest, hrest, hpoll⟩
  · intro fuel direction
    refine ⟨?_, fun r s' =>
      watched_returned_iff _ _ (watch_seek_returned chip fuel direction s) r s'⟩
    obtain ⟨rest, hrest, hpoll⟩ := watch_seek_trace chip fuel direction s
    rw [hst] at hrest
    exact ⟨rest, hrest, hpoll⟩

/-- Witness for C14 (as amended): the first read of the deaf chip returns 31
bytes and the chip never raises STC, so that `seekUp` on the US device does
not return whatever the fuel.  `setVolume` writes SYSCONFIG2 from the stale
image; `seekUp`, watched for two polls, has written POWERCFG = 0x1702 from the
stale image right after the failed read and then polled twice; `setFrequency`
for 101.1 MHz has written CHANNEL = 0x9244 in the same way. -/
theorem failed_read_is_not_fatal_witness :
    (deafChip.busRead usDevice.reads).count ≠ 32 ∧
    (∃ s', setVolume deafChip 9 usDevice = some s' ∧
      s'.trace = usDevice.trace ++ [BusEvent.busRead 31,
        BusEvent.busWrite [0x12, 0x02, 0x12, 0x03, 0x12, 0x04, 0x12, 0x09, 0x12, 0x06,
          0x12, 0x07] 12]) ∧
    (∀ fuel, seek deafChip fuel SeekDirection.Up usDevice = none) ∧
    (Watch.seek deafChip 2 SeekDirection.Up usDevice).result = none ∧
    (∃ rest, (Watch.seek deafChip 2 SeekDirection.Up usDevice).object.trace
      = usDevice.trace ++ [BusEvent.busRead 31,
          BusEvent.busWrite [0x17, 0x02, 0x12, 0x03, 0x12, 0x04, 0x12, 0x05, 0x12, 0x06,
            0x12, 0x07] 12] ++ rest ∧
        ∃ rest1, rest = BusEvent.busRead 32 :: rest1) ∧
    (∃ rest, (Watch.setFrequency deafChip 2 101.1 usDevice).object.trace
      = usDevice.trace ++ [BusEvent.busRead 31,
          BusEvent.busWrite [0x12, 0x02, 0x92, 0x44, 0x12, 0x04, 0x12, 0x05, 0x12, 0x06,
            0x12, 0x07] 12] ++ rest ∧
        ∃ rest1, rest = BusEvent.busRead 32 :: rest1) := by
  have hfail : (deafChip.busRead usDevice.reads).count ≠ 32 := by decide
  obtain ⟨_, hvol, _, _, hfreq, hseek⟩ := failed_read_is_not_fatal deafChip usDevice hfail
  obtain ⟨s1, v1, v2⟩ := hvol 9
  obtain ⟨⟨rest, hrest, hpoll⟩, _⟩ := hseek 2 SeekDirection.Up
  have hc : frequencyToChannel usDevice 101.1 = some 68 := by
    have h := frequencyToChannel_on_grid usDevice 87.5 68 rfl (by norm_num)
    have e : channelSpacing usDevice * ((68 : ℕ) : ℚ) + 87.5 = 101.1 := by
      rw [show channelSpacing usDevice = 0.2 from rfl]; norm_num
    rw [e] at h
    exact h
  have hgrid : |((101.1 : ℚ) - 87.5) / channelSpacing usDevice - ((68 : ℕ) : ℚ)| < 0.02 := by
    rw [show channelSpacing usDevice = 0.2 from rfl]
    norm_num
  obtain ⟨⟨restf, hrestf, hpollf⟩, _⟩ := hfreq 2 101.1 87.5 68 rfl hc hgrid
  refine ⟨hfail, ⟨s1, v1, ?_⟩, fun fuel => seek_deafChip fuel SeekDirection.Up usDevice,
    by decide, ⟨rest, ?_, hpoll (by decide)⟩, ⟨restf, ?_, hpollf (by decide)⟩⟩
  · rw [v2]; decide
  · rw [hrest]
    have e : controlPayload (Function.update usDevice.registers_ POWERCFG
        (seekWord SeekDirection.Up (usDevice.registers_ POWERCFG)))
        = [0x17, 0x02, 0x12, 0x03, 0x12, 0x04, 0x12, 0x05, 0x12, 0x06, 0x12, 0x07] := by
      decide
    rw [e]
    rfl
  · rw [hrestf]
    have e : controlPayload (Function.update usDevice.registers_ CHANNEL
        (tuneWord 68 (usDevice.registers_ CHANNEL)))
        = [0x12, 0x02, 0x92, 0x44, 0x12, 0x04, 0x12, 0x05, 0x12, 0x06, 0x12, 0x07] := by
      decide
    rw [e]
    rfl

/-- Counterexample to C14 as stated: the initial read of `setVolume` on the
short-read chip returns 31 bytes, and the operation nevertheless issues its
control write, built from the stale register image. -/
theorem failed_read_is_followed_by_write :
    (shortReadChip.busRead usDevice.reads).count = 31 ∧
    (setVolume shortReadChip 9 usDevice).map (fun s' => s'.trace)
      = some [BusEvent.busRead 31,
          BusEvent.busWrite [0x12, 0x02, 0x12, 0x03, 0x12, 0x04, 0x12, 0x09, 0x12, 0x06,
            0x12, 0x07] 12] := by
  decide

/-! ## Termination of `readRDS` -/

theorem readRDSBody_time (chip : Chip) (c c' : Nat → Bool) (n n' : Nat)
    (b b' : Nat → Nat) (s s' : Si4703_Breakout)
    (h : readRDSBody chip c n b s = some (c', n', b', s')) :
    s'.reads = s.reads + 1 ∧ s'.clock = s.clock ∧ s.pending + 30 ≤ s'.pending := by
  rw [readRDSBody_eq] at h
  split_ifs at h <;> cases h <;> simp [delay, afterRead]

theorem readRDSLoop_bounded (chip : Chip) (endTime : Int)
    (hclock : ∀ k d, d ≤ chip.elapsed k d) (fuel : Nat) :
    ∀ (m : Nat) (c : Nat → Bool) (n : Nat) (b : Nat → Nat) (s : Si4703_Breakout),
      endTime ≤ ((s.clock + s.pending : ℕ) : ℤ) + 30 * (m : ℤ) → m < fuel →
      ∃ c' n' b' s', readRDSLoop chip endTime fuel c n b s = some (c', n', b', s') ∧
        s.reads ≤ s'.reads ∧ s'.reads ≤ s.reads + m := by
  induction fuel with
  | zero => intro m c n b s _ hf; omega
  | succ k ih =>
    intro m c n b s hbound hf
    rw [readRDSLoop]
    have hnow : s.clock + s.pending ≤ (millis chip s).1 := by
      have := hclock s.clockReads s.pending
      simp only [millis]
      omega
    by_cases h4 : n < 4
    · rw [if_pos h4]
      by_cases ht : ((millis chip s).1 : Int) < endTime
      · rw [if_pos ht]
        have hm : 0 < m := by
          by_contra hcon
          have : m = 0 := by omega
          subst this
          push_cast at hbound
          omega
        cases hb : readRDSBody chip c n b (millis chip s).2 with
        | none => rw [readRDSBody_eq] at hb; cases hb
        | some res =>
          obtain ⟨c1, n1, b1, s1⟩ := res
          simp only
          obtain ⟨t1, t2, t3⟩ := readRDSBody_time chip c c1 n n1 b b1 _ s1 hb
          simp only [millis_reads, millis_clock] at t1 t2
          have hp : (millis chip s).2.pending = 0 := rfl
          rw [hp] at t3
          obtain ⟨c', n', b', s', r1, r2, r3⟩ := ih (m - 1) c1 n1 b1 s1 (by
            rw [t2]
            push_cast at hbound ⊢
            omega) (by omega)
          exact ⟨c', n', b', s', r1, by omega, by omega⟩
      · rw [if_neg ht]
        exact ⟨_, _, _, _, rfl, by simp, by simp⟩
    · rw [if_neg h4]
      exact ⟨_, _, _, _, rfl, le_refl _, by omega⟩

theorem timeout_le_ceil (timeout : Int) :
    timeout ≤ 30 * ((⌈(timeout : ℚ) / 30⌉.toNat : ℕ) : ℤ) := by
  have h1 : (timeout : ℚ) / 30 ≤ (⌈(timeout : ℚ) / 30⌉ : ℚ) := Int.le_ceil _
  have h2 : ⌈(timeout : ℚ) / 30⌉ ≤ ((⌈(timeout : ℚ) / 30⌉.toNat : ℕ) : ℤ) := Int.self_le_toNat _
  have h3 : ((⌈(timeout : ℚ) / 30⌉ : ℤ) : ℚ) ≤ (((⌈(timeout : ℚ) / 30⌉.toNat : ℕ) : ℤ) : ℚ) := by
    exact_mod_cast h2
  have h4 : (timeout : ℚ) ≤ 30 * (((⌈(timeout : ℚ) / 30⌉.toNat : ℕ) : ℤ) : ℚ) := by
    have : (timeout : ℚ) / 30 ≤ (((⌈(timeout : ℚ) / 30⌉.toNat : ℕ) : ℤ) : ℚ) := le_trans h1 h3
    linarith
  exact_mod_cast h4

/-- C19: on a clock on which every `delay(n)` advances `millis()` by at least
n (and which never runs backwards), `readRDS` returns for every chip
behaviour as soon as the fuel exceeds ceil(timeout / 30): for timeout <= 0 it
performs no register read, and for timeout > 0 it performs at most
ceil(timeout / 30) register reads. -/
theorem readRDS_terminates_within_deadline (chip : Chip) (fuel : Nat) (buffer : Nat → Nat)
    (timeout : Int) (s : Si4703_Breakout)
    (hclock : ∀ k d, d ≤ chip.elapsed k d)
    (hfuel : ⌈(timeout : ℚ) / 30⌉.toNat < fuel) :
    ∃ out s', readRDS chip fuel buffer timeout s = some (out, s') ∧
      s.reads ≤ s'.reads ∧
      (timeout ≤ 0 → s'.reads = s.reads) ∧
      (0 < timeout → ((s'.reads - s.reads : ℕ) : ℤ) ≤ ⌈(timeout : ℚ) / 30⌉) := by
  obtain ⟨c', n', b', s1, hloop, r1, r2⟩ :=
    readRDSLoop_bounded chip (((millis chip s).1 : Int) + timeout) hclock fuel
      ⌈(timeout : ℚ) / 30⌉.toNat (fun _ => false) 0 buffer (millis chip s).2 (by
        have := timeout_le_ceil timeout
        have hp : (millis chip s).2.pending = 0 := rfl
        rw [hp, millis_clock]
        push_cast
        omega) hfuel
  simp only [millis_reads] at r1 r2
  have hres := readRDS_of_loop chip fuel buffer timeout s c' n' b' s1 hloop
  have hfin : ∃ out, readRDS chip fuel buffer timeout s = some (out, (millis chip s1).2) := by
    rw [hres]
    split_ifs
    · exact ⟨_, rfl⟩
    · exact ⟨_, rfl⟩
  obtain ⟨out, hout⟩ := hfin
  refine ⟨out, _, hout, by simpa using r1, fun hle => ?_, fun hpos => ?_⟩
  · have hc : ⌈(timeout : ℚ) / 30⌉ ≤ 0 := by
      rw [Int.ceil_le]
      have : (timeout : ℚ) ≤ 0 := by exact_mod_cast hle
      simp only [Int.cast_zero]
      linarith
    have : ⌈(timeout : ℚ) / 30⌉.toNat = 0 := by omega
    simp only [millis_reads]
    omega
  · have hc : 0 ≤ ⌈(timeout : ℚ) / 30⌉ := by
      apply Int.ceil_nonneg
      have : (0 : ℚ) < (timeout : ℚ) := by exact_mod_cast hpos
      positivity
    simp only [millis_reads]
    have := Int.toNat_of_nonneg hc
    omega

/-- Witness for C19: the four-pair chip, whose clock advances exactly by the
requested delays, with a timeout of 100 ms and fuel 5. -/
theorem readRDS_terminates_within_deadline_witness :
    (∀ k d, d ≤ fourPairChip.elapsed k d) ∧
    ⌈((100 : ℤ) : ℚ) / 30⌉.toNat < 5 ∧
    ∃ out s', readRDS fourPairChip 5 (fun _ => 0x20) 100 usDevice = some (out, s') ∧
      usDevice.reads ≤ s'.reads ∧
      ((100 : ℤ) ≤ 0 → s'.reads = usDevice.reads) ∧
      ((0 : ℤ) < 100 → ((s'.reads - usDevice.reads : ℕ) : ℤ) ≤ ⌈((100 : ℤ) : ℚ) / 30⌉) := by
  have hclock : ∀ k d, d ≤ fourPairChip.elapsed k d := fun _ d => le_refl d
  have hceil : ⌈((100 : ℤ) : ℚ) / 30⌉ = 4 := by
    rw [Int.ceil_eq_iff]
    norm_num
  have hfuel : ⌈((100 : ℤ) : ℚ) / 30⌉.toNat < 5 := by
    rw [hceil]
    decide
  exact ⟨hclock, hfuel,
    readRDS_terminates_within_deadline fourPairChip 5 (fun _ => 0x20) 100 usDevice hclock hfuel⟩

/-! ## `setFrequency` in single precision -/

theorem roundHalfEven_err (x : ℚ) : |(roundHalfEven x : ℚ) - x| ≤ 1 / 2 := by
  have h0 : (⌊x⌋ : ℚ) ≤ x := Int.floor_le x
  have h1 : x < (⌊x⌋ : ℚ) + 1 := Int.lt_floor_add_one x
  unfold roundHalfEven
  rw [abs_le]
  split_ifs with a b c
  · constructor <;> linarith
  · push_cast; constructor <;> linarith
  · constructor <;> linarith
  · push_cast; constructor <;> linarith

theorem roundHalfEven_eq (x : ℚ) (n : ℤ) (h : |x - (n : ℚ)| < 1 / 2) : roundHalfEven x = n := by
  have h0 : (⌊x⌋ : ℚ) ≤ x := Int.floor_le x
  have h1 : x < (⌊x⌋ : ℚ) + 1 := Int.lt_floor_add_one x
  have he := roundHalfEven_err x
  rw [abs_lt] at h
  rw [abs_le] at he
  have a : ((roundHalfEven x : ℤ) : ℚ) < (n : ℚ) + 1 := by linarith
  have b : (n : ℚ) - 1 < ((roundHalfEven x : ℤ) : ℚ) := by linarith
  have a' : roundHalfEven x < n + 1 := by exact_mod_cast a
  have b' : n - 1 < roundHalfEven x := by exact_mod_cast b
  omega

theorem log2_abs_eq (x : ℚ) (e : ℤ) (h1 : (2 : ℚ) ^ e ≤ |x|) (h2 : |x| < (2 : ℚ) ^ (e + 1)) :
    Int.log 2 |x| = e := by
  have hpos : (0 : ℚ) < |x| := lt_of_lt_of_le (by positivity) h1
  have a : e ≤ Int.log 2 |x| :=
    (Int.zpow_le_iff_le_log (by norm_num) hpos).mp (by exact_mod_cast h1)
  have b : Int.log 2 |x| < e + 1 :=
    (Int.lt_zpow_iff_log_lt (by norm_num) hpos).mp (by exact_mod_cast h2)
  omega

theorem roundBinary_eq (p : Nat) (emin : Int) (x : ℚ) (e n : ℤ)
    (h1 : (2 : ℚ) ^ e ≤ |x|) (h2 : |x| < (2 : ℚ) ^ (e + 1)) (he : emin ≤ e)
    (hn : |x / (2 : ℚ) ^ (e - ((p : Int) - 1)) - (n : ℚ)| < 1 / 2) :
    roundBinary p emin x = (n : ℚ) * (2 : ℚ) ^ (e - ((p : Int) - 1)) := by
  have hpos : (0 : ℚ) < |x| := lt_of_lt_of_le (by positivity) h1
  have hx : x ≠ 0 := abs_pos.mp hpos
  unfold roundBinary
  rw [if_neg hx, log2_abs_eq x e h1 h2, max_eq_left he, roundHalfEven_eq _ n hn]

theorem roundBinary_err (p : Nat) (emin : Int) (x : ℚ) :
    |roundBinary p emin x - x|
      ≤ |x| * (2 : ℚ) ^ (-(p : Int)) + (2 : ℚ) ^ (emin - (p : Int)) := by
  by_cases hx : x = 0
  · subst hx
    unfold roundBinary
    simp only [if_true, sub_self, abs_zero, zero_mul, zero_add]
    positivity
  unfold roundBinary
  rw [if_neg hx]
  have hpos : (0 : ℚ) < |x| := abs_pos.mpr hx
  set E := max (Int.log 2 |x|) emin with hE
  have hs : (0 : ℚ) < (2 : ℚ) ^ (E - ((p : Int) - 1)) := by positivity
  have herr := roundHalfEven_err (x / (2 : ℚ) ^ (E - ((p : Int) - 1)))
  have e1 : (roundHalfEven (x / (2 : ℚ) ^ (E - ((p : Int) - 1))) : ℚ)
        * (2 : ℚ) ^ (E - ((p : Int) - 1)) - x
      = ((roundHalfEven (x / (2 : ℚ) ^ (E - ((p : Int) - 1))) : ℚ)
          - x / (2 : ℚ) ^ (E - ((p : Int) - 1))) * (2 : ℚ) ^ (E - ((p : Int) - 1)) := by
    field_simp
  rw [e1, abs_mul, abs_of_pos hs]
  have e2 : (2 : ℚ) ^ (E - ((p : Int) - 1)) = 2 * (2 : ℚ) ^ (E - (p : Int)) := by
    have : E - ((p : Int) - 1) = 1 + (E - (p : Int)) := by ring
    rw [this, zpow_add₀ (by norm_num : (2 : ℚ) ≠ 0), zpow_one]
  have hb : |(roundHalfEven (x / (2 : ℚ) ^ (E - ((p : Int) - 1))) : ℚ)
        - x / (2 : ℚ) ^ (E - ((p : Int) - 1))| * (2 : ℚ) ^ (E - ((p : Int) - 1))
      ≤ (2 : ℚ) ^ (E - (p : Int)) := by
    calc _ ≤ 1 / 2 * (2 : ℚ) ^ (E - ((p : Int) - 1)) :=
          mul_le_mul_of_nonneg_right herr (le_of_lt hs)
      _ = (2 : ℚ) ^ (E - (p : Int)) := by rw [e2]; ring
  refine le_trans hb ?_
  have hsplit : (2 : ℚ) ^ (E - (p : Int)) = (2 : ℚ) ^ E * (2 : ℚ) ^ (-(p : Int)) := by
    rw [sub_eq_add_neg, zpow_add₀ (by norm_num : (2 : ℚ) ≠ 0)]
  have hp2 : (0 : ℚ) < (2 : ℚ) ^ (-(p : Int)) := by positivity
  rcases le_total (Int.log 2 |x|) emin with h | h
  · have : E = emin := by rw [hE]; exact max_eq_right h
    rw [this]
    have : (0 : ℚ) ≤ |x| * (2 : ℚ) ^ (-(p : Int)) := by positivity
    linarith
  · have hEq : E = Int.log 2 |x| := by rw [hE]; exact max_eq_left h
    have hle : (2 : ℚ) ^ E ≤ |x| := by
      rw [hEq]
      have := Int.zpow_log_le_self (b := 2) (by norm_num) hpos
      exact_mod_cast this
    rw [hsplit]
    have h3 : (2 : ℚ) ^ E * (2 : ℚ) ^ (-(p : Int)) ≤ |x| * (2 : ℚ) ^ (-(p : Int)) :=
      mul_le_mul_of_nonneg_right hle (le_of_lt hp2)
    have h4 : (0 : ℚ) < (2 : ℚ) ^ (emin - (p : Int)) := by positivity
    linarith

theorem binary32_nearest_err (x : ℚ) :
    |Binary32.nearest x - x| ≤ |x| / 16777216 + 1 / 2 ^ 150 := by
  have h := roundBinary_err 24 (-126) x
  have e1 : (2 : ℚ) ^ (-((24 : ℕ) : Int)) = 1 / 16777216 := by
    rw [zpow_neg]; norm_num
  have e2 : (2 : ℚ) ^ ((-126 : Int) - ((24 : ℕ) : Int)) = 1 / 2 ^ 150 := by
    have : ((-126 : Int) - ((24 : ℕ) : Int)) = -(150 : ℕ) := by norm_num
    rw [this, zpow_neg, zpow_natCast]; norm_num
  rw [e1, e2] at h
  unfold Binary32.nearest
  linarith

theorem binary32_nearest_eq (x : ℚ) (e n : ℤ)
    (h1 : (2 : ℚ) ^ e ≤ |x|) (h2 : |x| < (2 : ℚ) ^ (e + 1)) (he : -126 ≤ e)
    (hn : |x / (2 : ℚ) ^ (e - 23) - (n : ℚ)| < 1 / 2) :
    Binary32.nearest x = (n : ℚ) * (2 : ℚ) ^ (e - 23) := by
  have := roundBinary_eq 24 (-126) x e n h1 h2 he (by simpa using hn)
  unfold Binary32.nearest
  simpa using this

theorem binary64_nearest_eq (x : ℚ) (e n : ℤ)
    (h1 : (2 : ℚ) ^ e ≤ |x|) (h2 : |x| < (2 : ℚ) ^ (e + 1)) (he : -1022 ≤ e)
    (hn : |x / (2 : ℚ) ^ (e - 52) - (n : ℚ)| < 1 / 2) :
    roundBinary 53 (-1022) x = (n : ℚ) * (2 : ℚ) ^ (e - 52) := by
  have := roundBinary_eq 53 (-1022) x e n h1 h2 he (by simpa using hn)
  simpa using this

theorem binary32_nearest_pos (x : ℚ) (e n : ℤ)
    (h1 : (2 : ℚ) ^ e ≤ x) (h2 : x < (2 : ℚ) ^ (e + 1)) (he : -126 ≤ e)
    (hn1 : (n : ℚ) - 1 / 2 < x / (2 : ℚ) ^ (e - 23))
    (hn2 : x / (2 : ℚ) ^ (e - 23) < (n : ℚ) + 1 / 2) :
    Binary32.nearest x = (n : ℚ) * (2 : ℚ) ^ (e - 23) := by
  have hpos : (0 : ℚ) < x := lt_of_lt_of_le (by positivity) h1
  exact binary32_nearest_eq x e n (by rw [abs_of_pos hpos]; exact h1)
    (by rw [abs_of_pos hpos]; exact h2) he (by rw [abs_lt]; constructor <;> linarith)

theorem binary64_nearest_pos (x : ℚ) (e n : ℤ)
    (h1 : (2 : ℚ) ^ e ≤ x) (h2 : x < (2 : ℚ) ^ (e + 1)) (he : -1022 ≤ e)
    (hn1 : (n : ℚ) - 1 / 2 < x / (2 : ℚ) ^ (e - 52))
    (hn2 : x / (2 : ℚ) ^ (e - 52) < (n : ℚ) + 1 / 2) :
    roundBinary 53 (-1022) x = (n : ℚ) * (2 : ℚ) ^ (e - 52) := by
  have hpos : (0 : ℚ) < x := lt_of_lt_of_le (by positivity) h1
  exact binary64_nearest_eq x e n (by rw [abs_of_pos hpos]; exact h1)
    (by rw [abs_of_pos hpos]; exact h2) he (by rw [abs_lt]; constructor <;> linarith)

theorem binary32_ofDouble_fifth : Binary32.ofDouble 0.2 = 13421773 / 67108864 := by
  have h64 : roundBinary 53 (-1022) 0.2 = 3602879701896397 / 18014398509481984 := by
    rw [binary64_nearest_pos 0.2 (-3) 7205759403792794 (by norm_num) (by norm_num) (by norm_num)
      (by norm_num) (by norm_num)]
    norm_num
  unfold Binary32.ofDouble
  rw [h64, binary32_nearest_pos _ (-3) 13421773 (by norm_num) (by norm_num) (by norm_num)
    (by norm_num) (by norm_num)]
  norm_num

theorem binary32_ofDouble_tenth : Binary32.ofDouble 0.1 = 13421773 / 134217728 := by
  have h64 : roundBinary 53 (-1022) 0.1 = 3602879701896397 / 36028797018963968 := by
    rw [binary64_nearest_pos 0.1 (-4) 7205759403792794 (by norm_num) (by norm_num) (by norm_num)
      (by norm_num) (by norm_num)]
    norm_num
  unfold Binary32.ofDouble
  rw [h64, binary32_nearest_pos _ (-4) 13421773 (by norm_num) (by norm_num) (by norm_num)
    (by norm_num) (by norm_num)]
  norm_num

theorem binary32_ofDouble_twentieth : Binary32.ofDouble 0.05 = 13421773 / 268435456 := by
  have h64 : roundBinary 53 (-1022) 0.05 = 3602879701896397 / 72057594037927936 := by
    rw [binary64_nearest_pos 0.05 (-5) 7205759403792794 (by norm_num) (by norm_num) (by norm_num)
      (by norm_num) (by norm_num)]
    norm_num
  unfold Binary32.ofDouble
  rw [h64, binary32_nearest_pos _ (-5) 13421773 (by norm_num) (by norm_num) (by norm_num)
    (by norm_num) (by norm_num)]
  norm_num

theorem binary32_ofDouble_875 : Binary32.ofDouble 87.5 = 87.5 := by
  have h64 : roundBinary 53 (-1022) 87.5 = 87.5 := by
    rw [binary64_nearest_pos 87.5 6 6157265115545600 (by norm_num) (by norm_num) (by norm_num)
      (by norm_num) (by norm_num)]
    norm_num
  unfold Binary32.ofDouble
  rw [h64, binary32_nearest_pos _ 6 11468800 (by norm_num) (by norm_num) (by norm_num)
    (by norm_num) (by norm_num)]
  norm_num

theorem binary32_ofDouble_76 : Binary32.ofDouble 76.0 = 76.0 := by
  have h64 : roundBinary 53 (-1022) 76.0 = 76.0 := by
    rw [binary64_nearest_pos 76.0 6 5348024557502464 (by norm_num) (by norm_num) (by norm_num)
      (by norm_num) (by norm_num)]
    norm_num
  unfold Binary32.ofDouble
  rw [h64, binary32_nearest_pos _ 6 9961472 (by norm_num) (by norm_num) (by norm_num)
    (by norm_num) (by norm_num)]
  norm_num

theorem binary32_ofDouble_fiftieth : Binary32.ofDouble 0.02 = 5368709 / 268435456 := by
  have h64 : roundBinary 53 (-1022) 0.02 = 5764607523034235 / 288230376151711744 := by
    rw [binary64_nearest_pos 0.02 (-6) 5764607523034235 (by norm_num) (by norm_num) (by norm_num)
      (by norm_num) (by norm_num)]
    norm_num
  unfold Binary32.ofDouble
  rw [h64, binary32_nearest_pos _ (-6) 10737418 (by norm_num) (by norm_num) (by norm_num)
    (by norm_num) (by norm_num)]
  norm_num

theorem binary32_nearest_thousandth : Binary32.nearest 0.001 = 8589935 / 8589934592 := by
  rw [binary32_nearest_pos 0.001 (-10) 8589935 (by norm_num) (by norm_num) (by norm_num)
    (by norm_num) (by norm_num)]
  norm_num

theorem binary32_minFrequency_eq (s : Si4703_Breakout) :
    Binary32.minFrequency s = minFrequency s := by
  unfold Binary32.minFrequency minFrequency
  cases s.band_
  · simp only [binary32_ofDouble_875]
  · rfl
  · simp only [binary32_ofDouble_76]

theorem binary32_channelSpacing_eq (s : Si4703_Breakout) :
    Binary32.channelSpacing s = channelSpacing s * (67108865 / 67108864) := by
  unfold Binary32.channelSpacing channelSpacing
  cases s.channel_spacing_
  · simp only [binary32_ofDouble_fifth]; norm_num
  · simp only [binary32_ofDouble_tenth]; norm_num
  · simp only [binary32_ofDouble_twentieth]; norm_num

theorem binary32_nearest_natCast (n : Nat) (hn : n < 16777216) :
    Binary32.nearest (n : ℚ) = (n : ℚ) := by
  by_cases h0 : n = 0
  · subst h0
    unfold Binary32.nearest roundBinary
    simp
  have hL : Nat.log 2 n < 24 := Nat.log_lt_of_lt_pow h0 (by norm_num; exact hn)
  have hlo : 2 ^ Nat.log 2 n ≤ n := Nat.pow_log_le_self 2 h0
  have hhi : n < 2 ^ (Nat.log 2 n + 1) := Nat.lt_pow_succ_log_self (by norm_num) n
  have hlo' : (2 : ℚ) ^ ((Nat.log 2 n : ℕ) : ℤ) ≤ (n : ℚ) := by
    rw [zpow_natCast]; exact_mod_cast hlo
  have hhi' : (n : ℚ) < (2 : ℚ) ^ (((Nat.log 2 n : ℕ) : ℤ) + 1) := by
    have : (((Nat.log 2 n : ℕ) : ℤ) + 1) = ((Nat.log 2 n + 1 : ℕ) : ℤ) := by push_cast; ring
    rw [this, zpow_natCast]; exact_mod_cast hhi
  have hsplit : (2 : ℚ) ^ (((Nat.log 2 n : ℕ) : ℤ) - 23)
      = 1 / (2 : ℚ) ^ (23 - Nat.log 2 n) := by
    have : (((Nat.log 2 n : ℕ) : ℤ) - 23) = -((23 - Nat.log 2 n : ℕ) : ℤ) := by omega
    rw [this, zpow_neg, zpow_natCast]
    simp
  have hp : (0 : ℚ) < (2 : ℚ) ^ (23 - Nat.log 2 n) := by positivity
  have hdiv : (n : ℚ) / (2 : ℚ) ^ (((Nat.log 2 n : ℕ) : ℤ) - 23)
      = (((n * 2 ^ (23 - Nat.log 2 n) : ℕ) : ℤ) : ℚ) := by
    rw [hsplit]
    push_cast
    field_simp
  rw [binary32_nearest_pos (n : ℚ) ((Nat.log 2 n : ℕ) : ℤ) ((n * 2 ^ (23 - Nat.log 2 n) : ℕ) : ℤ)
    hlo' hhi' (by omega) (by rw [hdiv]; linarith) (by rw [hdiv]; linarith)]
  rw [hsplit]
  push_cast
  field_simp

theorem binary32_ofUInt16_eq (n : Nat) (hn : n < 65536) : Binary32.ofUInt16 n = (n : ℚ) :=
  binary32_nearest_natCast n (by omega)

theorem binary32_offset_err (o q x : ℚ) (h0 : 0 ≤ o) (h1 : o * (67108865 / 67108864) ≤ 1023)
    (hq : |q - o| ≤ o / 16777216 + 20 * (1 / 2 ^ 150))
    (hx : |x - q| ≤ |q| / 16777216 + 1 / 2 ^ 150) :
    |x - o * (67108865 / 67108864)| ≤ 1 / 2000 := by
  have hη : (0 : ℚ) < 1 / 2 ^ 150 := by positivity
  have hη2 : (1 : ℚ) / 2 ^ 150 ≤ 1 / 2 ^ 40 := by
    apply one_div_le_one_div_of_le (by positivity)
    exact pow_le_pow_right₀ (by norm_num) (by norm_num)
  have hη3 : (1 : ℚ) / 2 ^ 40 = 1 / 1099511627776 := by norm_num
  rw [hη3] at hη2
  rw [abs_le] at hq
  obtain ⟨hq1, hq2⟩ := hq
  have hqa : |q| ≤ o + o / 16777216 + 20 * (1 / 2 ^ 150) := by
    rw [abs_le]; constructor <;> linarith
  rw [abs_le] at hx
  obtain ⟨hx1, hx2⟩ := hx
  rw [abs_le]
  constructor <;> linarith

theorem binary32_rejects (x o t : ℚ) (c : ℤ)
    (hxo : |x - o| ≤ 1 / 2000) (hoc : (0.021 : ℚ) ≤ |o - (c : ℚ)|)
    (ht : |t - (x - (c : ℚ))| ≤ |x - (c : ℚ)| / 16777216 + 1 / 2 ^ 150) :
    ¬ |t| < (5368709 / 268435456 : ℚ) := by
  have hη2 : (1 : ℚ) / 2 ^ 150 ≤ 1 / 2 ^ 40 := by
    apply one_div_le_one_div_of_le (by positivity)
    exact pow_le_pow_right₀ (by norm_num) (by norm_num)
  have hη3 : (1 : ℚ) / 2 ^ 40 = 1 / 1099511627776 := by norm_num
  rw [hη3] at hη2
  rw [abs_le] at hxo
  obtain ⟨a1, a2⟩ := hxo
  intro hlt
  rw [abs_lt] at hlt
  obtain ⟨l1, l2⟩ := hlt
  rcases le_abs'.mp hoc with h | h
  · -- o - c ≤ -0.021
    have hneg : x - (c : ℚ) < 0 := by norm_num at h ⊢; linarith
    rw [abs_of_neg hneg, abs_le] at ht
    obtain ⟨t1, t2⟩ := ht
    norm_num at h
    linarith
  · have hpos : 0 < x - (c : ℚ) := by norm_num at h ⊢; linarith
    rw [abs_of_pos hpos, abs_le] at ht
    obtain ⟨t1, t2⟩ := ht
    norm_num at h
    linarith

theorem channelSpacing_ge (s : Si4703_Breakout) : (1 / 20 : ℚ) ≤ channelSpacing s := by
  unfold channelSpacing
  split <;> norm_num

theorem binary32_fchannel_err (s : Si4703_Breakout) (f m : ℚ)
    (hlo : m ≤ f) (hhi : f ≤ m + 1023 * channelSpacing s) :
    |Binary32.nearest (Binary32.nearest (f - m) / Binary32.channelSpacing s)
        - (f - m) / channelSpacing s| ≤ 1 / 2000 := by
  have hsp := channelSpacing_pos s
  have hge := channelSpacing_ge s
  have hA : 0 ≤ f - m := by linarith
  have h32 : Binary32.channelSpacing s = channelSpacing s * (67108865 / 67108864) :=
    binary32_channelSpacing_eq s
  have hsp32 : 0 < Binary32.channelSpacing s := by rw [h32]; positivity
  have hinv : 1 / Binary32.channelSpacing s ≤ 20 := by
    rw [div_le_iff₀ hsp32, h32]
    nlinarith
  have ho : (f - m) / channelSpacing s
      = (f - m) / Binary32.channelSpacing s * (67108865 / 67108864) := by
    rw [h32]; field_simp; ring
  have ho1 : (f - m) / channelSpacing s ≤ 1023 := by
    rw [div_le_iff₀ hsp]; linarith
  have hd := binary32_nearest_err (f - m)
  rw [abs_of_nonneg hA] at hd
  have hq : |Binary32.nearest (f - m) / Binary32.channelSpacing s
        - (f - m) / Binary32.channelSpacing s|
      ≤ (f - m) / Binary32.channelSpacing s / 16777216 + 20 * (1 / 2 ^ 150) := by
    have e : Binary32.nearest (f - m) / Binary32.channelSpacing s
          - (f - m) / Binary32.channelSpacing s
        = (Binary32.nearest (f - m) - (f - m)) * (1 / Binary32.channelSpacing s) := by
      field_simp
    have hinv0 : 0 ≤ 1 / Binary32.channelSpacing s := by positivity
    rw [e, abs_mul, abs_of_nonneg hinv0]
    have hη : (0 : ℚ) ≤ 1 / 2 ^ 150 := by positivity
    calc |Binary32.nearest (f - m) - (f - m)| * (1 / Binary32.channelSpacing s)
        ≤ ((f - m) / 16777216 + 1 / 2 ^ 150) * (1 / Binary32.channelSpacing s) :=
          mul_le_mul_of_nonneg_right hd hinv0
      _ = (f - m) / Binary32.channelSpacing s / 16777216
            + 1 / 2 ^ 150 * (1 / Binary32.channelSpacing s) := by
          field_simp
          ring
      _ ≤ (f - m) / Binary32.channelSpacing s / 16777216 + 20 * (1 / 2 ^ 150) := by
          have := mul_le_mul_of_nonneg_left hinv hη
          linarith
  rw [ho]
  exact binary32_offset_err ((f - m) / Binary32.channelSpacing s) _ _
    (div_nonneg hA (le_of_lt hsp32)) (by rw [← ho]; exact ho1) hq
    (binary32_nearest_err _)

/-- C4 (as amended): in the single-precision arithmetic of the code, every
frequency f from the band minimum up to 1023 channel spacings above it whose
offset (f - minFrequency) / spacing is at least 0.021 away from every integer
(for example 101.05 MHz on the US 200 kHz grid) is rejected by `setFrequency`
without touching hardware state: the call returns the object unchanged, so no
bus read and no bus write is issued and all 16 registers keep their values. -/
theorem setFrequency_rejects_clear_of_grid (chip : Chip) (fuel : Nat) (f m : ℚ)
    (s : Si4703_Breakout) (hm : minFrequency s = some m)
    (hlo : m ≤ f) (hhi : f ≤ m + 1023 * channelSpacing s)
    (hoff : ∀ n : ℤ, (0.021 : ℚ) ≤ |(f - m) / channelSpacing s - (n : ℚ)|) :
    ∃ s', Binary32.setFrequency chip fuel f s = some s' ∧ s' = s ∧
      s'.trace = s.trace ∧ s'.reads = s.reads ∧ s'.writes = s.writes ∧
      ∀ r : Fin 16, s'.registers_ r = s.registers_ r := by
  refine ⟨s, ?_, rfl, rfl, rfl, rfl, fun _ => rfl⟩
  unfold Binary32.setFrequency Binary32.frequencyToChannel
  rw [binary32_minFrequency_eq, hm]
  simp only
  rw [if_pos]
  unfold Binary32.FloatsEqual
  rw [binary32_ofUInt16_eq _ (toUint16_lt _), binary32_ofDouble_fiftieth]
  simp only [Bool.not_eq_true', decide_eq_false_iff_not]
  exact binary32_rejects _ _ _
    ((toUint16 (Binary32.nearest (Binary32.nearest 0.001
      + Binary32.nearest (Binary32.nearest (f - m) / Binary32.channelSpacing s))) : ℕ) : ℤ)
    (binary32_fchannel_err s f m hlo hhi)
    (by exact_mod_cast hoff _)
    (by exact_mod_cast binary32_nearest_err _)

theorem binary32_europe_113_402 (chip : Chip) (fuel : Nat) :
    Binary32.nearest (14863827 / 131072) = 14863827 / 131072 ∧
    Binary32.nearest
        (Binary32.nearest ((14863827 / 131072 : ℚ) - 87.5) / Binary32.channelSpacing europeDevice)
      = 8487567 / 32768 ∧
    Binary32.frequencyToChannel europeDevice (14863827 / 131072) = some 259 ∧
    Binary32.FloatsEqual (8487567 / 32768) (Binary32.ofUInt16 259) = true ∧
    Binary32.setFrequency chip fuel (14863827 / 131072) europeDevice
      = tuneHandshake chip fuel 259 europeDevice := by
  have hsp : Binary32.channelSpacing europeDevice = 13421773 / 134217728 :=
    binary32_ofDouble_tenth
  have hmin : Binary32.minFrequency europeDevice = some 87.5 := by
    rw [binary32_minFrequency_eq]; rfl
  have hf : Binary32.nearest (14863827 / 131072) = 14863827 / 131072 := by
    rw [binary32_nearest_pos _ 6 14863827 (by norm_num) (by norm_num) (by norm_num)
      (by norm_num) (by norm_num)]
    norm_num
  have hd : Binary32.nearest ((14863827 / 131072 : ℚ) - 87.5) = 3395027 / 131072 := by
    rw [binary32_nearest_pos _ 4 13580108 (by norm_num) (by norm_num) (by norm_num)
      (by norm_num) (by norm_num)]
    norm_num
  have hx : Binary32.nearest ((3395027 / 131072 : ℚ) / (13421773 / 134217728))
      = 8487567 / 32768 := by
    rw [binary32_nearest_pos _ 8 8487567 (by norm_num) (by norm_num) (by norm_num)
      (by norm_num) (by norm_num)]
    norm_num
  have hy : Binary32.nearest ((8589935 / 8589934592 : ℚ) + 8487567 / 32768)
      = 530475 / 2048 := by
    rw [binary32_nearest_pos _ 8 8487600 (by norm_num) (by norm_num) (by norm_num)
      (by norm_num) (by norm_num)]
    norm_num
  have hc : toUint16 (530475 / 2048) = 259 :=
    toUint16_eq _ 259 (by norm_num) (by norm_num) (by decide)
  have hb : Binary32.ofUInt16 259 = 259 := by
    have := binary32_ofUInt16_eq 259 (by decide)
    exact_mod_cast this
  have ht : Binary32.nearest ((8487567 / 32768 : ℚ) - 259) = 655 / 32768 := by
    rw [binary32_nearest_pos _ (-6) 10731520 (by norm_num) (by norm_num) (by norm_num)
      (by norm_num) (by norm_num)]
    norm_num
  have hfc : Binary32.nearest
        (Binary32.nearest ((14863827 / 131072 : ℚ) - 87.5) / Binary32.channelSpacing europeDevice)
      = 8487567 / 32768 := by
    rw [hd, hsp, hx]
  have hch : Binary32.frequencyToChannel europeDevice (14863827 / 131072) = some 259 := by
    unfold Binary32.frequencyToChannel
    rw [hmin]
    simp only [hfc, binary32_nearest_thousandth, hy, hc]
  have heq : Binary32.FloatsEqual (8487567 / 32768) (Binary32.ofUInt16 259) = true := by
    unfold Binary32.FloatsEqual
    rw [hb, ht, binary32_ofDouble_fiftieth, decide_eq_true_iff, abs_lt]
    constructor <;> norm_num
  refine ⟨hf, hfc, hch, heq, ?_⟩
  unfold Binary32.setFrequency
  rw [hmin, hch]
  simp only [hfc, heq]
  rfl

/-- Witness for C4 (as amended): the `float` nearest to 101.05 MHz
(6622413 / 65536) on the US device (200 kHz spacing, offset 67.75 channels). -/
theorem setFrequency_rejects_clear_of_grid_witness :
    Binary32.nearest (6622413 / 65536) = 6622413 / 65536 ∧
    minFrequency usDevice = some 87.5 ∧
    (87.5 : ℚ) ≤ 6622413 / 65536 ∧
    (6622413 / 65536 : ℚ) ≤ 87.5 + 1023 * channelSpacing usDevice ∧
    (∀ n : ℤ, (0.021 : ℚ)
      ≤ |((6622413 / 65536 : ℚ) - 87.5) / channelSpacing usDevice - (n : ℚ)|) ∧
    ∃ s', Binary32.setFrequency countingChip 3 (6622413 / 65536) usDevice = some s' ∧
      s' = usDevice ∧
      s'.trace = usDevice.trace ∧ s'.reads = usDevice.reads ∧ s'.writes = usDevice.writes ∧
      ∀ r : Fin 16, s'.registers_ r = usDevice.registers_ r := by
  have hsp : channelSpacing usDevice = 0.2 := rfl
  have hoff : ∀ n : ℤ, (0.021 : ℚ)
      ≤ |((6622413 / 65536 : ℚ) - 87.5) / channelSpacing usDevice - (n : ℚ)| := by
    intro n
    by_contra hcon
    rw [not_le, hsp, abs_lt] at hcon
    obtain ⟨h1, h2⟩ := hcon
    have a : (67 : ℚ) < (n : ℚ) := by norm_num at h1 h2 ⊢; linarith
    have b : (n : ℚ) < 68 := by norm_num at h1 h2 ⊢; linarith
    have a' : (67 : ℤ) < n := by exact_mod_cast a
    have b' : n < (68 : ℤ) := by exact_mod_cast b
    omega
  have hlo : (87.5 : ℚ) ≤ 6622413 / 65536 := by norm_num
  have hhi : (6622413 / 65536 : ℚ) ≤ 87.5 + 1023 * channelSpacing usDevice := by
    rw [hsp]; norm_num
  have hfl : Binary32.nearest (6622413 / 65536) = 6622413 / 65536 := by
    rw [binary32_nearest_pos _ 6 13244826 (by norm_num) (by norm_num) (by norm_num)
      (by norm_num) (by norm_num)]
    norm_num
  exact ⟨hfl, rfl, hlo, hhi, hoff,
    setFrequency_rejects_clear_of_grid countingChip 3 (6622413 / 65536) 87.5 usDevice rfl
      hlo hhi hoff⟩

/-- Counterexample to C4 as stated: the `float` 14863827 / 131072
(113.402 MHz, bit pattern 0x42E2CDD3) on the Europe device (100 kHz spacing).
Its offset (f - 87.5) / 0.1 = 259.0200043 is not within the tolerance 0.02 of
any integer, but in single precision the code computes the offset
8487567 / 32768 = 259.01999 and the channel code 259, finds them equal to
within 0.02, and tunes: with the handshake chip it issues six bus reads and
two control writes, the first with CHANNEL = 0x8103 (TUNE and channel 259). -/
theorem setFrequency_accepts_off_tolerance :
    Binary32.nearest (14863827 / 131072) = 14863827 / 131072 ∧
    minFrequency europeDevice = some 87.5 ∧
    channelSpacing europeDevice = 0.1 ∧
    (∀ n : ℤ, ¬ |((14863827 / 131072 : ℚ) - 87.5) / 0.1 - (n : ℚ)| < 0.02) ∧
    Binary32.nearest
        (Binary32.nearest ((14863827 / 131072 : ℚ) - 87.5) / Binary32.channelSpacing europeDevice)
      = 8487567 / 32768 ∧
    Binary32.frequencyToChannel europeDevice (14863827 / 131072) = some 259 ∧
    (Binary32.setFrequency (handshakeChip 0 0) 5 (14863827 / 131072) europeDevice).map
        (fun s' => s'.trace)
      = some [BusEvent.busRead 32,
          BusEvent.busWrite [0x40, 0x01, 0x81, 0x03, 0, 0, 0, 0, 0, 0, 0, 0] 12,
          BusEvent.busRead 32, BusEvent.busRead 32, BusEvent.busRead 32,
          BusEvent.busWrite [0x40, 0x01, 0, 0, 0, 0, 0, 0, 0, 0, 0, 0] 12,
          BusEvent.busRead 32, BusEvent.busRead 32] := by
  obtain ⟨hf, hfc, hch, _, hset⟩ := binary32_europe_113_402 (handshakeChip 0 0) 5
  refine ⟨hf, rfl, rfl, ?_, hfc, hch, ?_⟩
  · intro n h
    rw [abs_lt] at h
    obtain ⟨h1, h2⟩ := h
    have a : (259 : ℚ) < (n : ℚ) := by norm_num at h1 h2 ⊢; linarith
    have b : (n : ℚ) < 260 := by norm_num at h1 h2 ⊢; linarith
    have a' : (259 : ℤ) < n := by exact_mod_cast a
    have b' : n < (260 : ℤ) := by exact_mod_cast b
    omega
  · rw [hset]
    decide
end Si4703
